import Mathlib

/-!
# PeopleDistributor: verification of the optimization core

Shallow embedding of the optimization engine of the PeopleDistributor
repository (`src/PeopleDistributor/State.cpp`, `State.h`,
`subroutines.cpp`), together with proofs settling the claims about it.

Modelling conventions:

* C++ `unsigned int` counters (the entries of `curr_contacts`) are `Nat`
  with explicit wraparound modulo `2^32` on increment (`cinc`) and
  decrement (`cdec`), mirroring unsigned overflow semantics.
* C++ `int` quantities (`curr_num_contacts`, the contact deltas) are `Int`.
* The xorshift128+ generator works on `Nat` with explicit masking
  modulo `2^64`.
* `throw std::runtime_error` is modelled by `Option`: a function that can
  throw returns `none` exactly when the C++ code would throw.
* `x % n` with `n = 0` (undefined behavior in C++) is modelled by
  `randMod` returning `none`.
* `std::shuffle(v.begin()+k, v.end(), gen)` applies an arbitrary
  permutation of the suffix; the permutation is an explicit parameter
  `σ : Nat → Nat` of the initialization, acting on suffix offsets.
  The hard-coded offsets `6` (males) and `2` (females) of the source are
  kept (`State.cpp` lines 450 and 482).
* The floating-point Metropolis comparison
  `u / UINT64_MAX < exp(delta / temp)` in
  `perform_simulated_annealing_step` is abstracted as an oracle
  parameter `accept : Nat → Int → Bool` receiving the freshly drawn
  64-bit value and the contact delta.
* The 3-d `std::vector` schedules and the 2-d contact matrix are total
  functions out of `Nat`; all claims quantify only over in-range indices.
-/

namespace PeopleDist

/-- `2^32`, the wrap modulus of the C++ `unsigned int` counters. -/
def UW : Nat := 4294967296

/-- `2^64`, the wrap modulus of C++ `uint64_t`. -/
def U64 : Nat := 18446744073709551616

/-- Increment of an `unsigned int` counter (`c++`). -/
def cinc (n : Nat) : Nat := (n + 1) % UW

/-- Decrement of an `unsigned int` counter (`c--`). -/
def cdec (n : Nat) : Nat := (n + (UW - 1)) % UW

/-- The two 64-bit words of the xorshift128+ generator (`State.h`). -/
structure xorshift128p_state where
  a : Nat
  b : Nat

/-- One step of the xorshift128+ generator (`State.h` lines 24-34):
returns the produced 64-bit value and the new generator state. -/
def xorshift128p (st : xorshift128p_state) : Nat × xorshift128p_state :=
  let t0 := st.a
  let s0 := st.b
  let t1 := t0 ^^^ ((t0 <<< 23) % U64)
  let t2 := t1 ^^^ (t1 >>> 17)
  let t3 := t2 ^^^ s0 ^^^ (s0 >>> 26)
  ((t3 + s0) % U64, ⟨s0, t3⟩)

/-- A draw `xorshift128p(&rnd_state) % n`. The C++ `%` with `n = 0` is
undefined behavior (it arises in the drivers when `number_of_days == 1`
or when a group has no movable slot); it is modelled by `none`. -/
def randMod (st : xorshift128p_state) (n : Nat) : Option (Nat × xorshift128p_state) :=
  let v := xorshift128p st
  if n = 0 then none else some (v.1 % n, v.2)

/-- The mutable optimization state (`State.h`).  The id seated in slot `p`
of group `g` on day `d` is `m_day_group_person d g p` for males and
`f_day_group_person d g p` for females. -/
structure State where
  number_of_groups : Nat
  number_of_males_per_group : Nat
  number_of_females_per_group : Nat
  number_of_days : Nat
  m_day_group_person : Nat → Nat → Nat → Nat
  f_day_group_person : Nat → Nat → Nat → Nat
  curr_contacts : Nat → Nat → Nat
  curr_num_contacts : Int
  m_number_of_immovable_people_per_group : Nat → Nat
  f_number_of_immovable_people_per_group : Nat → Nat
  rnd_state : xorshift128p_state

/-- Point update of the contact matrix. -/
def updC (C : Nat → Nat → Nat) (x y v : Nat) : Nat → Nat → Nat :=
  fun i j => if i = x ∧ j = y then v else C i j

/-- Point update of a 3-d schedule array. -/
def updM (m : Nat → Nat → Nat → Nat) (d g p v : Nat) : Nat → Nat → Nat → Nat :=
  fun d1 g1 p1 => if d1 = d ∧ g1 = g ∧ p1 = p then v else m d1 g1 p1

/-- `total_males` of `State::initialize`. -/
def total_males (s : State) : Nat :=
  s.number_of_groups * s.number_of_males_per_group

/-- `total_people` of `State::initialize`. -/
def total_people (s : State) : Nat :=
  s.number_of_groups * (s.number_of_males_per_group + s.number_of_females_per_group)

/-! ## The contact-delta evaluator (`State.cpp` lines 29-131) -/
/-- One loss-tally loop of `contact_delta_of_swap_m` (`State.cpp`
lines 40-47 and 50-57).  `occ q` is the occupant of slot `q` of the
scanned group, `p` the person whose losses are tallied.  Every slot is
visited (the person's own slot is not skipped).  `none` models the
`throw` on a zero entry. -/
def deltaLossLoop (C : Nat → Nat → Nat) (occ : Nat → Nat) (p M : Nat) : Option Int :=
  (List.range M).foldl
    (fun acc q => acc.bind fun d =>
      if C (occ q) p = 0 then none
      else if C (occ q) p = 1 then some (d - 1) else some d)
    (some 0)

/-- Loss-tally loop of `contact_delta_of_swap_f` (`State.cpp` lines
92-99 and 102-109): identical to `deltaLossLoop` except that the
`throw` is commented out in the source, so it is total. -/
def deltaLossLoopF (C : Nat → Nat → Nat) (occ : Nat → Nat) (p M : Nat) : Int :=
  (List.range M).foldl
    (fun d q => if C (occ q) p = 1 then d - 1 else d) 0

/-- One gain-tally loop of the delta evaluators (`State.cpp` lines
60-76 and 112-128).  `skip` is the slot of the person leaving the
scanned group (`male2` resp. `male1`); the gain at that slot is not
counted. -/
def deltaGainLoop (C : Nat → Nat → Nat) (occ : Nat → Nat) (p skip M : Nat) : Int :=
  (List.range M).foldl
    (fun d q => if C (occ q) p = 0 then (if q ≠ skip then d + 1 else d) else d) 0

/-- `State::contact_delta_of_swap_m` (`State.cpp` lines 29-79).
Returns `none` when the source throws. -/
def contact_delta_of_swap_m (s : State) (day male_group1 male1 male_group2 male2 : Nat) :
    Option Int :=
  if male_group1 = male_group2 then some 0
  else
    let male1_num := s.m_day_group_person day male_group1 male1
    let male2_num := s.m_day_group_person day male_group2 male2
    (deltaLossLoop s.curr_contacts (fun q => s.m_day_group_person day male_group1 q)
        male1_num s.number_of_males_per_group).bind fun l1 =>
    (deltaLossLoop s.curr_contacts (fun q => s.m_day_group_person day male_group2 q)
        male2_num s.number_of_males_per_group).bind fun l2 =>
    some (l1 + l2
      + deltaGainLoop s.curr_contacts (fun q => s.m_day_group_person day male_group2 q)
          male1_num male2 s.number_of_males_per_group
      + deltaGainLoop s.curr_contacts (fun q => s.m_day_group_person day male_group1 q)
          male2_num male1 s.number_of_males_per_group)

/-- `State::contact_delta_of_swap_f` (`State.cpp` lines 81-131).  The
zero-entry `throw`s are commented out in the source, so it is total. -/
def contact_delta_of_swap_f (s : State) (day female_group1 female1 female_group2 female2 : Nat) :
    Int :=
  if female_group1 = female_group2 then 0
  else
    let female1_num := s.f_day_group_person day female_group1 female1
    let female2_num := s.f_day_group_person day female_group2 female2
    deltaLossLoopF s.curr_contacts (fun q => s.f_day_group_person day female_group1 q)
        female1_num s.number_of_females_per_group
    + deltaLossLoopF s.curr_contacts (fun q => s.f_day_group_person day female_group2 q)
        female2_num s.number_of_females_per_group
    + deltaGainLoop s.curr_contacts (fun q => s.f_day_group_person day female_group2 q)
        female1_num female2 s.number_of_females_per_group
    + deltaGainLoop s.curr_contacts (fun q => s.f_day_group_person day female_group1 q)
        female2_num female1 s.number_of_females_per_group

/-! ## The swap applier (`State.cpp` lines 133-275) -/
/-- One loss loop of `swap_m`/`swap_f` (`State.cpp` lines 150-162 etc.):
slot `skip` (holding the newly arrived person) is skipped; a zero entry
throws (`none`); an entry equal to `1` decrements the score; both
orientations of the matrix entry are decremented. -/
def swapLossLoop (C0 : Nat → Nat → Nat) (sc0 : Int) (occ : Nat → Nat) (p skip M : Nat) :
    Option ((Nat → Nat → Nat) × Int) :=
  (List.range M).foldl
    (fun acc q =>
      acc.bind fun cs =>
        if q = skip then some cs
        else if cs.1 (occ q) p = 0 then none
        else
          let sc1 := if cs.1 (occ q) p = 1 then cs.2 - 1 else cs.2
          let C1 := updC cs.1 (occ q) p (cdec (cs.1 (occ q) p))
          let C2 := updC C1 p (occ q) (cdec (C1 p (occ q)))
          some (C2, sc1))
    (some (C0, sc0))

/-- One gain loop of `swap_m`/`swap_f` (`State.cpp` lines 178-189 etc.):
a zero entry at a non-skipped slot increments the score; both
orientations are incremented at non-skipped slots. -/
def swapGainLoop (C0 : Nat → Nat → Nat) (sc0 : Int) (occ : Nat → Nat) (p skip M : Nat) :
    (Nat → Nat → Nat) × Int :=
  (List.range M).foldl
    (fun cs q =>
      let sc1 := if cs.1 (occ q) p = 0 ∧ q ≠ skip then cs.2 + 1 else cs.2
      if q = skip then (cs.1, sc1)
      else
        let C1 := updC cs.1 (occ q) p (cinc (cs.1 (occ q) p))
        let C2 := updC C1 p (occ q) (cinc (C1 p (occ q)))
        (C2, sc1))
    (C0, sc0)

/-- The contact-matrix/score update shared by `swap_m` and `swap_f`
(the four loops of `State.cpp` lines 148-202 resp. 220-274, which are
textually identical up to the scanned array): two loss loops followed by
two gain loops, in source order. -/
def swapContactsUpdate (C0 : Nat → Nat → Nat) (sc0 : Int) (occ1 occ2 : Nat → Nat)
    (p1 p2 skip1 skip2 M : Nat) : Option ((Nat → Nat → Nat) × Int) :=
  (swapLossLoop C0 sc0 occ1 p1 skip1 M).bind fun cs1 =>
  (swapLossLoop cs1.1 cs1.2 occ2 p2 skip2 M).bind fun cs2 =>
  let cs3 := swapGainLoop cs2.1 cs2.2 occ2 p1 skip2 M
  some (swapGainLoop cs3.1 cs3.2 occ1 p2 skip1 M)

/-- `State::swap_m` (`State.cpp` lines 133-203).  The two occupants are
exchanged first; when the groups coincide the routine returns right
after the physical swap; otherwise the loops read the already swapped
schedule. `none` models the `throw` on a zero entry. -/
def swap_m (s : State) (day male_group1 male1 male_group2 male2 : Nat) : Option State :=
  let male1_num := s.m_day_group_person day male_group1 male1
  let male2_num := s.m_day_group_person day male_group2 male2
  let m1 := updM s.m_day_group_person day male_group2 male2 male1_num
  let m2 := updM m1 day male_group1 male1 male2_num
  if male_group1 = male_group2 then some { s with m_day_group_person := m2 }
  else
    (swapContactsUpdate s.curr_contacts s.curr_num_contacts
        (fun q => m2 day male_group1 q) (fun q => m2 day male_group2 q)
        male1_num male2_num male1 male2 s.number_of_males_per_group).map fun cs =>
      { s with m_day_group_person := m2, curr_contacts := cs.1, curr_num_contacts := cs.2 }

/-- `State::swap_f` (`State.cpp` lines 205-275): the mirror of `swap_m`
on the female schedule. -/
def swap_f (s : State) (day female_group1 female1 female_group2 female2 : Nat) : Option State :=
  let female1_num := s.f_day_group_person day female_group1 female1
  let female2_num := s.f_day_group_person day female_group2 female2
  let f1 := updM s.f_day_group_person day female_group2 female2 female1_num
  let f2 := updM f1 day female_group1 female1 female2_num
  if female_group1 = female_group2 then some { s with f_day_group_person := f2 }
  else
    (swapContactsUpdate s.curr_contacts s.curr_num_contacts
        (fun q => f2 day female_group1 q) (fun q => f2 day female_group2 q)
        female1_num female2_num female1 female2 s.number_of_females_per_group).map fun cs =>
      { s with f_day_group_person := f2, curr_contacts := cs.1, curr_num_contacts := cs.2 }

/-- `State::add_number_of_immovable_males_per_group` (`State.cpp`
lines 277-280): a plain setter. -/
def add_number_of_immovable_males_per_group (s : State) (v : Nat → Nat) : State :=
  { s with m_number_of_immovable_people_per_group := v }

/-- `State::add_number_of_immovable_females_per_group` (`State.cpp`
lines 282-285): a plain setter. -/
def add_number_of_immovable_females_per_group (s : State) (v : Nat → Nat) : State :=
  { s with f_number_of_immovable_people_per_group := v }

/-! ## Initialization (`State.cpp` lines 384-550) -/
/-- The id list `[0, …, total-1]` after
`std::shuffle(v.begin()+off, v.end(), gen)`, as a function of the
position: positions below the hard-coded offset keep their ids,
position `off + j` receives id `off + σ j`, where `σ` is the
permutation of suffix offsets chosen by the generator. -/
def shuffled_ids (off : Nat) (σ : Nat → Nat) : Nat → Nat :=
  fun i => if i < off then i else off + σ (i - off)

/-- One bookkeeping event of the contact pass of `State::initialize`
(lines 497-549): `(cross, a, b)` increments `curr_contacts[a][b]`
(and, when `cross = true`, also `curr_contacts[b][a]`), and bumps the
score if the entry was zero — unconditionally for cross events, only
when `a < b` for same-sex events. -/
def contactStep (cs : (Nat → Nat → Nat) × Int) (e : Bool × Nat × Nat) :
    (Nat → Nat → Nat) × Int :=
  match e with
  | (cross, a, b) =>
    let new_contact := cs.1 a b == 0
    let C1 := updC cs.1 a b (cinc (cs.1 a b))
    let C2 := if cross then updC C1 b a (cinc (C1 b a)) else C1
    let sc1 := if new_contact then
        (if cross then cs.2 + 1 else if a < b then cs.2 + 1 else cs.2)
      else cs.2
    (C2, sc1)

/-- The sequence of bookkeeping events of the contact pass of
`State::initialize` (lines 497-549), in source order: for each day and
group, for each male slot `male1` first all male-male ordered pairs,
then all male-female pairs; afterwards all female-female ordered
pairs. -/
def initEvents (G M F : Nat) (D : Nat) (m f : Nat → Nat → Nat → Nat) :
    List (Bool × Nat × Nat) :=
  (List.range D).flatMap fun d =>
    (List.range G).flatMap fun g =>
      ((List.range M).flatMap fun p1 =>
        ((List.range M).map fun p2 => (false, m d g p1, m d g p2)) ++
        ((List.range F).map fun p2 => (true, m d g p1, f d g p2))) ++
      ((List.range F).flatMap fun p1 =>
        (List.range F).map fun p2 => (false, f d g p1, f d g p2))

/-- `State::initialize` (`State.cpp` lines 384-550).  Day 0 is filled by
the deterministic row-major walk (person outer, group inner, ids taken
from the front of the ascending id vector), so slot `(g, p)` receives
flat index `p * G + g`.  Days `d ≥ 1` take the same walk over the
shuffled id vector, whose suffix permutations `σm d` / `σf d` act from
the hard-coded offsets 6 and 2 (lines 450 and 482).  The contact matrix
and score are then rebuilt by the single pass modelled by `initEvents`
and `contactStep`.  The immovable-count vectors and the generator state
of `s` are not touched (the locals of lines 396-397 shadow the
members). -/
def initState (s : State) (G M F D : Nat) (σm σf : Nat → Nat → Nat) : State :=
  let m : Nat → Nat → Nat → Nat := fun d g p =>
    if d = 0 then p * G + g else shuffled_ids 6 (σm d) (p * G + g)
  let f : Nat → Nat → Nat → Nat := fun d g p =>
    G * M + (if d = 0 then p * G + g else shuffled_ids 2 (σf d) (p * G + g))
  let cs := (initEvents G M F D m f).foldl contactStep (fun _ _ => 0, 0)
  { s with
    number_of_groups := G
    number_of_males_per_group := M
    number_of_females_per_group := F
    number_of_days := D
    m_day_group_person := m
    f_day_group_person := f
    curr_contacts := cs.1
    curr_num_contacts := cs.2 }

/-- The default-constructed `State` (`State.cpp` lines 366-370): the
generator is seeded with `a = time(0)` (here the parameter `seed`) and
`b = 1234124124`; the containers are empty (all-zero functions). -/
def mk_state (seed : Nat) : State where
  number_of_groups := 0
  number_of_males_per_group := 0
  number_of_females_per_group := 0
  number_of_days := 0
  m_day_group_person := fun _ _ _ => 0
  f_day_group_person := fun _ _ _ => 0
  curr_contacts := fun _ _ => 0
  curr_num_contacts := 0
  m_number_of_immovable_people_per_group := fun _ => 0
  f_number_of_immovable_people_per_group := fun _ => 0
  rnd_state := ⟨seed, 1234124124⟩

/-! ## The drivers (`State.cpp` lines 289-364, `subroutines.cpp`) -/
/-- `State::try_random_male_swap_and_proceed_if_contact_delta_pos`
(`State.cpp` lines 289-307). -/
def try_random_male_swap_and_proceed_if_contact_delta_pos (s : State) : Option State :=
  (randMod s.rnd_state (s.number_of_days - 1)).bind fun dr =>
  (randMod dr.2 s.number_of_groups).bind fun g1r =>
  (randMod g1r.2 s.number_of_groups).bind fun g2r =>
  (randMod g2r.2 (s.number_of_males_per_group
      - s.m_number_of_immovable_people_per_group g1r.1)).bind fun m1r =>
  (randMod m1r.2 (s.number_of_males_per_group
      - s.m_number_of_immovable_people_per_group g2r.1)).bind fun m2r =>
  let day := dr.1 + 1
  let male1 := m1r.1 + s.m_number_of_immovable_people_per_group g1r.1
  let male2 := m2r.1 + s.m_number_of_immovable_people_per_group g2r.1
  let s1 := { s with rnd_state := m2r.2 }
  (contact_delta_of_swap_m s1 day g1r.1 male1 g2r.1 male2).bind fun d =>
  if 0 ≤ d then swap_m s1 day g1r.1 male1 g2r.1 male2 else some s1

/-- `State::try_random_female_swap_and_proceed_if_contact_delta_pos`
(`State.cpp` lines 309-327). -/
def try_random_female_swap_and_proceed_if_contact_delta_pos (s : State) : Option State :=
  (randMod s.rnd_state (s.number_of_days - 1)).bind fun dr =>
  (randMod dr.2 s.number_of_groups).bind fun g1r =>
  (randMod g1r.2 s.number_of_groups).bind fun g2r =>
  (randMod g2r.2 (s.number_of_females_per_group
      - s.f_number_of_immovable_people_per_group g1r.1)).bind fun f1r =>
  (randMod f1r.2 (s.number_of_females_per_group
      - s.f_number_of_immovable_people_per_group g2r.1)).bind fun f2r =>
  let day := dr.1 + 1
  let female1 := f1r.1 + s.f_number_of_immovable_people_per_group g1r.1
  let female2 := f2r.1 + s.f_number_of_immovable_people_per_group g2r.1
  let s1 := { s with rnd_state := f2r.2 }
  let d := contact_delta_of_swap_f s1 day g1r.1 female1 g2r.1 female2
  if 0 ≤ d then swap_f s1 day g1r.1 female1 g2r.1 female2 else some s1

/-- `State::perform_simulated_annealing_step` (`State.cpp` lines
329-364).  `accept u d` abstracts the floating-point Metropolis test
`u / UINT64_MAX < exp(d / temp)` on the freshly drawn value `u`; it is
consulted only when the delta is negative, exactly as in the source.
Note that the single `day` drawn at line 331 is used by both the male
and the female candidate move. -/
def perform_simulated_annealing_step (accept : Nat → Int → Bool) (s : State) :
    Option State :=
  (randMod s.rnd_state (s.number_of_days - 1)).bind fun dr =>
  let day := dr.1 + 1
  (randMod dr.2 s.number_of_groups).bind fun g1r =>
  (randMod g1r.2 s.number_of_groups).bind fun g2r =>
  (randMod g2r.2 (s.number_of_males_per_group
      - s.m_number_of_immovable_people_per_group g1r.1)).bind fun m1r =>
  (randMod m1r.2 (s.number_of_males_per_group
      - s.m_number_of_immovable_people_per_group g2r.1)).bind fun m2r =>
  let male1 := m1r.1 + s.m_number_of_immovable_people_per_group g1r.1
  let male2 := m2r.1 + s.m_number_of_immovable_people_per_group g2r.1
  let sA := { s with rnd_state := m2r.2 }
  (contact_delta_of_swap_m sA day g1r.1 male1 g2r.1 male2).bind fun dm =>
  (if 0 ≤ dm then swap_m sA day g1r.1 male1 g2r.1 male2
   else
     let ur := xorshift128p sA.rnd_state
     let sB := { sA with rnd_state := ur.2 }
     if accept ur.1 dm then swap_m sB day g1r.1 male1 g2r.1 male2 else some sB).bind fun sC =>
  (randMod sC.rnd_state sC.number_of_groups).bind fun h1r =>
  (randMod h1r.2 sC.number_of_groups).bind fun h2r =>
  (randMod h2r.2 (sC.number_of_females_per_group
      - sC.f_number_of_immovable_people_per_group h1r.1)).bind fun f1r =>
  (randMod f1r.2 (sC.number_of_females_per_group
      - sC.f_number_of_immovable_people_per_group h2r.1)).bind fun f2r =>
  let female1 := f1r.1 + sC.f_number_of_immovable_people_per_group h1r.1
  let female2 := f2r.1 + sC.f_number_of_immovable_people_per_group h2r.1
  let sD := { sC with rnd_state := f2r.2 }
  let df := contact_delta_of_swap_f sD day h1r.1 female1 h2r.1 female2
  if 0 ≤ df then swap_f sD day h1r.1 female1 h2r.1 female2
  else
    let ur := xorshift128p sD.rnd_state
    let sE := { sD with rnd_state := ur.2 }
    if accept ur.1 df then swap_f sE day h1r.1 female1 h2r.1 female2 else some sE

/-- The hill-climbing loop body of `run_random_hillclimbing_algorithm`
(`subroutines.cpp` lines 16-19), iterated `n` times: one male try then
one female try per iteration. -/
def runHillClimb (n : Nat) (s : State) : Option State :=
  match n with
  | 0 => some s
  | n + 1 =>
    (try_random_male_swap_and_proceed_if_contact_delta_pos s).bind fun s1 =>
    (try_random_female_swap_and_proceed_if_contact_delta_pos s1).bind fun s2 =>
    runHillClimb n s2

/-- The annealing loop of `run_simulated_annealing_algorithm`
(`subroutines.cpp` lines 41-44), with the per-iteration Metropolis
comparisons abstracted by the oracle family `accept` (iteration
index first). -/
def runAnnealing (accept : Nat → Nat → Int → Bool) (n : Nat) (s : State) : Option State :=
  match n with
  | 0 => some s
  | n + 1 =>
    (perform_simulated_annealing_step (accept n) s).bind fun s1 =>
    runAnnealing accept n s1

/-! ## Semantic layer: legality, co-attendance, pair counting -/
/-- Legal male swap arguments: a day in `[1, D-1]`, groups in range, and
movable slots in range (slot at least the group's immovable count). -/
def LegalM (s : State) (day g1 m1 g2 m2 : Nat) : Prop :=
  1 ≤ day ∧ day < s.number_of_days ∧
  g1 < s.number_of_groups ∧ g2 < s.number_of_groups ∧
  m1 < s.number_of_males_per_group ∧ m2 < s.number_of_males_per_group ∧
  s.m_number_of_immovable_people_per_group g1 ≤ m1 ∧
  s.m_number_of_immovable_people_per_group g2 ≤ m2

/-- Legal female swap arguments. -/
def LegalF (s : State) (day g1 f1 g2 f2 : Nat) : Prop :=
  1 ≤ day ∧ day < s.number_of_days ∧
  g1 < s.number_of_groups ∧ g2 < s.number_of_groups ∧
  f1 < s.number_of_females_per_group ∧ f2 < s.number_of_females_per_group ∧
  s.f_number_of_immovable_people_per_group g1 ≤ f1 ∧
  s.f_number_of_immovable_people_per_group g2 ≤ f2

/-- `x` occupies some of the `cnt` slots of group `g` on day `d` in the
schedule `sched`. -/
def inGroupB (sched : Nat → Nat → Nat → Nat) (cnt d g x : Nat) : Bool :=
  (List.range cnt).any fun p => sched d g p == x

/-- `x` and `y` sit in a common group on day `d`. -/
def sharesB (sched : Nat → Nat → Nat → Nat) (G cnt d x y : Nat) : Bool :=
  (List.range G).any fun g => inGroupB sched cnt d g x && inGroupB sched cnt d g y

/-- Number of days on which `x` and `y` sit in a common group of the
schedule `sched` (the semantic co-attendance count). -/
def coattSched (sched : Nat → Nat → Nat → Nat) (G cnt D x y : Nat) : Nat :=
  ((Finset.range D).filter fun d => sharesB sched G cnt d x y = true).card

/-- Semantic male-male co-attendance of a state. -/
def coatt_m (s : State) (x y : Nat) : Nat :=
  coattSched s.m_day_group_person s.number_of_groups s.number_of_males_per_group
    s.number_of_days x y

/-- Semantic female-female co-attendance of a state. -/
def coatt_f (s : State) (x y : Nat) : Nat :=
  coattSched s.f_day_group_person s.number_of_groups s.number_of_females_per_group
    s.number_of_days x y

/-- Number of unordered pairs `{i, j}` with `i < j < T` whose contact
matrix entry is at least 1 (the semantic score). -/
def pairCount (T : Nat) (C : Nat → Nat → Nat) : Nat :=
  Finset.sum (Finset.range T ×ˢ Finset.range T) fun ij =>
    if ij.1 < ij.2 ∧ 1 ≤ C ij.1 ij.2 then 1 else 0

/-- Well-formedness of one sex's schedule: on every day the occupants
of the `G * cnt` slots are exactly the ids of `[lo, hi)`, each one
once. -/
structure SchedOk (sched : Nat → Nat → Nat → Nat) (G cnt D lo hi : Nat) : Prop where
  mem : ∀ d g p, d < D → g < G → p < cnt → lo ≤ sched d g p ∧ sched d g p < hi
  inj : ∀ d g p g1 p1, d < D → g < G → p < cnt → g1 < G → p1 < cnt →
    sched d g p = sched d g1 p1 → g = g1 ∧ p = p1
  surj : ∀ d x, d < D → lo ≤ x → x < hi → ∃ g p, g < G ∧ p < cnt ∧ sched d g p = x

/-- The quiescent-point invariant: per-day permutation schedules, a
symmetric contact matrix that agrees with the semantic co-attendance on
same-sex pairs, a score equal to the semantic pair count, and the
`unsigned int` bound on the day count. -/
structure Inv (s : State) : Prop where
  mok : SchedOk s.m_day_group_person s.number_of_groups s.number_of_males_per_group
    s.number_of_days 0 (total_males s)
  fok : SchedOk s.f_day_group_person s.number_of_groups s.number_of_females_per_group
    s.number_of_days (total_males s) (total_people s)
  sym : ∀ x y, s.curr_contacts x y = s.curr_contacts y x
  mm : ∀ x y, x < total_males s → y < total_males s →
    s.curr_contacts x y = coatt_m s x y
  ff : ∀ x y, total_males s ≤ x → x < total_people s →
    total_males s ≤ y → y < total_people s → s.curr_contacts x y = coatt_f s x y
  score : s.curr_num_contacts = (pairCount (total_people s) s.curr_contacts : Int)
  days_lt : s.number_of_days < UW

/-- `σ` permutes `[0, n)`. -/
def PermOn (n : Nat) (σ : Nat → Nat) : Prop :=
  (∀ i, i < n → σ i < n) ∧
  (∀ i j, i < n → j < n → σ i = σ j → i = j) ∧
  (∀ j, j < n → ∃ i, i < n ∧ σ i = j)

/-- States reachable through the public lifecycle: `initialize` (with
valid suffix permutations and an `unsigned int` day count), followed by
any sequence of immovable-count updates and legal, non-throwing
swaps. -/
inductive Reachable : State → Prop where
  | init (s0 : State) (G M F D : Nat) (σm σf : Nat → Nat → Nat)
      (hD : D < UW)
      (hσm : ∀ d, PermOn (G * M - 6) (σm d))
      (hσf : ∀ d, PermOn (G * F - 2) (σf d)) :
      Reachable (initState s0 G M F D σm σf)
  | swap_m_step {s s1 : State} (day g1 slot1 g2 slot2 : Nat)
      (h : Reachable s) (hl : LegalM s day g1 slot1 g2 slot2)
      (hs : swap_m s day g1 slot1 g2 slot2 = some s1) : Reachable s1
  | swap_f_step {s s1 : State} (day g1 slot1 g2 slot2 : Nat)
      (h : Reachable s) (hl : LegalF s day g1 slot1 g2 slot2)
      (hs : swap_f s day g1 slot1 g2 slot2 = some s1) : Reachable s1
  | set_imm_m {s : State} (v : Nat → Nat) (h : Reachable s) :
      Reachable (add_number_of_immovable_males_per_group s v)
  | set_imm_f {s : State} (v : Nat → Nat) (h : Reachable s) :
      Reachable (add_number_of_immovable_females_per_group s v)

/-- Indicator of a `Bool`, as an integer. -/
def bint (b : Bool) : Int := if b then 1 else 0

/-- `x` is the occupant of a non-skipped slot among the first `n`. -/
def omem (occ : Nat → Nat) (skip n x : Nat) : Bool :=
  (List.range n).any fun q => (q != skip) && (occ q == x)

/-- Number of non-skipped slots whose occupant meets `p` exactly once
(the slots whose pair with `p` a loss loop removes from the score). -/
def lossCount (C : Nat → Nat → Nat) (occ : Nat → Nat) (p skip n : Nat) : Nat :=
  List.countP (fun q => (q != skip) && (C (occ q) p == 1)) (List.range n)

/-- Number of non-skipped slots whose occupant does not yet meet `p`
(the slots whose pair with `p` a gain loop adds to the score). -/
def gainCount (C : Nat → Nat → Nat) (occ : Nat → Nat) (p skip n : Nat) : Nat :=
  List.countP (fun q => (q != skip) && (C (occ q) p == 0)) (List.range n)

/-- The pointwise change that one cross-group swap makes to the contact
matrix, as predicted by the loop structure: gains on the pairs of `p1`
with the new group (`occ2` off `skip2`) and of `p2` with `occ1` off
`skip1`, losses on the pairs of `p1` with `occ1` and of `p2` with
`occ2`, in both orientations. -/
def swapChg (occ1 occ2 : Nat → Nat) (p1 p2 skip1 skip2 M x y : Nat) : Int :=
  bint (omem occ2 skip2 M x && (y == p1)) + bint ((x == p1) && omem occ2 skip2 M y)
  + bint (omem occ1 skip1 M x && (y == p2)) + bint ((x == p2) && omem occ1 skip1 M y)
  - bint (omem occ1 skip1 M x && (y == p1)) - bint ((x == p1) && omem occ1 skip1 M y)
  - bint (omem occ2 skip2 M x && (y == p2)) - bint ((x == p2) && omem occ2 skip2 M y)

/-- Number of increments that the bookkeeping event `e` applies to the
matrix entry `(x, y)`: one if `e` writes `(a, b) = (x, y)`, plus one if
`e` is a cross event and writes the mirror entry. -/
def hitsN (x y : Nat) (e : Bool × Nat × Nat) : Nat :=
  (if e.2.1 = x ∧ e.2.2 = y then 1 else 0) +
  (if e.1 = true ∧ e.2.1 = y ∧ e.2.2 = x then 1 else 0)

/-- Total number of increments a list of bookkeeping events applies to
the matrix entry `(x, y)`. -/
def tcount (x y : Nat) (L : List (Bool × Nat × Nat)) : Nat :=
  (L.map (hitsN x y)).sum

/-- Number of slots of the `n`-slot list `v` holding id `x`. -/
def cnt1 (n : Nat) (v : Nat → Nat) (x : Nat) : Nat :=
  ((List.range n).map fun p => if v p = x then 1 else 0).sum

/-- The identity suffix permutation family (a valid generator outcome). -/
def idPerm : Nat → Nat → Nat := fun _ i => i

/-- A small concrete initialized state: 2 groups, 1 male and 1 female per
group, 2 days, seed 0, identity shuffles. -/
def baseState : State := initState (mk_state 0) 2 1 1 2 idPerm idPerm

/-- A concrete initialized state with a single day. -/
def oneDayState : State := initState (mk_state 0) 1 1 1 1 idPerm idPerm

/-- The generator outcome that transposes the first two suffix offsets. -/
def c5Perm : Nat → Nat → Nat := fun _ i => if i = 0 then 1 else if i = 1 then 0 else i

/-- The C5 configuration: 8 groups of 1 male (ids 0-7), immovable counts
summing to 7, two days, the transposing generator outcome for day 1. -/
def c5State : State :=
  initState (add_number_of_immovable_males_per_group (mk_state 0)
    (fun g => if g < 7 then 1 else 0)) 8 1 0 2 c5Perm idPerm

/-- `State::perform_simulated_annealing_step` from its group draw on
(`State.cpp` lines 333-364), with the already drawn `day` a parameter:
both the male and the female candidate move read this single `day`. -/
def sa_step_given_day (accept : Nat → Int → Bool) (day : Nat) (s : State) : Option State :=
  (randMod s.rnd_state s.number_of_groups).bind fun g1r =>
  (randMod g1r.2 s.number_of_groups).bind fun g2r =>
  (randMod g2r.2 (s.number_of_males_per_group
      - s.m_number_of_immovable_people_per_group g1r.1)).bind fun m1r =>
  (randMod m1r.2 (s.number_of_males_per_group
      - s.m_number_of_immovable_people_per_group g2r.1)).bind fun m2r =>
  let male1 := m1r.1 + s.m_number_of_immovable_people_per_group g1r.1
  let male2 := m2r.1 + s.m_number_of_immovable_people_per_group g2r.1
  let sA := { s with rnd_state := m2r.2 }
  (contact_delta_of_swap_m sA day g1r.1 male1 g2r.1 male2).bind fun dm =>
  (if 0 ≤ dm then swap_m sA day g1r.1 male1 g2r.1 male2
   else
     let ur := xorshift128p sA.rnd_state
     let sB := { sA with rnd_state := ur.2 }
     if accept ur.1 dm then swap_m sB day g1r.1 male1 g2r.1 male2 else some sB).bind fun sC =>
  (randMod sC.rnd_state sC.number_of_groups).bind fun h1r =>
  (randMod h1r.2 sC.number_of_groups).bind fun h2r =>
  (randMod h2r.2 (sC.number_of_females_per_group
      - sC.f_number_of_immovable_people_per_group h1r.1)).bind fun f1r =>
  (randMod f1r.2 (sC.number_of_females_per_group
      - sC.f_number_of_immovable_people_per_group h2r.1)).bind fun f2r =>
  let female1 := f1r.1 + sC.f_number_of_immovable_people_per_group h1r.1
  let female2 := f2r.1 + sC.f_number_of_immovable_people_per_group h2r.1
  let sD := { sC with rnd_state := f2r.2 }
  let df := contact_delta_of_swap_f sD day h1r.1 female1 h2r.1 female2
  if 0 ≤ df then swap_f sD day h1r.1 female1 h2r.1 female2
  else
    let ur := xorshift128p sD.rnd_state
    let sE := { sD with rnd_state := ur.2 }
    if accept ur.1 df then swap_f sE day h1r.1 female1 h2r.1 female2 else some sE

/-- Modelled from the spec: the annealing step as section 4.5 states it,
each of the two candidate moves drawing a day of its own uniformly from
`[1, D-1]` — it differs from the source exactly in the extra day draw
opening the female half. -/
def sa_step_indep_days (accept : Nat → Int → Bool) (s : State) : Option State :=
  (randMod s.rnd_state (s.number_of_days - 1)).bind fun dr =>
  let day := dr.1 + 1
  (randMod dr.2 s.number_of_groups).bind fun g1r =>
  (randMod g1r.2 s.number_of_groups).bind fun g2r =>
  (randMod g2r.2 (s.number_of_males_per_group
      - s.m_number_of_immovable_people_per_group g1r.1)).bind fun m1r =>
  (randMod m1r.2 (s.number_of_males_per_group
      - s.m_number_of_immovable_people_per_group g2r.1)).bind fun m2r =>
  let male1 := m1r.1 + s.m_number_of_immovable_people_per_group g1r.1
  let male2 := m2r.1 + s.m_number_of_immovable_people_per_group g2r.1
  let sA := { s with rnd_state := m2r.2 }
  (contact_delta_of_swap_m sA day g1r.1 male1 g2r.1 male2).bind fun dm =>
  (if 0 ≤ dm then swap_m sA day g1r.1 male1 g2r.1 male2
   else
     let ur := xorshift128p sA.rnd_state
     let sB := { sA with rnd_state := ur.2 }
     if accept ur.1 dm then swap_m sB day g1r.1 male1 g2r.1 male2 else some sB).bind fun sC =>
  (randMod sC.rnd_state (sC.number_of_days - 1)).bind fun dr2 =>
  let day2 := dr2.1 + 1
  (randMod dr2.2 sC.number_of_groups).bind fun h1r =>
  (randMod h1r.2 sC.number_of_groups).bind fun h2r =>
  (randMod h2r.2 (sC.number_of_females_per_group
      - sC.f_number_of_immovable_people_per_group h1r.1)).bind fun f1r =>
  (randMod f1r.2 (sC.number_of_females_per_group
      - sC.f_number_of_immovable_people_per_group h2r.1)).bind fun f2r =>
  let female1 := f1r.1 + sC.f_number_of_immovable_people_per_group h1r.1
  let female2 := f2r.1 + sC.f_number_of_immovable_people_per_group h2r.1
  let sD := { sC with rnd_state := f2r.2 }
  let df := contact_delta_of_swap_f sD day2 h1r.1 female1 h2r.1 female2
  if 0 ≤ df then swap_f sD day2 h1r.1 female1 h2r.1 female2
  else
    let ur := xorshift128p sD.rnd_state
    let sE := { sD with rnd_state := ur.2 }
    if accept ur.1 df then swap_f sE day2 h1r.1 female1 h2r.1 female2 else some sE

/-! ## Theorems -/

/-! ## Basic lemmas -/
theorem cinc_eq {n : Nat} (h : n + 1 < UW) : cinc n = n + 1 := by
  simp [cinc, Nat.mod_eq_of_lt h]

theorem cdec_eq {n : Nat} (h1 : 1 ≤ n) (h2 : n < UW) : cdec n = n - 1 := by
  have hUW : UW = 4294967296 := rfl
  unfold cdec
  have h3 : n + (UW - 1) = (n - 1) + UW := by omega
  rw [h3, Nat.add_mod_right, Nat.mod_eq_of_lt (by omega)]

theorem updC_self (C : Nat → Nat → Nat) (x y v : Nat) : updC C x y v x y = v := by
  simp [updC]

theorem updC_ne {i j x y : Nat} (C : Nat → Nat → Nat) (v : Nat)
    (h : ¬(i = x ∧ j = y)) : updC C x y v i j = C i j := by
  simp [updC, h]

theorem pairCount_updC (T a b v : Nat) (C : Nat → Nat → Nat) (ha : a < T) (hb : b < T) :
    (pairCount T (updC C a b v) : Int) =
      (pairCount T C : Int)
      - (if a < b ∧ 1 ≤ C a b then 1 else 0)
      + (if a < b ∧ 1 ≤ v then 1 else 0) := by
  classical
  have hmem : ((a, b) : Nat × Nat) ∈ Finset.range T ×ˢ Finset.range T := by
    simp [Finset.mem_product, ha, hb]
  have h1 := Finset.sum_eq_sum_diff_singleton_add hmem
      (fun ij : Nat × Nat => if ij.1 < ij.2 ∧ 1 ≤ updC C a b v ij.1 ij.2 then (1 : Nat) else 0)
  have h2 := Finset.sum_eq_sum_diff_singleton_add hmem
      (fun ij : Nat × Nat => if ij.1 < ij.2 ∧ 1 ≤ C ij.1 ij.2 then (1 : Nat) else 0)
  have hcongr :
      (Finset.sum ((Finset.range T ×ˢ Finset.range T) \ {((a : Nat), (b : Nat))}) fun ij =>
        if ij.1 < ij.2 ∧ 1 ≤ updC C a b v ij.1 ij.2 then (1 : Nat) else 0) =
      Finset.sum ((Finset.range T ×ˢ Finset.range T) \ {((a : Nat), (b : Nat))}) fun ij =>
        if ij.1 < ij.2 ∧ 1 ≤ C ij.1 ij.2 then (1 : Nat) else 0 := by
    apply Finset.sum_congr rfl
    intro ij hij
    have hne : ¬(ij.1 = a ∧ ij.2 = b) := by
      rcases Finset.mem_sdiff.mp hij with ⟨-, hnotin⟩
      intro hcontra
      apply hnotin
      simp only [Finset.mem_singleton]
      exact Prod.ext hcontra.1 hcontra.2
    rw [updC_ne C v hne]
  have hself : updC C a b v a b = v := updC_self C a b v
  unfold pairCount
  rw [h1, h2, hcongr, hself]
  push_cast
  split_ifs <;> omega

theorem pairCount_decPair (T x y : Nat) (C : Nat → Nat → Nat)
    (hx : x < T) (hy : y < T) (hxy : x ≠ y) (hsym : C x y = C y x)
    (h1 : 1 ≤ C x y) (h2 : C x y < UW) :
    (pairCount T (updC (updC C x y (cdec (C x y))) y x
        (cdec ((updC C x y (cdec (C x y))) y x))) : Int)
      = (pairCount T C : Int) - (if C x y = 1 then 1 else 0) := by
  have e1 : (updC C x y (cdec (C x y))) y x = C y x :=
    updC_ne C _ (by intro h; exact hxy (h.2.symm ▸ rfl))
  rw [e1]
  have hd : cdec (C x y) = C x y - 1 := cdec_eq h1 h2
  have hd2 : cdec (C y x) = C y x - 1 := cdec_eq (hsym ▸ h1) (hsym ▸ h2)
  rw [hd, hd2]
  rw [pairCount_updC T y x (C y x - 1) _ hy hx]
  rw [pairCount_updC T x y (C x y - 1) C hx hy]
  have e2 : (updC C x y (C x y - 1)) y x = C y x :=
    updC_ne C _ (by intro h; exact hxy (h.2.symm ▸ rfl))
  rw [e2]
  rw [← hsym]
  split_ifs <;> omega

theorem pairCount_incPair (T x y : Nat) (C : Nat → Nat → Nat)
    (hx : x < T) (hy : y < T) (hxy : x ≠ y) (hsym : C x y = C y x)
    (h2 : C x y + 1 < UW) :
    (pairCount T (updC (updC C x y (cinc (C x y))) y x
        (cinc ((updC C x y (cinc (C x y))) y x))) : Int)
      = (pairCount T C : Int) + (if C x y = 0 then 1 else 0) := by
  have e1 : (updC C x y (cinc (C x y))) y x = C y x :=
    updC_ne C _ (by intro h; exact hxy (h.2.symm ▸ rfl))
  rw [e1]
  have hi : cinc (C x y) = C x y + 1 := cinc_eq h2
  have hi2 : cinc (C y x) = C y x + 1 := cinc_eq (hsym ▸ h2)
  rw [hi, hi2]
  rw [pairCount_updC T y x (C y x + 1) _ hy hx]
  rw [pairCount_updC T x y (C x y + 1) C hx hy]
  have e2 : (updC C x y (C x y + 1)) y x = C y x :=
    updC_ne C _ (by intro h; exact hxy (h.2.symm ▸ rfl))
  rw [e2]
  rw [← hsym]
  split_ifs <;> omega

theorem countP_range_succ (p : Nat → Bool) (n : Nat) :
    List.countP p (List.range (n + 1)) =
      List.countP p (List.range n) + (if p n then 1 else 0) := by
  rw [List.range_succ, List.countP_append]
  simp [List.countP_cons]

theorem omem_zero (occ : Nat → Nat) (skip x : Nat) : omem occ skip 0 x = false := by
  simp [omem]

theorem omem_succ (occ : Nat → Nat) (skip n x : Nat) :
    omem occ skip (n + 1) x = (omem occ skip n x || ((n != skip) && (occ n == x))) := by
  simp [omem, List.range_succ]

theorem omem_true_iff (occ : Nat → Nat) (skip n x : Nat) :
    omem occ skip n x = true ↔ ∃ q, q < n ∧ q ≠ skip ∧ occ q = x := by
  simp [omem, List.any_eq_true, List.mem_range, and_assoc]

theorem bint_true : bint true = 1 := rfl

theorem bint_false : bint false = 0 := rfl

theorem swapLossLoop_succ (C : Nat → Nat → Nat) (sc : Int) (occ : Nat → Nat) (p skip n : Nat) :
    swapLossLoop C sc occ p skip (n + 1) =
      (swapLossLoop C sc occ p skip n).bind fun cs =>
        if n = skip then some cs
        else if cs.1 (occ n) p = 0 then none
        else some (updC (updC cs.1 (occ n) p (cdec (cs.1 (occ n) p))) p (occ n)
            (cdec ((updC cs.1 (occ n) p (cdec (cs.1 (occ n) p))) p (occ n))),
          if cs.1 (occ n) p = 1 then cs.2 - 1 else cs.2) := by
  unfold swapLossLoop
  rw [List.range_succ, List.foldl_append]
  rfl

/-- Exact characterization of a swap loss loop: under distinct in-range
occupants, `p` seated elsewhere, and positive symmetric entries, the
loop succeeds, decrements both orientations of each scanned pair by 1,
subtracts `lossCount` from the score, and removes exactly `lossCount`
pairs from the semantic pair count. -/
theorem swapLossLoop_char (T : Nat) (C : Nat → Nat → Nat) (sc : Int) (occ : Nat → Nat)
    (p skip n : Nat)
    (hpT : p < T)
    (hoccT : ∀ q, q < n → occ q < T)
    (hinj : ∀ q q1, q < n → q1 < n → occ q = occ q1 → q = q1)
    (hne : ∀ q, q < n → q ≠ skip → occ q ≠ p)
    (hval : ∀ q, q < n → q ≠ skip →
      1 ≤ C (occ q) p ∧ C (occ q) p < UW ∧ C p (occ q) = C (occ q) p) :
    ∃ C1 sc1, swapLossLoop C sc occ p skip n = some (C1, sc1) ∧
      (∀ x y, (C1 x y : Int) = (C x y : Int)
          - bint (omem occ skip n x && (y == p))
          - bint ((x == p) && omem occ skip n y)) ∧
      sc1 = sc - (lossCount C occ p skip n : Int) ∧
      (pairCount T C1 : Int) = (pairCount T C : Int) - (lossCount C occ p skip n : Int) := by
  induction n with
  | zero =>
    refine ⟨C, sc, rfl, ?_, ?_, ?_⟩
    · intro x y
      simp [omem_zero, bint]
    · simp [lossCount]
    · simp [lossCount]
  | succ n ih =>
    obtain ⟨C1, sc1, hrun, hCf, hscf, hpcf⟩ :=
      ih (fun q hq => hoccT q (Nat.lt_succ_of_lt hq))
        (fun q q1 hq hq1 => hinj q q1 (Nat.lt_succ_of_lt hq) (Nat.lt_succ_of_lt hq1))
        (fun q hq => hne q (Nat.lt_succ_of_lt hq))
        (fun q hq => hval q (Nat.lt_succ_of_lt hq))
    rw [swapLossLoop_succ, hrun]
    simp only [Option.some_bind]
    by_cases hskip : n = skip
    · -- skipped slot: nothing changes
      refine ⟨C1, sc1, by simp [hskip], ?_, ?_, ?_⟩
      · intro x y
        rw [hCf x y, omem_succ, omem_succ]
        have : (n != skip) = false := by simp [hskip]
        simp [this]
      · rw [hscf]
        have he : lossCount C occ p skip (n + 1) = lossCount C occ p skip n := by
          unfold lossCount
          rw [countP_range_succ]
          simp [hskip]
        rw [he]
      · rw [hpcf]
        have he : lossCount C occ p skip (n + 1) = lossCount C occ p skip n := by
          unfold lossCount
          rw [countP_range_succ]
          simp [hskip]
        rw [he]
    · -- processed slot
      have hn : n < n + 1 := Nat.lt_succ_self n
      have hvn := hval n hn hskip
      have hnep := hne n hn hskip
      -- the entry read by this iteration is untouched by the prefix
      have hread : C1 (occ n) p = C (occ n) p := by
        have := hCf (occ n) p
        have h1 : omem occ skip n (occ n) = false := by
          rw [Bool.eq_false_iff]
          intro hmem
          obtain ⟨q, hq, hqs, hqe⟩ := (omem_true_iff _ _ _ _).mp hmem
          exact absurd (hinj q n (Nat.lt_succ_of_lt hq) hn hqe) (Nat.ne_of_lt hq)
        have h2 : ((occ n : Nat) == p) = false := by simp [hnep]
        rw [h1, h2] at this
        simp [bint] at this
        exact_mod_cast this
      have hread2 : C1 p (occ n) = C p (occ n) := by
        have := hCf p (occ n)
        have h1 : omem occ skip n (occ n) = false := by
          rw [Bool.eq_false_iff]
          intro hmem
          obtain ⟨q, hq, hqs, hqe⟩ := (omem_true_iff _ _ _ _).mp hmem
          exact absurd (hinj q n (Nat.lt_succ_of_lt hq) hn hqe) (Nat.ne_of_lt hq)
        have h2 : ((occ n : Nat) == p) = false := by simp [hnep]
        rw [h1, h2] at this
        simp [bint] at this
        exact_mod_cast this
      have hpos : ¬ C1 (occ n) p = 0 := by
        rw [hread]; omega
      have hd1 : cdec (C1 (occ n) p) = C (occ n) p - 1 := by
        rw [hread]; exact cdec_eq hvn.1 hvn.2.1
      refine ⟨_, _, by rw [if_neg hskip, if_neg hpos], ?_, ?_, ?_⟩
      · -- the contact-matrix formula
        intro x y
        have hmid_p : (updC C1 (occ n) p (cdec (C1 (occ n) p))) p (occ n) = C (occ n) p := by
          rw [updC_ne C1 _ (by intro h; exact hnep h.1.symm), hread2, hvn.2.2]
        have hd2 : cdec ((updC C1 (occ n) p (cdec (C1 (occ n) p))) p (occ n))
            = C (occ n) p - 1 := by
          rw [hmid_p]; exact cdec_eq hvn.1 hvn.2.1
        have hb1 : omem occ skip (n + 1) (occ n) = true := by
          rw [omem_succ]; simp [hskip]
        have hb2 : ((occ n : Nat) == p) = false := by simp [hnep]
        by_cases hc1 : x = occ n ∧ y = p
        · rw [hc1.1, hc1.2]
          have eouter : (updC (updC C1 (occ n) p (cdec (C1 (occ n) p))) p (occ n)
              (cdec ((updC C1 (occ n) p (cdec (C1 (occ n) p))) p (occ n)))) (occ n) p
              = (updC C1 (occ n) p (cdec (C1 (occ n) p))) (occ n) p :=
            updC_ne _ _ (by intro h; exact hnep h.1)
          rw [eouter, updC_self, hd1, Nat.cast_sub hvn.1]
          rw [hb1, hb2]
          simp [bint]
        · by_cases hc2 : x = p ∧ y = occ n
          · rw [hc2.1, hc2.2]
            rw [updC_self, hd2, Nat.cast_sub hvn.1]
            rw [hvn.2.2, hb1, hb2]
            simp [bint]
          · have houter : (updC (updC C1 (occ n) p (cdec (C1 (occ n) p))) p (occ n)
                (cdec ((updC C1 (occ n) p (cdec (C1 (occ n) p))) p (occ n)))) x y
                = (updC C1 (occ n) p (cdec (C1 (occ n) p))) x y := updC_ne _ _ hc2
            have hinner : (updC C1 (occ n) p (cdec (C1 (occ n) p))) x y = C1 x y :=
              updC_ne _ _ hc1
            rw [houter, hinner, hCf x y]
            have hq1 : (omem occ skip (n + 1) x && (y == p))
                = (omem occ skip n x && (y == p)) := by
              by_cases hy : y = p
              · have hx : ¬ x = occ n := fun h => hc1 ⟨h, hy⟩
                rw [omem_succ]
                have hnx : ¬ occ n = x := fun h => hx h.symm
                have : ((occ n : Nat) == x) = false := by simp [hnx]
                simp [this]
              · have : ((y : Nat) == p) = false := by simp [hy]
                simp [this]
            have hq2 : ((x == p) && omem occ skip (n + 1) y)
                = ((x == p) && omem occ skip n y) := by
              by_cases hx : x = p
              · have hy : ¬ y = occ n := fun h => hc2 ⟨hx, h⟩
                rw [omem_succ]
                have hny : ¬ occ n = y := fun h => hy h.symm
                have : ((occ n : Nat) == y) = false := by simp [hny]
                simp [this]
              · have : ((x : Nat) == p) = false := by simp [hx]
                simp [this]
            rw [hq1, hq2]
      · -- the score formula
        rw [hscf, hread]
        have he : lossCount C occ p skip (n + 1)
            = lossCount C occ p skip n + (if C (occ n) p = 1 then 1 else 0) := by
          unfold lossCount
          rw [countP_range_succ]
          have hb : ((n != skip) && ((C (occ n) p : Nat) == 1)) = (C (occ n) p == 1) := by
            simp [hskip]
          rw [hb]
          by_cases h1 : C (occ n) p = 1
          · simp [h1]
          · simp [h1]
        rw [he]
        split_ifs with h1
        · push_cast
          omega
        · push_cast
          omega
      · -- the pair-count formula
        have hdec := pairCount_decPair T (occ n) p C1 (hoccT n hn) hpT hnep
          (by rw [hread, hread2, hvn.2.2]) (by rw [hread]; exact hvn.1)
          (by rw [hread]; exact hvn.2.1)
        rw [hdec, hpcf, hread]
        have he : lossCount C occ p skip (n + 1)
            = lossCount C occ p skip n + (if C (occ n) p = 1 then 1 else 0) := by
          unfold lossCount
          rw [countP_range_succ]
          have hb : ((n != skip) && ((C (occ n) p : Nat) == 1)) = (C (occ n) p == 1) := by
            simp [hskip]
          rw [hb]
          by_cases h1 : C (occ n) p = 1
          · simp [h1]
          · simp [h1]
        rw [he]
        split_ifs with h1
        · push_cast
          omega
        · push_cast
          omega

theorem swapGainLoop_succ (C : Nat → Nat → Nat) (sc : Int) (occ : Nat → Nat) (p skip n : Nat) :
    swapGainLoop C sc occ p skip (n + 1) =
      (if n = skip
       then ((swapGainLoop C sc occ p skip n).1,
         if (swapGainLoop C sc occ p skip n).1 (occ n) p = 0 ∧ n ≠ skip
         then (swapGainLoop C sc occ p skip n).2 + 1
         else (swapGainLoop C sc occ p skip n).2)
       else (updC (updC (swapGainLoop C sc occ p skip n).1 (occ n) p
              (cinc ((swapGainLoop C sc occ p skip n).1 (occ n) p))) p (occ n)
              (cinc ((updC (swapGainLoop C sc occ p skip n).1 (occ n) p
                (cinc ((swapGainLoop C sc occ p skip n).1 (occ n) p))) p (occ n))),
         if (swapGainLoop C sc occ p skip n).1 (occ n) p = 0 ∧ n ≠ skip
         then (swapGainLoop C sc occ p skip n).2 + 1
         else (swapGainLoop C sc occ p skip n).2)) := by
  unfold swapGainLoop
  rw [List.range_succ, List.foldl_append]
  rfl

/-- Exact characterization of a swap gain loop: under distinct in-range
occupants, `p` seated elsewhere, and non-overflowing symmetric entries,
the loop increments both orientations of each non-skipped pair by 1,
adds `gainCount` to the score, and adds exactly `gainCount` pairs to
the semantic pair count. -/
theorem swapGainLoop_char (T : Nat) (C : Nat → Nat → Nat) (sc : Int) (occ : Nat → Nat)
    (p skip n : Nat)
    (hpT : p < T)
    (hoccT : ∀ q, q < n → occ q < T)
    (hinj : ∀ q q1, q < n → q1 < n → occ q = occ q1 → q = q1)
    (hne : ∀ q, q < n → q ≠ skip → occ q ≠ p)
    (hval : ∀ q, q < n → q ≠ skip →
      C (occ q) p + 1 < UW ∧ C p (occ q) = C (occ q) p) :
    (∀ x y, ((swapGainLoop C sc occ p skip n).1 x y : Int) = (C x y : Int)
        + bint (omem occ skip n x && (y == p))
        + bint ((x == p) && omem occ skip n y)) ∧
      (swapGainLoop C sc occ p skip n).2 = sc + (gainCount C occ p skip n : Int) ∧
      (pairCount T (swapGainLoop C sc occ p skip n).1 : Int)
        = (pairCount T C : Int) + (gainCount C occ p skip n : Int) := by
  induction n with
  | zero =>
    refine ⟨?_, ?_, ?_⟩
    · intro x y
      simp [swapGainLoop, omem_zero, bint]
    · simp [swapGainLoop, gainCount]
    · simp [swapGainLoop, gainCount]
  | succ n ih =>
    obtain ⟨hCf, hscf, hpcf⟩ :=
      ih (fun q hq => hoccT q (Nat.lt_succ_of_lt hq))
        (fun q q1 hq hq1 => hinj q q1 (Nat.lt_succ_of_lt hq) (Nat.lt_succ_of_lt hq1))
        (fun q hq => hne q (Nat.lt_succ_of_lt hq))
        (fun q hq => hval q (Nat.lt_succ_of_lt hq))
    rw [swapGainLoop_succ]
    by_cases hskip : n = skip
    · -- skipped slot: nothing changes (and the score guard is false)
      have hguard : ¬((swapGainLoop C sc occ p skip n).1 (occ n) p = 0 ∧ n ≠ skip) :=
        fun h => h.2 hskip
      rw [if_pos hskip, if_neg hguard]
      dsimp only
      refine ⟨?_, ?_, ?_⟩
      · intro x y
        rw [hCf x y, omem_succ, omem_succ]
        have : (n != skip) = false := by simp [hskip]
        simp [this]
      · rw [hscf]
        have he : gainCount C occ p skip (n + 1) = gainCount C occ p skip n := by
          unfold gainCount
          rw [countP_range_succ]
          simp [hskip]
        rw [he]
      · rw [hpcf]
        have he : gainCount C occ p skip (n + 1) = gainCount C occ p skip n := by
          unfold gainCount
          rw [countP_range_succ]
          simp [hskip]
        rw [he]
    · -- processed slot
      rw [if_neg hskip]
      dsimp only
      set C1 : Nat → Nat → Nat := (swapGainLoop C sc occ p skip n).1 with hC1def
      set sc1 : Int := (swapGainLoop C sc occ p skip n).2 with hsc1def
      have hn : n < n + 1 := Nat.lt_succ_self n
      have hvn := hval n hn hskip
      have hnep := hne n hn hskip
      have hread : C1 (occ n) p = C (occ n) p := by
        have hfor := hCf (occ n) p
        have h1 : omem occ skip n (occ n) = false := by
          rw [Bool.eq_false_iff]
          intro hmem
          obtain ⟨q, hq, hqs, hqe⟩ := (omem_true_iff _ _ _ _).mp hmem
          exact absurd (hinj q n (Nat.lt_succ_of_lt hq) hn hqe) (Nat.ne_of_lt hq)
        have h2 : ((occ n : Nat) == p) = false := by simp [hnep]
        rw [h1, h2] at hfor
        simp [bint] at hfor
        exact_mod_cast hfor
      have hread2 : C1 p (occ n) = C p (occ n) := by
        have hfor := hCf p (occ n)
        have h1 : omem occ skip n (occ n) = false := by
          rw [Bool.eq_false_iff]
          intro hmem
          obtain ⟨q, hq, hqs, hqe⟩ := (omem_true_iff _ _ _ _).mp hmem
          exact absurd (hinj q n (Nat.lt_succ_of_lt hq) hn hqe) (Nat.ne_of_lt hq)
        have h2 : ((occ n : Nat) == p) = false := by simp [hnep]
        rw [h1, h2] at hfor
        simp [bint] at hfor
        exact_mod_cast hfor
      have hg : (C1 (occ n) p = 0 ∧ n ≠ skip) ↔ C (occ n) p = 0 := by
        rw [hread]
        exact ⟨fun h => h.1, fun h => ⟨h, hskip⟩⟩
      have hi1 : cinc (C1 (occ n) p) = C (occ n) p + 1 := by
        rw [hread]; exact cinc_eq hvn.1
      have hmid_p : (updC C1 (occ n) p (cinc (C1 (occ n) p))) p (occ n) = C (occ n) p := by
        rw [updC_ne C1 _ (by intro h; exact hnep h.1.symm), hread2, hvn.2]
      have hi2 : cinc ((updC C1 (occ n) p (cinc (C1 (occ n) p))) p (occ n))
          = C (occ n) p + 1 := by
        rw [hmid_p]; exact cinc_eq hvn.1
      have hb1 : omem occ skip (n + 1) (occ n) = true := by
        rw [omem_succ]; simp [hskip]
      have hb2 : ((occ n : Nat) == p) = false := by simp [hnep]
      have hcount : gainCount C occ p skip (n + 1)
          = gainCount C occ p skip n + (if C (occ n) p = 0 then 1 else 0) := by
        unfold gainCount
        rw [countP_range_succ]
        have hb : ((n != skip) && ((C (occ n) p : Nat) == 0)) = (C (occ n) p == 0) := by
          simp [hskip]
        rw [hb]
        by_cases h1 : C (occ n) p = 0
        · simp [h1]
        · simp [h1]
      refine ⟨?_, ?_, ?_⟩
      · intro x y
        by_cases hc1 : x = occ n ∧ y = p
        · rw [hc1.1, hc1.2]
          have eouter : (updC (updC C1 (occ n) p (cinc (C1 (occ n) p))) p (occ n)
              (cinc ((updC C1 (occ n) p (cinc (C1 (occ n) p))) p (occ n)))) (occ n) p
              = (updC C1 (occ n) p (cinc (C1 (occ n) p))) (occ n) p :=
            updC_ne _ _ (by intro h; exact hnep h.1)
          rw [eouter, updC_self, hi1]
          rw [hb1, hb2]
          push_cast
          simp [bint]
        · by_cases hc2 : x = p ∧ y = occ n
          · rw [hc2.1, hc2.2]
            rw [updC_self, hi2]
            rw [hvn.2, hb1, hb2]
            push_cast
            simp [bint]
          · have houter : (updC (updC C1 (occ n) p (cinc (C1 (occ n) p))) p (occ n)
                (cinc ((updC C1 (occ n) p (cinc (C1 (occ n) p))) p (occ n)))) x y
                = (updC C1 (occ n) p (cinc (C1 (occ n) p))) x y := updC_ne _ _ hc2
            have hinner : (updC C1 (occ n) p (cinc (C1 (occ n) p))) x y = C1 x y :=
              updC_ne _ _ hc1
            rw [houter, hinner, hCf x y]
            have hq1 : (omem occ skip (n + 1) x && (y == p))
                = (omem occ skip n x && (y == p)) := by
              by_cases hy : y = p
              · have hx : ¬ x = occ n := fun h => hc1 ⟨h, hy⟩
                rw [omem_succ]
                have hnx : ¬ occ n = x := fun h => hx h.symm
                have : ((occ n : Nat) == x) = false := by simp [hnx]
                simp [this]
              · have : ((y : Nat) == p) = false := by simp [hy]
                simp [this]
            have hq2 : ((x == p) && omem occ skip (n + 1) y)
                = ((x == p) && omem occ skip n y) := by
              by_cases hx : x = p
              · have hy : ¬ y = occ n := fun h => hc2 ⟨hx, h⟩
                rw [omem_succ]
                have hny : ¬ occ n = y := fun h => hy h.symm
                have : ((occ n : Nat) == y) = false := by simp [hny]
                simp [this]
              · have : ((x : Nat) == p) = false := by simp [hx]
                simp [this]
            rw [hq1, hq2]
      · rw [hscf, hcount]
        by_cases h0 : C (occ n) p = 0
        · rw [if_pos (hg.mpr h0), if_pos h0]
          push_cast
          ring
        · rw [if_neg (fun h => h0 (hg.mp h)), if_neg h0]
          push_cast
          ring
      · have hinc := pairCount_incPair T (occ n) p C1 (hoccT n hn) hpT hnep
          (by rw [hread, hread2, hvn.2]) (by rw [hread]; exact hvn.1)
        rw [hinc, hpcf, hread, hcount]
        by_cases h0 : C (occ n) p = 0
        · rw [if_pos h0, if_pos h0]
          push_cast
          ring
        · rw [if_neg h0, if_neg h0]
          push_cast
          ring

theorem countP_congr_range (p q : Nat → Bool) (n : Nat) (h : ∀ a, a < n → p a = q a) :
    List.countP p (List.range n) = List.countP q (List.range n) := by
  induction n with
  | zero => simp
  | succ n ih =>
    rw [countP_range_succ, countP_range_succ,
      ih (fun a ha => h a (Nat.lt_succ_of_lt ha)), h n (Nat.lt_succ_self n)]

/-- Exact characterization of the whole contact update of a cross-group
swap: under the occupancy and entry hypotheses of a well-formed state it
succeeds, changes the matrix by `swapChg`, and moves the score and the
semantic pair count by the same
`- lossCount - lossCount + gainCount + gainCount` amount. -/
theorem swapContactsUpdate_char (T M : Nat) (C : Nat → Nat → Nat) (sc : Int)
    (occ1 occ2 : Nat → Nat) (p1 p2 skip1 skip2 : Nat)
    (hp1T : p1 < T) (hp2T : p2 < T) (hp12 : p1 ≠ p2)
    (hocc1T : ∀ q, q < M → occ1 q < T) (hocc2T : ∀ q, q < M → occ2 q < T)
    (hocc1inj : ∀ q q1, q < M → q1 < M → occ1 q = occ1 q1 → q = q1)
    (hocc2inj : ∀ q q1, q < M → q1 < M → occ2 q = occ2 q1 → q = q1)
    (hcross : ∀ q q1, q < M → q1 < M → occ1 q ≠ occ2 q1)
    (hp1occ1 : ∀ q, q < M → occ1 q ≠ p1)
    (hp2occ2 : ∀ q, q < M → occ2 q ≠ p2)
    (hp2occ1 : ∀ q, q < M → q ≠ skip1 → occ1 q ≠ p2)
    (hp1occ2 : ∀ q, q < M → q ≠ skip2 → occ2 q ≠ p1)
    (hsym : ∀ x y, C x y = C y x)
    (hv1 : ∀ q, q < M → q ≠ skip1 → 1 ≤ C (occ1 q) p1 ∧ C (occ1 q) p1 < UW)
    (hv2 : ∀ q, q < M → q ≠ skip2 → 1 ≤ C (occ2 q) p2 ∧ C (occ2 q) p2 < UW)
    (hv3 : ∀ q, q < M → q ≠ skip2 → C (occ2 q) p1 + 1 < UW)
    (hv4 : ∀ q, q < M → q ≠ skip1 → C (occ1 q) p2 + 1 < UW) :
    ∃ Cr scr, swapContactsUpdate C sc occ1 occ2 p1 p2 skip1 skip2 M = some (Cr, scr) ∧
      (∀ x y, (Cr x y : Int)
        = (C x y : Int) + swapChg occ1 occ2 p1 p2 skip1 skip2 M x y) ∧
      scr = sc - (lossCount C occ1 p1 skip1 M : Int) - (lossCount C occ2 p2 skip2 M : Int)
        + (gainCount C occ2 p1 skip2 M : Int) + (gainCount C occ1 p2 skip1 M : Int) ∧
      (pairCount T Cr : Int)
        = (pairCount T C : Int)
          - (lossCount C occ1 p1 skip1 M : Int) - (lossCount C occ2 p2 skip2 M : Int)
          + (gainCount C occ2 p1 skip2 M : Int) + (gainCount C occ1 p2 skip1 M : Int) := by
  -- omem facts about the two occupant families
  have ho1p1 : omem occ1 skip1 M p1 = false := by
    rw [Bool.eq_false_iff]
    intro h
    obtain ⟨q, hq, hqs, hqe⟩ := (omem_true_iff _ _ _ _).mp h
    exact hp1occ1 q hq hqe
  have ho1p2 : omem occ1 skip1 M p2 = false := by
    rw [Bool.eq_false_iff]
    intro h
    obtain ⟨q, hq, hqs, hqe⟩ := (omem_true_iff _ _ _ _).mp h
    exact hp2occ1 q hq hqs hqe
  have ho2p1 : omem occ2 skip2 M p1 = false := by
    rw [Bool.eq_false_iff]
    intro h
    obtain ⟨q, hq, hqs, hqe⟩ := (omem_true_iff _ _ _ _).mp h
    exact hp1occ2 q hq hqs hqe
  have ho2p2 : omem occ2 skip2 M p2 = false := by
    rw [Bool.eq_false_iff]
    intro h
    obtain ⟨q, hq, hqs, hqe⟩ := (omem_true_iff _ _ _ _).mp h
    exact hp2occ2 q hq hqe
  have ho1o2 : ∀ q, q < M → omem occ1 skip1 M (occ2 q) = false := by
    intro q hq
    rw [Bool.eq_false_iff]
    intro h
    obtain ⟨r, hr, hrs, hre⟩ := (omem_true_iff _ _ _ _).mp h
    exact hcross r q hr hq hre
  have ho2o1 : ∀ q, q < M → omem occ2 skip2 M (occ1 q) = false := by
    intro q hq
    rw [Bool.eq_false_iff]
    intro h
    obtain ⟨r, hr, hrs, hre⟩ := (omem_true_iff _ _ _ _).mp h
    exact hcross q r hq hr hre.symm
  have hp21 : ¬ p2 = p1 := fun h => hp12 h.symm
  have hbp21 : ((p2 : Nat) == p1) = false := by simp [hp21]
  have hbp12 : ((p1 : Nat) == p2) = false := by simp [hp12]
  -- step 1: first loss loop
  obtain ⟨C1, sc1, hrun1, hf1, hs1, hq1⟩ :=
    swapLossLoop_char T C sc occ1 p1 skip1 M hp1T hocc1T hocc1inj
      (fun q hq _ => hp1occ1 q hq)
      (fun q hq hqs => ⟨(hv1 q hq hqs).1, (hv1 q hq hqs).2, hsym p1 (occ1 q)⟩)
  -- entries read by the second loss loop are untouched
  have he21 : ∀ q, q < M → C1 (occ2 q) p2 = C (occ2 q) p2 := by
    intro q hq
    have h := hf1 (occ2 q) p2
    rw [ho1o2 q hq, ho1p2, hbp21] at h
    simp [bint] at h
    exact_mod_cast h
  have he22 : ∀ q, q < M → C1 p2 (occ2 q) = C p2 (occ2 q) := by
    intro q hq
    have h := hf1 p2 (occ2 q)
    rw [ho1p2, hbp21] at h
    simp [bint] at h
    exact_mod_cast h
  -- step 2: second loss loop
  obtain ⟨C2, sc2, hrun2, hf2, hs2, hq2⟩ :=
    swapLossLoop_char T C1 sc1 occ2 p2 skip2 M hp2T hocc2T hocc2inj
      (fun q hq _ => hp2occ2 q hq)
      (fun q hq hqs => by
        rw [he21 q hq, he22 q hq]
        exact ⟨(hv2 q hq hqs).1, (hv2 q hq hqs).2, hsym p2 (occ2 q)⟩)
  have hloss2count : lossCount C1 occ2 p2 skip2 M = lossCount C occ2 p2 skip2 M := by
    unfold lossCount
    apply countP_congr_range
    intro a ha
    rw [he21 a ha]
  -- the combined matrix after both loss loops
  have hf12 : ∀ x y, (C2 x y : Int) = (C x y : Int)
      - bint (omem occ1 skip1 M x && (y == p1)) - bint ((x == p1) && omem occ1 skip1 M y)
      - bint (omem occ2 skip2 M x && (y == p2)) - bint ((x == p2) && omem occ2 skip2 M y) := by
    intro x y
    rw [hf2 x y, hf1 x y]
  -- entries read by the first gain loop are untouched
  have he31 : ∀ q, q < M → C2 (occ2 q) p1 = C (occ2 q) p1 := by
    intro q hq
    have h := hf12 (occ2 q) p1
    have hb : ((occ2 q : Nat) == p2) = false := by simp [hp2occ2 q hq]
    rw [ho1o2 q hq, ho1p1, hbp12, hb] at h
    simp [bint] at h
    exact_mod_cast h
  have he32 : ∀ q, q < M → C2 p1 (occ2 q) = C p1 (occ2 q) := by
    intro q hq
    have h := hf12 p1 (occ2 q)
    have hb : ((occ2 q : Nat) == p2) = false := by simp [hp2occ2 q hq]
    rw [ho1p1, ho1o2 q hq, ho2p1, hbp12] at h
    simp [bint] at h
    exact_mod_cast h
  -- step 3: first gain loop
  obtain ⟨hf3, hs3, hq3⟩ :=
    swapGainLoop_char T C2 sc2 occ2 p1 skip2 M hp1T hocc2T hocc2inj
      hp1occ2
      (fun q hq hqs => by
        rw [he31 q hq, he32 q hq]
        exact ⟨hv3 q hq hqs, hsym p1 (occ2 q)⟩)
  have hgain1count : gainCount C2 occ2 p1 skip2 M = gainCount C occ2 p1 skip2 M := by
    unfold gainCount
    apply countP_congr_range
    intro a ha
    rw [he31 a ha]
  set C3 : Nat → Nat → Nat := (swapGainLoop C2 sc2 occ2 p1 skip2 M).1 with hC3def
  set sc3 : Int := (swapGainLoop C2 sc2 occ2 p1 skip2 M).2 with hsc3def
  have hf123 : ∀ x y, (C3 x y : Int) = (C x y : Int)
      + bint (omem occ2 skip2 M x && (y == p1)) + bint ((x == p1) && omem occ2 skip2 M y)
      - bint (omem occ1 skip1 M x && (y == p1)) - bint ((x == p1) && omem occ1 skip1 M y)
      - bint (omem occ2 skip2 M x && (y == p2)) - bint ((x == p2) && omem occ2 skip2 M y) := by
    intro x y
    rw [hf3 x y, hf12 x y]
    ring
  -- entries read by the second gain loop are untouched
  have he41 : ∀ q, q < M → q ≠ skip1 → C3 (occ1 q) p2 = C (occ1 q) p2 := by
    intro q hq hqs
    have h := hf123 (occ1 q) p2
    have hb : ((occ1 q : Nat) == p1) = false := by simp [hp1occ1 q hq]
    have hb2 : ((occ1 q : Nat) == p2) = false := by simp [hp2occ1 q hq hqs]
    rw [ho2o1 q hq, ho1p2, hbp21, hb, hb2] at h
    simp [bint] at h
    exact_mod_cast h
  have he42 : ∀ q, q < M → q ≠ skip1 → C3 p2 (occ1 q) = C p2 (occ1 q) := by
    intro q hq hqs
    have h := hf123 p2 (occ1 q)
    have hb : ((occ1 q : Nat) == p1) = false := by simp [hp1occ1 q hq]
    have hb2 : ((p2 : Nat) == p2) = true := by simp
    rw [ho2p2, ho1p2, hbp21, hb] at h
    have ho2o1q := ho2o1 q hq
    rw [ho2o1q] at h
    simp [bint] at h
    exact_mod_cast h
  -- step 4: second gain loop
  obtain ⟨hf4, hs4, hq4⟩ :=
    swapGainLoop_char T C3 sc3 occ1 p2 skip1 M hp2T hocc1T hocc1inj
      hp2occ1
      (fun q hq hqs => by
        rw [he41 q hq hqs, he42 q hq hqs]
        exact ⟨hv4 q hq hqs, hsym p2 (occ1 q)⟩)
  have hgain2count : gainCount C3 occ1 p2 skip1 M = gainCount C occ1 p2 skip1 M := by
    unfold gainCount
    apply countP_congr_range
    intro a ha
    by_cases hs : a = skip1
    · simp [hs]
    · rw [he41 a ha hs]
  refine ⟨(swapGainLoop C3 sc3 occ1 p2 skip1 M).1,
    (swapGainLoop C3 sc3 occ1 p2 skip1 M).2, ?_, ?_, ?_, ?_⟩
  · unfold swapContactsUpdate
    rw [hrun1]
    simp only [Option.some_bind]
    rw [hrun2]
    simp only [Option.some_bind]
  · intro x y
    rw [hf4 x y, hf123 x y]
    unfold swapChg
    ring
  · rw [hs4, hs3, hs2, hs1, hloss2count, hgain1count, hgain2count]
  · rw [hq4, hq3, hq2, hq1, hloss2count, hgain1count, hgain2count]

/-! ## Semantic lemmas about well-formed schedules -/
theorem inGroupB_true_iff (sched : Nat → Nat → Nat → Nat) (cnt d g x : Nat) :
    inGroupB sched cnt d g x = true ↔ ∃ p, p < cnt ∧ sched d g p = x := by
  simp [inGroupB, List.any_eq_true, List.mem_range]

theorem sharesB_true_iff (sched : Nat → Nat → Nat → Nat) (G cnt d x y : Nat) :
    sharesB sched G cnt d x y = true ↔
      ∃ g, g < G ∧ inGroupB sched cnt d g x = true ∧ inGroupB sched cnt d g y = true := by
  simp [sharesB, List.any_eq_true, List.mem_range, and_assoc]

theorem list_any_ext {α : Type} (l : List α) (p q : α → Bool) (h : ∀ a, p a = q a) :
    l.any p = l.any q := by
  have hpq : p = q := funext h
  rw [hpq]

theorem sharesB_symm (sched : Nat → Nat → Nat → Nat) (G cnt d x y : Nat) :
    sharesB sched G cnt d x y = sharesB sched G cnt d y x := by
  unfold sharesB
  exact list_any_ext _ _ _ (fun g => Bool.and_comm _ _)

theorem SchedOk.group_unique {sched : Nat → Nat → Nat → Nat} {G cnt D lo hi : Nat}
    (h : SchedOk sched G cnt D lo hi) {d g g1 x : Nat} (hd : d < D)
    (hg : g < G) (hg1 : g1 < G)
    (hm : inGroupB sched cnt d g x = true) (hm1 : inGroupB sched cnt d g1 x = true) :
    g = g1 := by
  obtain ⟨p, hp, hpe⟩ := (inGroupB_true_iff _ _ _ _ _).mp hm
  obtain ⟨p1, hp1, hp1e⟩ := (inGroupB_true_iff _ _ _ _ _).mp hm1
  exact (h.inj d g p g1 p1 hd hg hp hg1 hp1 (hpe.trans hp1e.symm)).1

theorem SchedOk.inGroup_self {sched : Nat → Nat → Nat → Nat} {G cnt D lo hi : Nat}
    (_ : SchedOk sched G cnt D lo hi) {d g p : Nat} (hp : p < cnt) :
    inGroupB sched cnt d g (sched d g p) = true :=
  (inGroupB_true_iff _ _ _ _ _).mpr ⟨p, hp, rfl⟩

theorem SchedOk.shares_self {sched : Nat → Nat → Nat → Nat} {G cnt D lo hi : Nat}
    (h : SchedOk sched G cnt D lo hi) {d g p p1 : Nat}
    (hg : g < G) (hp : p < cnt) (hp1 : p1 < cnt) :
    sharesB sched G cnt d (sched d g p) (sched d g p1) = true :=
  (sharesB_true_iff _ _ _ _ _ _).mpr ⟨g, hg, h.inGroup_self hp, h.inGroup_self hp1⟩

theorem SchedOk.not_shares {sched : Nat → Nat → Nat → Nat} {G cnt D lo hi : Nat}
    (h : SchedOk sched G cnt D lo hi) {d g1 g2 p1 p2 : Nat} (hd : d < D)
    (hg1 : g1 < G) (hg2 : g2 < G) (hne : g1 ≠ g2) (hp1 : p1 < cnt) (hp2 : p2 < cnt) :
    sharesB sched G cnt d (sched d g1 p1) (sched d g2 p2) = false := by
  rw [Bool.eq_false_iff]
  intro hs
  obtain ⟨g, hg, hmx, hmy⟩ := (sharesB_true_iff _ _ _ _ _ _).mp hs
  have e1 : g1 = g := h.group_unique hd hg1 hg (h.inGroup_self hp1) hmx
  have e2 : g2 = g := h.group_unique hd hg2 hg (h.inGroup_self hp2) hmy
  exact hne (e1.trans e2.symm)

theorem coattSched_le (sched : Nat → Nat → Nat → Nat) (G cnt D x y : Nat) :
    coattSched sched G cnt D x y ≤ D := by
  unfold coattSched
  calc ((Finset.range D).filter fun d => sharesB sched G cnt d x y = true).card
      ≤ (Finset.range D).card := Finset.card_filter_le _ _
    _ = D := Finset.card_range D

theorem coattSched_pos {sched : Nat → Nat → Nat → Nat} {G cnt D d x y : Nat}
    (hd : d < D) (hs : sharesB sched G cnt d x y = true) :
    1 ≤ coattSched sched G cnt D x y := by
  unfold coattSched
  rw [Nat.succ_le_iff, Finset.card_pos]
  exact ⟨d, Finset.mem_filter.mpr ⟨Finset.mem_range.mpr hd, hs⟩⟩

theorem coattSched_lt {sched : Nat → Nat → Nat → Nat} {G cnt D d x y : Nat}
    (hd : d < D) (hs : sharesB sched G cnt d x y = false) :
    coattSched sched G cnt D x y + 1 ≤ D := by
  unfold coattSched
  have hsub : ((Finset.range D).filter fun e => sharesB sched G cnt e x y = true)
      ⊆ (Finset.range D).erase d := by
    intro e he
    obtain ⟨her, hes⟩ := Finset.mem_filter.mp he
    refine Finset.mem_erase.mpr ⟨?_, her⟩
    intro hcontra
    rw [hcontra] at hes
    rw [hs] at hes
    exact Bool.false_ne_true hes
  have hcard := Finset.card_le_card hsub
  rw [Finset.card_erase_of_mem (Finset.mem_range.mpr hd), Finset.card_range] at hcard
  omega

theorem coattSched_symm (sched : Nat → Nat → Nat → Nat) (G cnt D x y : Nat) :
    coattSched sched G cnt D x y = coattSched sched G cnt D y x := by
  unfold coattSched
  congr 1
  apply Finset.filter_congr
  intro d _
  rw [sharesB_symm]

theorem SchedOk.coatt_diag {sched : Nat → Nat → Nat → Nat} {G cnt D lo hi : Nat}
    (h : SchedOk sched G cnt D lo hi) {x : Nat} (hx : lo ≤ x) (hx2 : x < hi) :
    coattSched sched G cnt D x x = D := by
  unfold coattSched
  have : ((Finset.range D).filter fun d => sharesB sched G cnt d x x = true)
      = Finset.range D := by
    apply Finset.filter_true_of_mem
    intro d hd
    obtain ⟨g, p, hg, hp, hpe⟩ := h.surj d x (Finset.mem_range.mp hd) hx hx2
    rw [← hpe]
    exact h.shares_self hg hp hp
  rw [this, Finset.card_range]

/-- Co-attendance of two schedules that agree outside one day differs
exactly by the sharing indicators on that day. -/
theorem coattSched_congr_day (sched sched1 : Nat → Nat → Nat → Nat)
    (G cnt D day x y : Nat) (hday : day < D)
    (hagree : ∀ d, d ≠ day → ∀ g p, sched1 d g p = sched d g p) :
    (coattSched sched1 G cnt D x y : Int) =
      (coattSched sched G cnt D x y : Int)
      - bint (sharesB sched G cnt day x y)
      + bint (sharesB sched1 G cnt day x y) := by
  have hshareagree : ∀ d, d ≠ day →
      sharesB sched1 G cnt d x y = sharesB sched G cnt d x y := by
    intro d hd
    unfold sharesB
    apply list_any_ext
    intro g
    unfold inGroupB
    rw [show ((List.range cnt).any fun p => sched1 d g p == x)
        = ((List.range cnt).any fun p => sched d g p == x) from
      list_any_ext _ _ _ (fun p => by rw [hagree d hd g p])]
    rw [show ((List.range cnt).any fun p => sched1 d g p == y)
        = ((List.range cnt).any fun p => sched d g p == y) from
      list_any_ext _ _ _ (fun p => by rw [hagree d hd g p])]
  unfold coattSched
  rw [Finset.card_filter, Finset.card_filter]
  have hmem : day ∈ Finset.range D := Finset.mem_range.mpr hday
  rw [Finset.sum_eq_sum_diff_singleton_add hmem
      (fun d => if sharesB sched1 G cnt d x y = true then (1 : Nat) else 0),
    Finset.sum_eq_sum_diff_singleton_add hmem
      (fun d => if sharesB sched G cnt d x y = true then (1 : Nat) else 0)]
  have hcongr : (Finset.sum ((Finset.range D) \ {day}) fun d =>
      if sharesB sched1 G cnt d x y = true then (1 : Nat) else 0)
      = Finset.sum ((Finset.range D) \ {day}) fun d =>
      if sharesB sched G cnt d x y = true then (1 : Nat) else 0 := by
    apply Finset.sum_congr rfl
    intro d hd
    rw [hshareagree d (Finset.not_mem_singleton.mp (Finset.mem_sdiff.mp hd).2)]
  rw [hcongr]
  push_cast
  rcases Bool.eq_false_or_eq_true (sharesB sched1 G cnt day x y) with h1 | h1 <;>
    rcases Bool.eq_false_or_eq_true (sharesB sched G cnt day x y) with h2 | h2 <;>
      simp [h1, h2, bint]

/-- Occupant of slot `q` of group `g1` after the physical swap. -/
theorem omem_ite (sched : Nat → Nat → Nat → Nat) (day g sl other M x : Nat) :
    omem (fun q => if q = sl then other else sched day g q) sl M x
      = omem (fun q => sched day g q) sl M x := by
  unfold omem
  apply list_any_ext
  intro q
  by_cases hq : q = sl
  · simp [hq]
  · simp [hq]

/-- Characterization of the contact update of a cross-group swap on one
sex's schedule, for a state whose matrix agrees with the semantic
co-attendance on that sex's id range: it succeeds and moves matrix,
score and pair count exactly as `swapChg`/`lossCount`/`gainCount`
predict. -/
theorem swap_core_char (T M G D day g1 sl1 g2 sl2 lo hi : Nat)
    (sched : Nat → Nat → Nat → Nat) (C : Nat → Nat → Nat) (sc : Int)
    (hok : SchedOk sched G M D lo hi)
    (hCc : ∀ x y, lo ≤ x → x < hi → lo ≤ y → y < hi → C x y = coattSched sched G M D x y)
    (hsym : ∀ x y, C x y = C y x)
    (hhi : hi ≤ T) (hUW : D < UW)
    (hdayD : day < D) (hg1 : g1 < G) (hg2 : g2 < G) (hne : g1 ≠ g2)
    (hsl1 : sl1 < M) (hsl2 : sl2 < M) :
    ∃ Cr scr, swapContactsUpdate C sc
        (fun q => if q = sl1 then sched day g2 sl2 else sched day g1 q)
        (fun q => if q = sl2 then sched day g1 sl1 else sched day g2 q)
        (sched day g1 sl1) (sched day g2 sl2) sl1 sl2 M = some (Cr, scr) ∧
      (∀ x y, (Cr x y : Int) = (C x y : Int)
        + swapChg (fun q => if q = sl1 then sched day g2 sl2 else sched day g1 q)
            (fun q => if q = sl2 then sched day g1 sl1 else sched day g2 q)
            (sched day g1 sl1) (sched day g2 sl2) sl1 sl2 M x y) ∧
      scr = sc
        - (lossCount C (fun q => sched day g1 q) (sched day g1 sl1) sl1 M : Int)
        - (lossCount C (fun q => sched day g2 q) (sched day g2 sl2) sl2 M : Int)
        + (gainCount C (fun q => sched day g2 q) (sched day g1 sl1) sl2 M : Int)
        + (gainCount C (fun q => sched day g1 q) (sched day g2 sl2) sl1 M : Int) ∧
      (pairCount T Cr : Int) = (pairCount T C : Int)
        - (lossCount C (fun q => sched day g1 q) (sched day g1 sl1) sl1 M : Int)
        - (lossCount C (fun q => sched day g2 q) (sched day g2 sl2) sl2 M : Int)
        + (gainCount C (fun q => sched day g2 q) (sched day g1 sl1) sl2 M : Int)
        + (gainCount C (fun q => sched day g1 q) (sched day g2 sl2) sl1 M : Int) := by
  have hp1 := hok.mem day g1 sl1 hdayD hg1 hsl1
  have hp2 := hok.mem day g2 sl2 hdayD hg2 hsl2
  have hp12 : sched day g1 sl1 ≠ sched day g2 sl2 := by
    intro h
    exact hne (hok.inj day g1 sl1 g2 sl2 hdayD hg1 hsl1 hg2 hsl2 h).1
  have hmemT : ∀ d g p, d < D → g < G → p < M → sched d g p < T := by
    intro d g p hd hg hp
    exact lt_of_lt_of_le (hok.mem d g p hd hg hp).2 hhi
  have hinj1 : ∀ q q1, q < M → q1 < M →
      sched day g1 q = sched day g1 q1 → q = q1 := by
    intro q q1 hq hq1 h
    exact (hok.inj day g1 q g1 q1 hdayD hg1 hq hg1 hq1 h).2
  have hinj2 : ∀ q q1, q < M → q1 < M →
      sched day g2 q = sched day g2 q1 → q = q1 := by
    intro q q1 hq hq1 h
    exact (hok.inj day g2 q g2 q1 hdayD hg2 hq hg2 hq1 h).2
  have hx12 : ∀ q q1, q < M → q1 < M → sched day g1 q ≠ sched day g2 q1 := by
    intro q q1 hq hq1 h
    exact hne (hok.inj day g1 q g2 q1 hdayD hg1 hq hg2 hq1 h).1
  obtain ⟨Cr, scr, hrun, hCf, hsc, hpc⟩ :=
    swapContactsUpdate_char T M C sc
      (fun q => if q = sl1 then sched day g2 sl2 else sched day g1 q)
      (fun q => if q = sl2 then sched day g1 sl1 else sched day g2 q)
      (sched day g1 sl1) (sched day g2 sl2) sl1 sl2
      (lt_of_lt_of_le hp1.2 hhi) (lt_of_lt_of_le hp2.2 hhi) hp12
      (by
        intro q hq
        dsimp only
        by_cases h : q = sl1
        · simp only [h, if_pos rfl]
          exact lt_of_lt_of_le hp2.2 hhi
        · rw [if_neg h]
          exact hmemT day g1 q hdayD hg1 hq)
      (by
        intro q hq
        dsimp only
        by_cases h : q = sl2
        · simp only [h, if_pos rfl]
          exact lt_of_lt_of_le hp1.2 hhi
        · rw [if_neg h]
          exact hmemT day g2 q hdayD hg2 hq)
      (by
        intro q q1 hq hq1 h
        dsimp only at h
        by_cases e : q = sl1 <;> by_cases e1 : q1 = sl1
        · rw [e, e1]
        · rw [if_pos e, if_neg e1] at h
          exact absurd h.symm (hx12 q1 sl2 hq1 hsl2)
        · rw [if_neg e, if_pos e1] at h
          exact absurd h (hx12 q sl2 hq hsl2)
        · rw [if_neg e, if_neg e1] at h
          exact hinj1 q q1 hq hq1 h)
      (by
        intro q q1 hq hq1 h
        dsimp only at h
        by_cases e : q = sl2 <;> by_cases e1 : q1 = sl2
        · rw [e, e1]
        · rw [if_pos e, if_neg e1] at h
          exact absurd h (hx12 sl1 q1 hsl1 hq1)
        · rw [if_neg e, if_pos e1] at h
          exact absurd h.symm (hx12 sl1 q hsl1 hq)
        · rw [if_neg e, if_neg e1] at h
          exact hinj2 q q1 hq hq1 h)
      (by
        intro q q1 hq hq1
        dsimp only
        by_cases e : q = sl1 <;> by_cases e1 : q1 = sl2
        · rw [if_pos e, if_pos e1]
          exact fun h => hp12 h.symm
        · rw [if_pos e, if_neg e1]
          intro h
          exact e1 (hinj2 sl2 q1 hsl2 hq1 h).symm
        · rw [if_neg e, if_pos e1]
          intro h
          exact e (hinj1 q sl1 hq hsl1 h)
        · rw [if_neg e, if_neg e1]
          exact hx12 q q1 hq hq1)
      (by
        intro q hq
        dsimp only
        by_cases e : q = sl1
        · rw [if_pos e]
          exact fun h => hp12 h.symm
        · rw [if_neg e]
          intro h
          exact e (hinj1 q sl1 hq hsl1 h))
      (by
        intro q hq
        dsimp only
        by_cases e : q = sl2
        · rw [if_pos e]
          exact hp12
        · rw [if_neg e]
          intro h
          exact e (hinj2 q sl2 hq hsl2 h))
      (by
        intro q hq hqs
        dsimp only
        rw [if_neg hqs]
        intro h
        exact hx12 q sl2 hq hsl2 h)
      (by
        intro q hq hqs
        dsimp only
        rw [if_neg hqs]
        intro h
        exact hx12 sl1 q hsl1 hq h.symm)
      hsym
      (by
        intro q hq hqs
        dsimp only
        rw [if_neg hqs]
        rw [hCc (sched day g1 q) (sched day g1 sl1)
          (hok.mem day g1 q hdayD hg1 hq).1 (hok.mem day g1 q hdayD hg1 hq).2
          hp1.1 hp1.2]
        constructor
        · exact coattSched_pos hdayD (hok.shares_self hg1 hq hsl1)
        · exact lt_of_le_of_lt (coattSched_le _ _ _ _ _ _) hUW)
      (by
        intro q hq hqs
        dsimp only
        rw [if_neg hqs]
        rw [hCc (sched day g2 q) (sched day g2 sl2)
          (hok.mem day g2 q hdayD hg2 hq).1 (hok.mem day g2 q hdayD hg2 hq).2
          hp2.1 hp2.2]
        constructor
        · exact coattSched_pos hdayD (hok.shares_self hg2 hq hsl2)
        · exact lt_of_le_of_lt (coattSched_le _ _ _ _ _ _) hUW)
      (by
        intro q hq hqs
        dsimp only
        rw [if_neg hqs]
        rw [hCc (sched day g2 q) (sched day g1 sl1)
          (hok.mem day g2 q hdayD hg2 hq).1 (hok.mem day g2 q hdayD hg2 hq).2
          hp1.1 hp1.2]
        have := coattSched_lt hdayD
          (hok.not_shares hdayD hg2 hg1 (fun h => hne h.symm) hq hsl1)
        omega)
      (by
        intro q hq hqs
        dsimp only
        rw [if_neg hqs]
        rw [hCc (sched day g1 q) (sched day g2 sl2)
          (hok.mem day g1 q hdayD hg1 hq).1 (hok.mem day g1 q hdayD hg1 hq).2
          hp2.1 hp2.2]
        have := coattSched_lt hdayD
          (hok.not_shares hdayD hg1 hg2 hne hq hsl2)
        omega)
  refine ⟨Cr, scr, hrun, hCf, ?_, ?_⟩
  · rw [hsc]
    have e1 : lossCount C (fun q => if q = sl1 then sched day g2 sl2 else sched day g1 q)
        (sched day g1 sl1) sl1 M
        = lossCount C (fun q => sched day g1 q) (sched day g1 sl1) sl1 M := by
      unfold lossCount
      apply countP_congr_range
      intro a ha
      by_cases h : a = sl1
      · simp [h]
      · simp [h]
    have e2 : lossCount C (fun q => if q = sl2 then sched day g1 sl1 else sched day g2 q)
        (sched day g2 sl2) sl2 M
        = lossCount C (fun q => sched day g2 q) (sched day g2 sl2) sl2 M := by
      unfold lossCount
      apply countP_congr_range
      intro a ha
      by_cases h : a = sl2
      · simp [h]
      · simp [h]
    have e3 : gainCount C (fun q => if q = sl2 then sched day g1 sl1 else sched day g2 q)
        (sched day g1 sl1) sl2 M
        = gainCount C (fun q => sched day g2 q) (sched day g1 sl1) sl2 M := by
      unfold gainCount
      apply countP_congr_range
      intro a ha
      by_cases h : a = sl2
      · simp [h]
      · simp [h]
    have e4 : gainCount C (fun q => if q = sl1 then sched day g2 sl2 else sched day g1 q)
        (sched day g2 sl2) sl1 M
        = gainCount C (fun q => sched day g1 q) (sched day g2 sl2) sl1 M := by
      unfold gainCount
      apply countP_congr_range
      intro a ha
      by_cases h : a = sl1
      · simp [h]
      · simp [h]
    rw [e1, e2, e3, e4]
  · rw [hpc]
    have e1 : lossCount C (fun q => if q = sl1 then sched day g2 sl2 else sched day g1 q)
        (sched day g1 sl1) sl1 M
        = lossCount C (fun q => sched day g1 q) (sched day g1 sl1) sl1 M := by
      unfold lossCount
      apply countP_congr_range
      intro a ha
      by_cases h : a = sl1
      · simp [h]
      · simp [h]
    have e2 : lossCount C (fun q => if q = sl2 then sched day g1 sl1 else sched day g2 q)
        (sched day g2 sl2) sl2 M
        = lossCount C (fun q => sched day g2 q) (sched day g2 sl2) sl2 M := by
      unfold lossCount
      apply countP_congr_range
      intro a ha
      by_cases h : a = sl2
      · simp [h]
      · simp [h]
    have e3 : gainCount C (fun q => if q = sl2 then sched day g1 sl1 else sched day g2 q)
        (sched day g1 sl1) sl2 M
        = gainCount C (fun q => sched day g2 q) (sched day g1 sl1) sl2 M := by
      unfold gainCount
      apply countP_congr_range
      intro a ha
      by_cases h : a = sl2
      · simp [h]
      · simp [h]
    have e4 : gainCount C (fun q => if q = sl1 then sched day g2 sl2 else sched day g1 q)
        (sched day g2 sl2) sl1 M
        = gainCount C (fun q => sched day g1 q) (sched day g2 sl2) sl1 M := by
      unfold gainCount
      apply countP_congr_range
      intro a ha
      by_cases h : a = sl1
      · simp [h]
      · simp [h]
    rw [e1, e2, e3, e4]

theorem total_males_le (s : State) : total_males s ≤ total_people s := by
  unfold total_males total_people
  exact Nat.mul_le_mul_left _ (Nat.le_add_right _ _)

/-- Full characterization of a legal cross-group `swap_m` on an
invariant-satisfying state. -/
theorem swap_m_char (s : State) (day g1 sl1 g2 sl2 : Nat) (hInv : Inv s)
    (hl : LegalM s day g1 sl1 g2 sl2) (hne : g1 ≠ g2) :
    ∃ Cr scr,
      swap_m s day g1 sl1 g2 sl2 = some
        { s with
            m_day_group_person := (updM (updM s.m_day_group_person day g2 sl2
              (s.m_day_group_person day g1 sl1)) day g1 sl1
              (s.m_day_group_person day g2 sl2)),
            curr_contacts := Cr, curr_num_contacts := scr } ∧
      (∀ x y, (Cr x y : Int) = (s.curr_contacts x y : Int)
        + swapChg
            (fun q => if q = sl1 then s.m_day_group_person day g2 sl2
              else s.m_day_group_person day g1 q)
            (fun q => if q = sl2 then s.m_day_group_person day g1 sl1
              else s.m_day_group_person day g2 q)
            (s.m_day_group_person day g1 sl1) (s.m_day_group_person day g2 sl2)
            sl1 sl2 s.number_of_males_per_group x y) ∧
      scr = s.curr_num_contacts
        - (lossCount s.curr_contacts (fun q => s.m_day_group_person day g1 q)
            (s.m_day_group_person day g1 sl1) sl1 s.number_of_males_per_group : Int)
        - (lossCount s.curr_contacts (fun q => s.m_day_group_person day g2 q)
            (s.m_day_group_person day g2 sl2) sl2 s.number_of_males_per_group : Int)
        + (gainCount s.curr_contacts (fun q => s.m_day_group_person day g2 q)
            (s.m_day_group_person day g1 sl1) sl2 s.number_of_males_per_group : Int)
        + (gainCount s.curr_contacts (fun q => s.m_day_group_person day g1 q)
            (s.m_day_group_person day g2 sl2) sl1 s.number_of_males_per_group : Int) ∧
      (pairCount (total_people s) Cr : Int)
        = (pairCount (total_people s) s.curr_contacts : Int)
        - (lossCount s.curr_contacts (fun q => s.m_day_group_person day g1 q)
            (s.m_day_group_person day g1 sl1) sl1 s.number_of_males_per_group : Int)
        - (lossCount s.curr_contacts (fun q => s.m_day_group_person day g2 q)
            (s.m_day_group_person day g2 sl2) sl2 s.number_of_males_per_group : Int)
        + (gainCount s.curr_contacts (fun q => s.m_day_group_person day g2 q)
            (s.m_day_group_person day g1 sl1) sl2 s.number_of_males_per_group : Int)
        + (gainCount s.curr_contacts (fun q => s.m_day_group_person day g1 q)
            (s.m_day_group_person day g2 sl2) sl1 s.number_of_males_per_group : Int) := by
  obtain ⟨hday1, hdayD, hg1, hg2, hsl1, hsl2, -, -⟩ := hl
  have hocc1 : (fun q => (updM (updM s.m_day_group_person day g2 sl2
        (s.m_day_group_person day g1 sl1)) day g1 sl1
        (s.m_day_group_person day g2 sl2)) day g1 q)
      = (fun q => if q = sl1 then s.m_day_group_person day g2 sl2
          else s.m_day_group_person day g1 q) := by
    funext q
    by_cases hq : q = sl1
    · simp [updM, hq]
    · simp [updM, hq, hne]
  have hocc2 : (fun q => (updM (updM s.m_day_group_person day g2 sl2
        (s.m_day_group_person day g1 sl1)) day g1 sl1
        (s.m_day_group_person day g2 sl2)) day g2 q)
      = (fun q => if q = sl2 then s.m_day_group_person day g1 sl1
          else s.m_day_group_person day g2 q) := by
    funext q
    have hne2 : ¬ g2 = g1 := fun h => hne h.symm
    by_cases hq : q = sl2
    · simp [updM, hq, hne2]
    · simp [updM, hq, hne2]
  obtain ⟨Cr, scr, hrun, hCf, hsc, hpc⟩ :=
    swap_core_char (total_people s) s.number_of_males_per_group s.number_of_groups
      s.number_of_days day g1 sl1 g2 sl2 0 (total_males s)
      s.m_day_group_person s.curr_contacts s.curr_num_contacts
      hInv.mok
      (fun x y _ hx _ hy => hInv.mm x y hx hy)
      hInv.sym
      (total_males_le s) hInv.days_lt hdayD hg1 hg2 hne hsl1 hsl2
  refine ⟨Cr, scr, ?_, hCf, hsc, hpc⟩
  unfold swap_m
  rw [if_neg hne]
  rw [hocc1, hocc2, hrun]
  rfl

/-- Full characterization of a legal cross-group `swap_f` on an
invariant-satisfying state. -/
theorem swap_f_char (s : State) (day g1 sl1 g2 sl2 : Nat) (hInv : Inv s)
    (hl : LegalF s day g1 sl1 g2 sl2) (hne : g1 ≠ g2) :
    ∃ Cr scr,
      swap_f s day g1 sl1 g2 sl2 = some
        { s with
            f_day_group_person := (updM (updM s.f_day_group_person day g2 sl2
              (s.f_day_group_person day g1 sl1)) day g1 sl1
              (s.f_day_group_person day g2 sl2)),
            curr_contacts := Cr, curr_num_contacts := scr } ∧
      (∀ x y, (Cr x y : Int) = (s.curr_contacts x y : Int)
        + swapChg
            (fun q => if q = sl1 then s.f_day_group_person day g2 sl2
              else s.f_day_group_person day g1 q)
            (fun q => if q = sl2 then s.f_day_group_person day g1 sl1
              else s.f_day_group_person day g2 q)
            (s.f_day_group_person day g1 sl1) (s.f_day_group_person day g2 sl2)
            sl1 sl2 s.number_of_females_per_group x y) ∧
      scr = s.curr_num_contacts
        - (lossCount s.curr_contacts (fun q => s.f_day_group_person day g1 q)
            (s.f_day_group_person day g1 sl1) sl1 s.number_of_females_per_group : Int)
        - (lossCount s.curr_contacts (fun q => s.f_day_group_person day g2 q)
            (s.f_day_group_person day g2 sl2) sl2 s.number_of_females_per_group : Int)
        + (gainCount s.curr_contacts (fun q => s.f_day_group_person day g2 q)
            (s.f_day_group_person day g1 sl1) sl2 s.number_of_females_per_group : Int)
        + (gainCount s.curr_contacts (fun q => s.f_day_group_person day g1 q)
            (s.f_day_group_person day g2 sl2) sl1 s.number_of_females_per_group : Int) ∧
      (pairCount (total_people s) Cr : Int)
        = (pairCount (total_people s) s.curr_contacts : Int)
        - (lossCount s.curr_contacts (fun q => s.f_day_group_person day g1 q)
            (s.f_day_group_person day g1 sl1) sl1 s.number_of_females_per_group : Int)
        - (lossCount s.curr_contacts (fun q => s.f_day_group_person day g2 q)
            (s.f_day_group_person day g2 sl2) sl2 s.number_of_females_per_group : Int)
        + (gainCount s.curr_contacts (fun q => s.f_day_group_person day g2 q)
            (s.f_day_group_person day g1 sl1) sl2 s.number_of_females_per_group : Int)
        + (gainCount s.curr_contacts (fun q => s.f_day_group_person day g1 q)
            (s.f_day_group_person day g2 sl2) sl1 s.number_of_females_per_group : Int) := by
  obtain ⟨hday1, hdayD, hg1, hg2, hsl1, hsl2, -, -⟩ := hl
  have hocc1 : (fun q => (updM (updM s.f_day_group_person day g2 sl2
        (s.f_day_group_person day g1 sl1)) day g1 sl1
        (s.f_day_group_person day g2 sl2)) day g1 q)
      = (fun q => if q = sl1 then s.f_day_group_person day g2 sl2
          else s.f_day_group_person day g1 q) := by
    funext q
    by_cases hq : q = sl1
    · simp [updM, hq]
    · simp [updM, hq, hne]
  have hocc2 : (fun q => (updM (updM s.f_day_group_person day g2 sl2
        (s.f_day_group_person day g1 sl1)) day g1 sl1
        (s.f_day_group_person day g2 sl2)) day g2 q)
      = (fun q => if q = sl2 then s.f_day_group_person day g1 sl1
          else s.f_day_group_person day g2 q) := by
    funext q
    have hne2 : ¬ g2 = g1 := fun h => hne h.symm
    by_cases hq : q = sl2
    · simp [updM, hq, hne2]
    · simp [updM, hq, hne2]
  obtain ⟨Cr, scr, hrun, hCf, hsc, hpc⟩ :=
    swap_core_char (total_people s) s.number_of_females_per_group s.number_of_groups
      s.number_of_days day g1 sl1 g2 sl2 (total_males s) (total_people s)
      s.f_day_group_person s.curr_contacts s.curr_num_contacts
      hInv.fok
      (fun x y hx hx2 hy hy2 => hInv.ff x y hx hx2 hy hy2)
      hInv.sym
      (le_refl _) hInv.days_lt hdayD hg1 hg2 hne hsl1 hsl2
  refine ⟨Cr, scr, ?_, hCf, hsc, hpc⟩
  unfold swap_f
  rw [if_neg hne]
  rw [hocc1, hocc2, hrun]
  rfl

theorem deltaGainLoop_succ (C : Nat → Nat → Nat) (occ : Nat → Nat) (p skip n : Nat) :
    deltaGainLoop C occ p skip (n + 1) =
      (if C (occ n) p = 0 then
        (if n ≠ skip then deltaGainLoop C occ p skip n + 1 else deltaGainLoop C occ p skip n)
      else deltaGainLoop C occ p skip n) := by
  unfold deltaGainLoop
  rw [List.range_succ, List.foldl_append]
  rfl

theorem deltaGainLoop_eq (C : Nat → Nat → Nat) (occ : Nat → Nat) (p skip M : Nat) :
    deltaGainLoop C occ p skip M = (gainCount C occ p skip M : Int) := by
  induction M with
  | zero => simp [deltaGainLoop, gainCount]
  | succ n ih =>
    rw [deltaGainLoop_succ, ih]
    unfold gainCount
    rw [countP_range_succ]
    by_cases h0 : C (occ n) p = 0 <;> by_cases hs : n = skip
    · have : ((n != skip) && ((C (occ n) p : Nat) == 0)) = false := by simp [hs]
      rw [this, if_pos h0, if_neg (by simp [hs])]
      simp [gainCount]
    · have : ((n != skip) && ((C (occ n) p : Nat) == 0)) = true := by simp [hs, h0]
      rw [this, if_pos h0, if_pos hs]
      push_cast
      simp [gainCount]
    · have : ((n != skip) && ((C (occ n) p : Nat) == 0)) = false := by simp [h0]
      rw [this, if_neg h0]
      simp [gainCount]
    · have : ((n != skip) && ((C (occ n) p : Nat) == 0)) = false := by simp [h0]
      rw [this, if_neg h0]
      simp [gainCount]

theorem deltaLossLoopF_succ (C : Nat → Nat → Nat) (occ : Nat → Nat) (p n : Nat) :
    deltaLossLoopF C occ p (n + 1) =
      (if C (occ n) p = 1 then deltaLossLoopF C occ p n - 1 else deltaLossLoopF C occ p n) := by
  unfold deltaLossLoopF
  rw [List.range_succ, List.foldl_append]
  rfl

theorem deltaLossLoopF_eq (C : Nat → Nat → Nat) (occ : Nat → Nat) (p M : Nat) :
    deltaLossLoopF C occ p M
      = -(List.countP (fun q => ((C (occ q) p : Nat) == 1)) (List.range M) : Int) := by
  induction M with
  | zero => simp [deltaLossLoopF]
  | succ n ih =>
    rw [deltaLossLoopF_succ, ih, countP_range_succ]
    by_cases h1 : C (occ n) p = 1
    · rw [if_pos h1, if_pos (by simp [h1])]
      push_cast
      ring
    · rw [if_neg h1, if_neg (by simp [h1])]
      simp

theorem deltaLossLoop_succ (C : Nat → Nat → Nat) (occ : Nat → Nat) (p n : Nat) :
    deltaLossLoop C occ p (n + 1) =
      (deltaLossLoop C occ p n).bind fun d =>
        if C (occ n) p = 0 then none
        else if C (occ n) p = 1 then some (d - 1) else some d := by
  unfold deltaLossLoop
  rw [List.range_succ, List.foldl_append]
  rfl

theorem deltaLossLoop_some (C : Nat → Nat → Nat) (occ : Nat → Nat) (p M : Nat)
    (h : ∀ q, q < M → C (occ q) p ≠ 0) :
    deltaLossLoop C occ p M
      = some (-(List.countP (fun q => ((C (occ q) p : Nat) == 1)) (List.range M) : Int)) := by
  induction M with
  | zero => simp [deltaLossLoop]
  | succ n ih =>
    rw [deltaLossLoop_succ, ih (fun q hq => h q (Nat.lt_succ_of_lt hq)),
      Option.some_bind, countP_range_succ]
    rw [if_neg (h n (Nat.lt_succ_self n))]
    by_cases h1 : C (occ n) p = 1
    · rw [if_pos h1, if_pos (by simp [h1])]
      push_cast
      ring_nf
    · rw [if_neg h1, if_neg (by simp [h1])]
      simp

theorem countP_eq_lossCount (C : Nat → Nat → Nat) (occ : Nat → Nat) (p skip M : Nat)
    (hne : ¬ C (occ skip) p = 1) :
    List.countP (fun q => ((C (occ q) p : Nat) == 1)) (List.range M)
      = lossCount C occ p skip M := by
  unfold lossCount
  apply countP_congr_range
  intro a ha
  by_cases h : a = skip
  · rw [h]
    simp [hne]
  · simp [h]

/-- The diagonal entry of an invariant state equals the day count. -/
theorem Inv.diag (hInv : Inv s) (x : Nat) (hx : x < total_people s) :
    s.curr_contacts x x = s.number_of_days := by
  by_cases hm : x < total_males s
  · rw [hInv.mm x x hm hm]
    exact hInv.mok.coatt_diag (Nat.zero_le x) hm
  · have hlo : total_males s ≤ x := Nat.le_of_not_lt hm
    rw [hInv.ff x x hlo hx hlo hx]
    exact hInv.fok.coatt_diag hlo hx

/-- Characterization of a legal cross-group `contact_delta_of_swap_m`:
it does not throw and returns exactly the loss/gain tallies of the
corresponding `swap_m`. -/
theorem contact_delta_m_char (s : State) (day g1 sl1 g2 sl2 : Nat) (hInv : Inv s)
    (hl : LegalM s day g1 sl1 g2 sl2) (hne : g1 ≠ g2) :
    contact_delta_of_swap_m s day g1 sl1 g2 sl2 = some (
      - (lossCount s.curr_contacts (fun q => s.m_day_group_person day g1 q)
          (s.m_day_group_person day g1 sl1) sl1 s.number_of_males_per_group : Int)
      - (lossCount s.curr_contacts (fun q => s.m_day_group_person day g2 q)
          (s.m_day_group_person day g2 sl2) sl2 s.number_of_males_per_group : Int)
      + (gainCount s.curr_contacts (fun q => s.m_day_group_person day g2 q)
          (s.m_day_group_person day g1 sl1) sl2 s.number_of_males_per_group : Int)
      + (gainCount s.curr_contacts (fun q => s.m_day_group_person day g1 q)
          (s.m_day_group_person day g2 sl2) sl1 s.number_of_males_per_group : Int)) := by
  obtain ⟨hday1, hdayD, hg1, hg2, hsl1, hsl2, -, -⟩ := hl
  have hD2 : 2 ≤ s.number_of_days := by omega
  have hp1 := hInv.mok.mem day g1 sl1 hdayD hg1 hsl1
  have hp2 := hInv.mok.mem day g2 sl2 hdayD hg2 hsl2
  have hpos1 : ∀ q, q < s.number_of_males_per_group →
      s.curr_contacts (s.m_day_group_person day g1 q) (s.m_day_group_person day g1 sl1) ≠ 0 := by
    intro q hq
    have hqmem := hInv.mok.mem day g1 q hdayD hg1 hq
    rw [hInv.mm _ _ hqmem.2 hp1.2]
    unfold coatt_m
    have := coattSched_pos hdayD (hInv.mok.shares_self hg1 hq hsl1)
    omega
  have hpos2 : ∀ q, q < s.number_of_males_per_group →
      s.curr_contacts (s.m_day_group_person day g2 q) (s.m_day_group_person day g2 sl2) ≠ 0 := by
    intro q hq
    have hqmem := hInv.mok.mem day g2 q hdayD hg2 hq
    rw [hInv.mm _ _ hqmem.2 hp2.2]
    unfold coatt_m
    have := coattSched_pos hdayD (hInv.mok.shares_self hg2 hq hsl2)
    omega
  have hdiag1 : ¬ s.curr_contacts (s.m_day_group_person day g1 sl1)
      (s.m_day_group_person day g1 sl1) = 1 := by
    rw [hInv.diag _ (lt_of_lt_of_le hp1.2 (total_males_le s))]
    omega
  have hdiag2 : ¬ s.curr_contacts (s.m_day_group_person day g2 sl2)
      (s.m_day_group_person day g2 sl2) = 1 := by
    rw [hInv.diag _ (lt_of_lt_of_le hp2.2 (total_males_le s))]
    omega
  unfold contact_delta_of_swap_m
  rw [if_neg hne]
  dsimp only
  rw [deltaLossLoop_some _ _ _ _ hpos1, Option.some_bind,
    deltaLossLoop_some _ _ _ _ hpos2, Option.some_bind]
  rw [countP_eq_lossCount _ _ _ sl1 _ hdiag1, countP_eq_lossCount _ _ _ sl2 _ hdiag2]
  rw [deltaGainLoop_eq, deltaGainLoop_eq]
  congr 1

/-- Characterization of a legal cross-group `contact_delta_of_swap_f`:
it returns exactly the loss/gain tallies of the corresponding
`swap_f`. -/
theorem contact_delta_f_char (s : State) (day g1 sl1 g2 sl2 : Nat) (hInv : Inv s)
    (hl : LegalF s day g1 sl1 g2 sl2) (hne : g1 ≠ g2) :
    contact_delta_of_swap_f s day g1 sl1 g2 sl2 =
      - (lossCount s.curr_contacts (fun q => s.f_day_group_person day g1 q)
          (s.f_day_group_person day g1 sl1) sl1 s.number_of_females_per_group : Int)
      - (lossCount s.curr_contacts (fun q => s.f_day_group_person day g2 q)
          (s.f_day_group_person day g2 sl2) sl2 s.number_of_females_per_group : Int)
      + (gainCount s.curr_contacts (fun q => s.f_day_group_person day g2 q)
          (s.f_day_group_person day g1 sl1) sl2 s.number_of_females_per_group : Int)
      + (gainCount s.curr_contacts (fun q => s.f_day_group_person day g1 q)
          (s.f_day_group_person day g2 sl2) sl1 s.number_of_females_per_group : Int) := by
  obtain ⟨hday1, hdayD, hg1, hg2, hsl1, hsl2, -, -⟩ := hl
  have hD2 : 2 ≤ s.number_of_days := by omega
  have hp1 := hInv.fok.mem day g1 sl1 hdayD hg1 hsl1
  have hp2 := hInv.fok.mem day g2 sl2 hdayD hg2 hsl2
  have hdiag1 : ¬ s.curr_contacts (s.f_day_group_person day g1 sl1)
      (s.f_day_group_person day g1 sl1) = 1 := by
    rw [hInv.diag _ hp1.2]
    omega
  have hdiag2 : ¬ s.curr_contacts (s.f_day_group_person day g2 sl2)
      (s.f_day_group_person day g2 sl2) = 1 := by
    rw [hInv.diag _ hp2.2]
    omega
  unfold contact_delta_of_swap_f
  rw [if_neg hne]
  dsimp only
  rw [deltaLossLoopF_eq, deltaLossLoopF_eq]
  rw [countP_eq_lossCount _ _ _ sl1 _ hdiag1, countP_eq_lossCount _ _ _ sl2 _ hdiag2]
  rw [deltaGainLoop_eq, deltaGainLoop_eq]
  ring

/-- Pointwise evaluation of the doubly-updated schedule of a swap. -/
theorem swapSched_eval (sched : Nat → Nat → Nat → Nat) (day g1 sl1 g2 sl2 d g p : Nat) :
    updM (updM sched day g2 sl2 (sched day g1 sl1)) day g1 sl1 (sched day g2 sl2) d g p
      = if d = day ∧ g = g1 ∧ p = sl1 then sched day g2 sl2
        else if d = day ∧ g = g2 ∧ p = sl2 then sched day g1 sl1
        else sched d g p := by
  unfold updM
  by_cases c1 : d = day ∧ g = g1 ∧ p = sl1
  · rw [if_pos c1]
  · rw [if_neg c1]

/-- The physical swap preserves per-day permutation well-formedness. -/
theorem SchedOk.swap {sched : Nat → Nat → Nat → Nat} {G cnt D lo hi : Nat}
    (hok : SchedOk sched G cnt D lo hi) {day g1 sl1 g2 sl2 : Nat}
    (hdayD : day < D) (hg1 : g1 < G) (hg2 : g2 < G) (hsl1 : sl1 < cnt) (hsl2 : sl2 < cnt) :
    SchedOk (updM (updM sched day g2 sl2 (sched day g1 sl1)) day g1 sl1 (sched day g2 sl2))
      G cnt D lo hi := by
  constructor
  · intro d g p hd hg hp
    rw [swapSched_eval]
    by_cases c1 : d = day ∧ g = g1 ∧ p = sl1
    · rw [if_pos c1]
      exact hok.mem day g2 sl2 hdayD hg2 hsl2
    · rw [if_neg c1]
      by_cases c2 : d = day ∧ g = g2 ∧ p = sl2
      · rw [if_pos c2]
        exact hok.mem day g1 sl1 hdayD hg1 hsl1
      · rw [if_neg c2]
        exact hok.mem d g p hd hg hp
  · intro d g p g' p' hd hg hp hg' hp' heq
    rw [swapSched_eval, swapSched_eval] at heq
    by_cases c1 : d = day ∧ g = g1 ∧ p = sl1
    · rw [if_pos c1] at heq
      by_cases d1 : d = day ∧ g' = g1 ∧ p' = sl1
      · exact ⟨c1.2.1.trans d1.2.1.symm, c1.2.2.trans d1.2.2.symm⟩
      · rw [if_neg d1] at heq
        by_cases d2 : d = day ∧ g' = g2 ∧ p' = sl2
        · rw [if_pos d2] at heq
          have := hok.inj day g2 sl2 g1 sl1 hdayD hg2 hsl2 hg1 hsl1 heq
          refine ⟨c1.2.1.trans ?_, c1.2.2.trans ?_⟩
          · rw [← this.1, d2.2.1]
          · rw [← this.2, d2.2.2]
        · rw [if_neg d2] at heq
          have hdday := c1.1
          rw [hdday] at heq
          have := hok.inj day g2 sl2 g' p' hdayD hg2 hsl2 hg' hp' heq
          exact absurd ⟨c1.1, this.1.symm, this.2.symm⟩ d2
    · rw [if_neg c1] at heq
      by_cases c2 : d = day ∧ g = g2 ∧ p = sl2
      · rw [if_pos c2] at heq
        by_cases d1 : d = day ∧ g' = g1 ∧ p' = sl1
        · rw [if_pos d1] at heq
          have := hok.inj day g1 sl1 g2 sl2 hdayD hg1 hsl1 hg2 hsl2 heq
          refine ⟨c2.2.1.trans ?_, c2.2.2.trans ?_⟩
          · rw [← this.1, d1.2.1]
          · rw [← this.2, d1.2.2]
        · rw [if_neg d1] at heq
          by_cases d2 : d = day ∧ g' = g2 ∧ p' = sl2
          · exact ⟨c2.2.1.trans d2.2.1.symm, c2.2.2.trans d2.2.2.symm⟩
          · rw [if_neg d2] at heq
            have hdday := c2.1
            rw [hdday] at heq
            have := hok.inj day g1 sl1 g' p' hdayD hg1 hsl1 hg' hp' heq
            exact absurd ⟨c2.1, this.1.symm, this.2.symm⟩ d1
      · rw [if_neg c2] at heq
        by_cases d1 : d = day ∧ g' = g1 ∧ p' = sl1
        · rw [if_pos d1] at heq
          have hdday := d1.1
          rw [hdday] at heq
          have := hok.inj day g p g2 sl2 hdayD hg hp hg2 hsl2 heq
          exact absurd ⟨d1.1, this.1, this.2⟩ c2
        · rw [if_neg d1] at heq
          by_cases d2 : d = day ∧ g' = g2 ∧ p' = sl2
          · rw [if_pos d2] at heq
            have hdday := d2.1
            rw [hdday] at heq
            have := hok.inj day g p g1 sl1 hdayD hg hp hg1 hsl1 heq
            exact absurd ⟨d2.1, this.1, this.2⟩ c1
          · rw [if_neg d2] at heq
            exact (hok.inj d g p g' p' hd hg hp hg' hp' heq).imp id id
  · intro d x hd hx hx2
    by_cases hdd : d = day
    · obtain ⟨g, p, hg, hp, hpe⟩ := hok.surj day x hdayD hx hx2
      by_cases c1 : g = g1 ∧ p = sl1
      · refine ⟨g2, sl2, hg2, hsl2, ?_⟩
        rw [swapSched_eval, hdd]
        by_cases e : g2 = g1 ∧ sl2 = sl1
        · rw [if_pos ⟨rfl, e.1, e.2⟩]
          rw [e.1, e.2, ← c1.1, ← c1.2]
          exact hpe
        · rw [if_neg (fun h => e ⟨h.2.1, h.2.2⟩), if_pos ⟨rfl, rfl, rfl⟩]
          rw [← c1.1, ← c1.2]
          exact hpe
      · by_cases c2 : g = g2 ∧ p = sl2
        · refine ⟨g1, sl1, hg1, hsl1, ?_⟩
          rw [swapSched_eval, hdd]
          rw [if_pos ⟨rfl, rfl, rfl⟩]
          rw [← c2.1, ← c2.2]
          exact hpe
        · refine ⟨g, p, hg, hp, ?_⟩
          rw [swapSched_eval, hdd]
          rw [if_neg (fun h => c1 ⟨h.2.1, h.2.2⟩), if_neg (fun h => c2 ⟨h.2.1, h.2.2⟩)]
          exact hpe
    · obtain ⟨g, p, hg, hp, hpe⟩ := hok.surj d x hd hx hx2
      refine ⟨g, p, hg, hp, ?_⟩
      rw [swapSched_eval]
      rw [if_neg (fun h => hdd h.1), if_neg (fun h => hdd h.1)]
      exact hpe

theorem bool_eq_of_iff {a b : Bool} (h : a = true ↔ b = true) : a = b := by
  cases a <;> cases b <;> simp_all

theorem list_any_range_congr (n : Nat) (p q : Nat → Bool) (h : ∀ a, a < n → p a = q a) :
    (List.range n).any p = (List.range n).any q := by
  induction n with
  | zero => simp
  | succ n ih =>
    rw [List.range_succ]
    simp only [List.any_append, List.any_cons, List.any_nil]
    rw [ih (fun a ha => h a (Nat.lt_succ_of_lt ha)), h n (Nat.lt_succ_self n)]

/-- The semantic co-attendance change of a cross-group swap on same-sex
in-range pairs is exactly the matrix change `swapChg` applied by the
swap routines. -/
theorem coatt_swap_change {G cnt D lo hi : Nat} {sched : Nat → Nat → Nat → Nat}
    (hok : SchedOk sched G cnt D lo hi) {day g1 sl1 g2 sl2 : Nat}
    (hdayD : day < D) (hg1 : g1 < G) (hg2 : g2 < G) (hne : g1 ≠ g2)
    (hsl1 : sl1 < cnt) (hsl2 : sl2 < cnt)
    (x y : Nat) :
    (coattSched (updM (updM sched day g2 sl2 (sched day g1 sl1)) day g1 sl1
        (sched day g2 sl2)) G cnt D x y : Int)
      = (coattSched sched G cnt D x y : Int)
        + swapChg (fun q => if q = sl1 then sched day g2 sl2 else sched day g1 q)
            (fun q => if q = sl2 then sched day g1 sl1 else sched day g2 q)
            (sched day g1 sl1) (sched day g2 sl2) sl1 sl2 cnt x y := by
  have hok2 := hok.swap hdayD hg1 hg2 hsl1 hsl2
  have hp12 : sched day g1 sl1 ≠ sched day g2 sl2 := by
    intro h
    exact hne (hok.inj day g1 sl1 g2 sl2 hdayD hg1 hsl1 hg2 hsl2 h).1
  have hp21 : ¬ sched day g2 sl2 = sched day g1 sl1 := fun h => hp12 h.symm
  have hev1 : ∀ q, updM (updM sched day g2 sl2 (sched day g1 sl1)) day g1 sl1
      (sched day g2 sl2) day g1 q
      = if q = sl1 then sched day g2 sl2 else sched day g1 q := by
    intro q
    rw [swapSched_eval]
    by_cases hq : q = sl1
    · rw [if_pos ⟨rfl, rfl, hq⟩, if_pos hq]
    · rw [if_neg (fun h => hq h.2.2), if_neg (fun h => hne h.2.1), if_neg hq]
  have hev2 : ∀ q, updM (updM sched day g2 sl2 (sched day g1 sl1)) day g1 sl1
      (sched day g2 sl2) day g2 q
      = if q = sl2 then sched day g1 sl1 else sched day g2 q := by
    intro q
    rw [swapSched_eval]
    by_cases hq : q = sl2
    · rw [if_neg (fun h => hne h.2.1.symm), if_pos ⟨rfl, rfl, hq⟩, if_pos hq]
    · rw [if_neg (fun h => hne h.2.1.symm), if_neg (fun h => hq h.2.2), if_neg hq]
  have hevother : ∀ g q, g ≠ g1 → g ≠ g2 →
      updM (updM sched day g2 sl2 (sched day g1 sl1)) day g1 sl1
        (sched day g2 sl2) day g q = sched day g q := by
    intro g q hgne1 hgne2
    rw [swapSched_eval]
    rw [if_neg (fun h => hgne1 h.2.1), if_neg (fun h => hgne2 h.2.1)]
  have ho1p1 : omem (fun q => sched day g1 q) sl1 cnt (sched day g1 sl1) = false := by
    rw [Bool.eq_false_iff]
    intro h
    obtain ⟨q, hq, hqs, hqe⟩ := (omem_true_iff _ _ _ _).mp h
    exact hqs (hok.inj day g1 q g1 sl1 hdayD hg1 hq hg1 hsl1 hqe).2
  have ho2p2 : omem (fun q => sched day g2 q) sl2 cnt (sched day g2 sl2) = false := by
    rw [Bool.eq_false_iff]
    intro h
    obtain ⟨q, hq, hqs, hqe⟩ := (omem_true_iff _ _ _ _).mp h
    exact hqs (hok.inj day g2 q g2 sl2 hdayD hg2 hq hg2 hsl2 hqe).2
  have ho1p2 : omem (fun q => sched day g1 q) sl1 cnt (sched day g2 sl2) = false := by
    rw [Bool.eq_false_iff]
    intro h
    obtain ⟨q, hq, hqs, hqe⟩ := (omem_true_iff _ _ _ _).mp h
    exact hne (hok.inj day g1 q g2 sl2 hdayD hg1 hq hg2 hsl2 hqe).1
  have ho2p1 : omem (fun q => sched day g2 q) sl2 cnt (sched day g1 sl1) = false := by
    rw [Bool.eq_false_iff]
    intro h
    obtain ⟨q, hq, hqs, hqe⟩ := (omem_true_iff _ _ _ _).mp h
    exact hne (hok.inj day g1 sl1 g2 q hdayD hg1 hsl1 hg2 hq hqe.symm).1
  have hp1pos2 : updM (updM sched day g2 sl2 (sched day g1 sl1)) day g1 sl1
      (sched day g2 sl2) day g2 sl2 = sched day g1 sl1 := by
    rw [hev2 sl2, if_pos rfl]
  have hp2pos1 : updM (updM sched day g2 sl2 (sched day g1 sl1)) day g1 sl1
      (sched day g2 sl2) day g1 sl1 = sched day g2 sl2 := by
    rw [hev1 sl1, if_pos rfl]
  -- single-person sharing characterizations, before the swap
  have SB1 : ∀ z, z ≠ sched day g1 sl1 →
      sharesB sched G cnt day (sched day g1 sl1) z
        = omem (fun q => sched day g1 q) sl1 cnt z := by
    intro z hz
    apply bool_eq_of_iff
    rw [sharesB_true_iff, omem_true_iff]
    constructor
    · rintro ⟨g, hg, hin1, hin2⟩
      have hgg1 : g = g1 :=
        hok.group_unique hdayD hg hg1 hin1 (hok.inGroup_self hsl1)
      rw [hgg1] at hin2
      obtain ⟨q, hq, hqe⟩ := (inGroupB_true_iff _ _ _ _ _).mp hin2
      refine ⟨q, hq, ?_, hqe⟩
      intro hqsl
      rw [hqsl] at hqe
      exact hz hqe.symm
    · rintro ⟨q, hq, hqs, hqe⟩
      exact ⟨g1, hg1, hok.inGroup_self hsl1,
        (inGroupB_true_iff _ _ _ _ _).mpr ⟨q, hq, hqe⟩⟩
  have SB2 : ∀ z, z ≠ sched day g2 sl2 →
      sharesB sched G cnt day (sched day g2 sl2) z
        = omem (fun q => sched day g2 q) sl2 cnt z := by
    intro z hz
    apply bool_eq_of_iff
    rw [sharesB_true_iff, omem_true_iff]
    constructor
    · rintro ⟨g, hg, hin1, hin2⟩
      have hgg2 : g = g2 :=
        hok.group_unique hdayD hg hg2 hin1 (hok.inGroup_self hsl2)
      rw [hgg2] at hin2
      obtain ⟨q, hq, hqe⟩ := (inGroupB_true_iff _ _ _ _ _).mp hin2
      refine ⟨q, hq, ?_, hqe⟩
      intro hqsl
      rw [hqsl] at hqe
      exact hz hqe.symm
    · rintro ⟨q, hq, hqs, hqe⟩
      exact ⟨g2, hg2, hok.inGroup_self hsl2,
        (inGroupB_true_iff _ _ _ _ _).mpr ⟨q, hq, hqe⟩⟩
  -- single-person sharing characterizations, after the swap
  have SB1' : ∀ z, z ≠ sched day g1 sl1 →
      sharesB (updM (updM sched day g2 sl2 (sched day g1 sl1)) day g1 sl1
          (sched day g2 sl2)) G cnt day (sched day g1 sl1) z
        = omem (fun q => sched day g2 q) sl2 cnt z := by
    intro z hz
    apply bool_eq_of_iff
    rw [sharesB_true_iff, omem_true_iff]
    constructor
    · rintro ⟨g, hg, hin1, hin2⟩
      have hself : inGroupB (updM (updM sched day g2 sl2 (sched day g1 sl1)) day g1 sl1
          (sched day g2 sl2)) cnt day g2 (sched day g1 sl1) = true :=
        (inGroupB_true_iff _ _ _ _ _).mpr ⟨sl2, hsl2, hp1pos2⟩
      have hgg2 : g = g2 := hok2.group_unique hdayD hg hg2 hin1 hself
      rw [hgg2] at hin2
      obtain ⟨q, hq, hqe⟩ := (inGroupB_true_iff _ _ _ _ _).mp hin2
      rw [hev2 q] at hqe
      by_cases hqs : q = sl2
      · rw [if_pos hqs] at hqe
        exact absurd hqe.symm hz
      · rw [if_neg hqs] at hqe
        exact ⟨q, hq, hqs, hqe⟩
    · rintro ⟨q, hq, hqs, hqe⟩
      refine ⟨g2, hg2, (inGroupB_true_iff _ _ _ _ _).mpr ⟨sl2, hsl2, hp1pos2⟩, ?_⟩
      rw [inGroupB_true_iff]
      refine ⟨q, hq, ?_⟩
      rw [hev2 q, if_neg hqs]
      exact hqe
  have SB2' : ∀ z, z ≠ sched day g2 sl2 →
      sharesB (updM (updM sched day g2 sl2 (sched day g1 sl1)) day g1 sl1
          (sched day g2 sl2)) G cnt day (sched day g2 sl2) z
        = omem (fun q => sched day g1 q) sl1 cnt z := by
    intro z hz
    apply bool_eq_of_iff
    rw [sharesB_true_iff, omem_true_iff]
    constructor
    · rintro ⟨g, hg, hin1, hin2⟩
      have hself : inGroupB (updM (updM sched day g2 sl2 (sched day g1 sl1)) day g1 sl1
          (sched day g2 sl2)) cnt day g1 (sched day g2 sl2) = true :=
        (inGroupB_true_iff _ _ _ _ _).mpr ⟨sl1, hsl1, hp2pos1⟩
      have hgg1 : g = g1 := hok2.group_unique hdayD hg hg1 hin1 hself
      rw [hgg1] at hin2
      obtain ⟨q, hq, hqe⟩ := (inGroupB_true_iff _ _ _ _ _).mp hin2
      rw [hev1 q] at hqe
      by_cases hqs : q = sl1
      · rw [if_pos hqs] at hqe
        exact absurd hqe.symm hz
      · rw [if_neg hqs] at hqe
        exact ⟨q, hq, hqs, hqe⟩
    · rintro ⟨q, hq, hqs, hqe⟩
      refine ⟨g1, hg1, (inGroupB_true_iff _ _ _ _ _).mpr ⟨sl1, hsl1, hp2pos1⟩, ?_⟩
      rw [inGroupB_true_iff]
      refine ⟨q, hq, ?_⟩
      rw [hev1 q, if_neg hqs]
      exact hqe
  -- membership of bystanders is untouched
  have hout : ∀ g z, z ≠ sched day g1 sl1 → z ≠ sched day g2 sl2 →
      inGroupB (updM (updM sched day g2 sl2 (sched day g1 sl1)) day g1 sl1
        (sched day g2 sl2)) cnt day g z = inGroupB sched cnt day g z := by
    intro g z hz1 hz2
    apply bool_eq_of_iff
    rw [inGroupB_true_iff, inGroupB_true_iff]
    constructor
    · rintro ⟨q, hq, hqe⟩
      by_cases e1 : g = g1
      · rw [e1] at hqe ⊢
        rw [hev1 q] at hqe
        by_cases hqs : q = sl1
        · rw [if_pos hqs] at hqe
          exact absurd hqe.symm hz2
        · rw [if_neg hqs] at hqe
          exact ⟨q, hq, hqe⟩
      · by_cases e2 : g = g2
        · rw [e2] at hqe ⊢
          rw [hev2 q] at hqe
          by_cases hqs : q = sl2
          · rw [if_pos hqs] at hqe
            exact absurd hqe.symm hz1
          · rw [if_neg hqs] at hqe
            exact ⟨q, hq, hqe⟩
        · rw [hevother g q e1 e2] at hqe
          exact ⟨q, hq, hqe⟩
    · rintro ⟨q, hq, hqe⟩
      by_cases e1 : g = g1
      · rw [e1] at hqe ⊢
        refine ⟨q, hq, ?_⟩
        rw [hev1 q]
        have hqs : q ≠ sl1 := by
          intro h
          rw [h] at hqe
          exact hz1 hqe.symm
        rw [if_neg hqs]
        exact hqe
      · by_cases e2 : g = g2
        · rw [e2] at hqe ⊢
          refine ⟨q, hq, ?_⟩
          rw [hev2 q]
          have hqs : q ≠ sl2 := by
            intro h
            rw [h] at hqe
            exact hz2 hqe.symm
          rw [if_neg hqs]
          exact hqe
        · refine ⟨q, hq, ?_⟩
          rw [hevother g q e1 e2]
          exact hqe
  have hagree : ∀ d, d ≠ day → ∀ g p,
      updM (updM sched day g2 sl2 (sched day g1 sl1)) day g1 sl1
        (sched day g2 sl2) d g p = sched d g p := by
    intro d hd g p
    rw [swapSched_eval]
    rw [if_neg (fun h => hd h.1), if_neg (fun h => hd h.1)]
  rw [coattSched_congr_day sched _ G cnt D day x y hdayD hagree]
  unfold swapChg
  simp only [omem_ite]
  by_cases hxp1 : x = sched day g1 sl1
  · rw [hxp1]
    by_cases hyp1 : y = sched day g1 sl1
    · rw [hyp1]
      have hS : sharesB sched G cnt day (sched day g1 sl1) (sched day g1 sl1) = true :=
        hok.shares_self hg1 hsl1 hsl1
      have hS2 : sharesB (updM (updM sched day g2 sl2 (sched day g1 sl1)) day g1 sl1
          (sched day g2 sl2)) G cnt day (sched day g1 sl1) (sched day g1 sl1) = true := by
        rw [sharesB_true_iff]
        exact ⟨g2, hg2, (inGroupB_true_iff _ _ _ _ _).mpr ⟨sl2, hsl2, hp1pos2⟩,
          (inGroupB_true_iff _ _ _ _ _).mpr ⟨sl2, hsl2, hp1pos2⟩⟩
      rw [hS, hS2, ho1p1, ho2p1]
      have hb : ((sched day g1 sl1 : Nat) == sched day g2 sl2) = false := by simp [hp12]
      rw [hb]
      simp [bint]
    · by_cases hyp2 : y = sched day g2 sl2
      · rw [hyp2]
        have hS : sharesB sched G cnt day (sched day g1 sl1) (sched day g2 sl2) = false :=
          hok.not_shares hdayD hg1 hg2 hne hsl1 hsl2
        have hS2 : sharesB (updM (updM sched day g2 sl2 (sched day g1 sl1)) day g1 sl1
            (sched day g2 sl2)) G cnt day (sched day g1 sl1) (sched day g2 sl2) = false := by
          have := hok2.not_shares hdayD hg2 hg1 (fun h => hne h.symm) hsl2 hsl1
          rw [hp1pos2, hp2pos1] at this
          exact this
        rw [hS, hS2, ho1p1, ho2p1, ho1p2, ho2p2]
        have hb : ((sched day g1 sl1 : Nat) == sched day g2 sl2) = false := by simp [hp12]
        have hb2 : ((sched day g2 sl2 : Nat) == sched day g1 sl1) = false := by
          simp [hp21]
        rw [hb, hb2]
        simp [bint]
      · rw [SB1 y hyp1, SB1' y hyp1]
        have hb1 : ((y : Nat) == sched day g1 sl1) = false := by simp [hyp1]
        have hb2 : ((y : Nat) == sched day g2 sl2) = false := by simp [hyp2]
        rw [hb1, hb2, ho1p1, ho2p1]
        simp only [beq_self_eq_true, Bool.true_and, Bool.and_true, Bool.false_and,
          Bool.and_false, bint_false]
        have hb : ((sched day g1 sl1 : Nat) == sched day g2 sl2) = false := by simp [hp12]
        rw [hb]
        simp only [Bool.false_and, bint_false]
        ring
  · by_cases hxp2 : x = sched day g2 sl2
    · rw [hxp2]
      by_cases hyp1 : y = sched day g1 sl1
      · rw [hyp1]
        have hS : sharesB sched G cnt day (sched day g2 sl2) (sched day g1 sl1) = false := by
          rw [sharesB_symm]
          exact hok.not_shares hdayD hg1 hg2 hne hsl1 hsl2
        have hS2 : sharesB (updM (updM sched day g2 sl2 (sched day g1 sl1)) day g1 sl1
            (sched day g2 sl2)) G cnt day (sched day g2 sl2) (sched day g1 sl1) = false := by
          have := hok2.not_shares hdayD hg1 hg2 hne hsl1 hsl2
          rw [hp1pos2, hp2pos1] at this
          exact this
        rw [hS, hS2, ho1p1, ho2p1, ho1p2, ho2p2]
        have hb : ((sched day g1 sl1 : Nat) == sched day g2 sl2) = false := by simp [hp12]
        have hb2 : ((sched day g2 sl2 : Nat) == sched day g1 sl1) = false := by
          simp [hp21]
        rw [hb, hb2]
        simp [bint]
      · by_cases hyp2 : y = sched day g2 sl2
        · rw [hyp2]
          have hS : sharesB sched G cnt day (sched day g2 sl2) (sched day g2 sl2) = true :=
            hok.shares_self hg2 hsl2 hsl2
          have hS2 : sharesB (updM (updM sched day g2 sl2 (sched day g1 sl1)) day g1 sl1
              (sched day g2 sl2)) G cnt day (sched day g2 sl2) (sched day g2 sl2) = true := by
            rw [sharesB_true_iff]
            exact ⟨g1, hg1, (inGroupB_true_iff _ _ _ _ _).mpr ⟨sl1, hsl1, hp2pos1⟩,
              (inGroupB_true_iff _ _ _ _ _).mpr ⟨sl1, hsl1, hp2pos1⟩⟩
          rw [hS, hS2, ho1p2, ho2p2]
          have hb2 : ((sched day g2 sl2 : Nat) == sched day g1 sl1) = false := by
            simp [hp21]
          rw [hb2]
          simp [bint]
        · rw [SB2 y hyp2, SB2' y hyp2]
          have hb1 : ((y : Nat) == sched day g1 sl1) = false := by simp [hyp1]
          have hb2 : ((y : Nat) == sched day g2 sl2) = false := by simp [hyp2]
          have hb3 : ((sched day g2 sl2 : Nat) == sched day g1 sl1) = false := by
            simp [hp21]
          rw [hb1, hb2, hb3, ho1p2, ho2p2]
          simp only [beq_self_eq_true, Bool.true_and, Bool.and_true, Bool.false_and,
            Bool.and_false, bint_false]
          ring
    · by_cases hyp1 : y = sched day g1 sl1
      · rw [hyp1]
        rw [sharesB_symm sched G cnt day x, sharesB_symm _ G cnt day x]
        rw [SB1 x hxp1, SB1' x hxp1]
        have hb1 : ((x : Nat) == sched day g1 sl1) = false := by simp [hxp1]
        have hb2 : ((x : Nat) == sched day g2 sl2) = false := by simp [hxp2]
        have hb3 : ((sched day g1 sl1 : Nat) == sched day g2 sl2) = false := by
          simp [hp12]
        rw [hb1, hb2, hb3]
        simp only [beq_self_eq_true, Bool.true_and, Bool.and_true, Bool.false_and,
          Bool.and_false, bint_false]
        ring
      · by_cases hyp2 : y = sched day g2 sl2
        · rw [hyp2]
          rw [sharesB_symm sched G cnt day x, sharesB_symm _ G cnt day x]
          rw [SB2 x hxp2, SB2' x hxp2]
          have hb1 : ((x : Nat) == sched day g1 sl1) = false := by simp [hxp1]
          have hb2 : ((x : Nat) == sched day g2 sl2) = false := by simp [hxp2]
          have hb3 : ((sched day g2 sl2 : Nat) == sched day g1 sl1) = false := by
            simp [hp21]
          rw [hb1, hb2, hb3]
          simp only [beq_self_eq_true, Bool.true_and, Bool.and_true, Bool.false_and,
            Bool.and_false, bint_false]
          ring
        · have hSO : sharesB (updM (updM sched day g2 sl2 (sched day g1 sl1)) day g1 sl1
              (sched day g2 sl2)) G cnt day x y = sharesB sched G cnt day x y := by
            unfold sharesB
            apply list_any_range_congr
            intro g hg
            rw [hout g x hxp1 hxp2, hout g y hyp1 hyp2]
          rw [hSO]
          have hb1 : ((y : Nat) == sched day g1 sl1) = false := by simp [hyp1]
          have hb2 : ((y : Nat) == sched day g2 sl2) = false := by simp [hyp2]
          have hb3 : ((x : Nat) == sched day g1 sl1) = false := by simp [hxp1]
          have hb4 : ((x : Nat) == sched day g2 sl2) = false := by simp [hxp2]
          rw [hb1, hb2, hb3, hb4]
          simp [bint]

theorem swapChg_symm (occ1 occ2 : Nat → Nat) (p1 p2 sl1 sl2 M x y : Nat) :
    swapChg occ1 occ2 p1 p2 sl1 sl2 M x y = swapChg occ1 occ2 p1 p2 sl1 sl2 M y x := by
  unfold swapChg
  rw [Bool.and_comm (omem occ2 sl2 M x) (y == p1),
    Bool.and_comm (x == p1) (omem occ2 sl2 M y),
    Bool.and_comm (omem occ1 sl1 M x) (y == p2),
    Bool.and_comm (x == p2) (omem occ1 sl1 M y),
    Bool.and_comm (omem occ1 sl1 M x) (y == p1),
    Bool.and_comm (x == p1) (omem occ1 sl1 M y),
    Bool.and_comm (omem occ2 sl2 M x) (y == p2),
    Bool.and_comm (x == p2) (omem occ2 sl2 M y)]
  ring

theorem swapChg_eq_zero (occ1 occ2 : Nat → Nat) (p1 p2 sl1 sl2 M x y : Nat)
    (hx1 : ((x : Nat) == p1) = false) (hx2 : ((x : Nat) == p2) = false)
    (hy1 : ((y : Nat) == p1) = false) (hy2 : ((y : Nat) == p2) = false) :
    swapChg occ1 occ2 p1 p2 sl1 sl2 M x y = 0 := by
  unfold swapChg
  rw [hx1, hx2, hy1, hy2]
  simp [bint]

/-- A within-group physical swap does not change any semantic
co-attendance count. -/
theorem coatt_swap_same_group (sched : Nat → Nat → Nat → Nat)
    (G cnt D day g sl1 sl2 x y : Nat) (hsl1 : sl1 < cnt) (hsl2 : sl2 < cnt) :
    coattSched (updM (updM sched day g sl2 (sched day g sl1)) day g sl1
        (sched day g sl2)) G cnt D x y
      = coattSched sched G cnt D x y := by
  have hin : ∀ d g0 z, inGroupB (updM (updM sched day g sl2 (sched day g sl1)) day g sl1
      (sched day g sl2)) cnt d g0 z = inGroupB sched cnt d g0 z := by
    intro d g0 z
    apply bool_eq_of_iff
    rw [inGroupB_true_iff, inGroupB_true_iff]
    constructor
    · rintro ⟨q, hq, hqe⟩
      rw [swapSched_eval] at hqe
      by_cases c1 : d = day ∧ g0 = g ∧ q = sl1
      · rw [if_pos c1] at hqe
        refine ⟨sl2, hsl2, ?_⟩
        rw [c1.1, c1.2.1]
        exact hqe
      · rw [if_neg c1] at hqe
        by_cases c2 : d = day ∧ g0 = g ∧ q = sl2
        · rw [if_pos c2] at hqe
          refine ⟨sl1, hsl1, ?_⟩
          rw [c2.1, c2.2.1]
          exact hqe
        · rw [if_neg c2] at hqe
          exact ⟨q, hq, hqe⟩
    · rintro ⟨q, hq, hqe⟩
      by_cases c1 : d = day ∧ g0 = g ∧ q = sl1
      · refine ⟨sl2, hsl2, ?_⟩
        rw [swapSched_eval]
        rw [c1.1, c1.2.1, c1.2.2] at hqe
        by_cases e : d = day ∧ g0 = g ∧ sl2 = sl1
        · rw [if_pos e, e.2.2]
          exact hqe
        · rw [if_neg e, if_pos ⟨c1.1, c1.2.1, rfl⟩]
          exact hqe
      · by_cases c2 : d = day ∧ g0 = g ∧ q = sl2
        · refine ⟨sl1, hsl1, ?_⟩
          rw [swapSched_eval]
          rw [c2.1, c2.2.1, c2.2.2] at hqe
          rw [if_pos ⟨c2.1, c2.2.1, rfl⟩]
          exact hqe
        · refine ⟨q, hq, ?_⟩
          rw [swapSched_eval]
          rw [if_neg c1, if_neg c2]
          exact hqe
  unfold coattSched
  congr 1
  apply Finset.filter_congr
  intro d _
  unfold sharesB
  rw [list_any_range_congr G _ _ (fun g0 _ => by rw [hin d g0 x, hin d g0 y])]

/-- `swap_m` with legal arguments preserves the quiescent invariant. -/
theorem Inv.swap_m_pres {s s1 : State} {day g1 sl1 g2 sl2 : Nat} (hInv : Inv s)
    (hl : LegalM s day g1 sl1 g2 sl2)
    (hs : swap_m s day g1 sl1 g2 sl2 = some s1) : Inv s1 := by
  have hparts := hl
  obtain ⟨hday1, hdayD, hg1, hg2, hsl1, hsl2, him1, him2⟩ := hparts
  by_cases hne : g1 = g2
  · subst hne
    unfold swap_m at hs
    rw [if_pos rfl] at hs
    obtain rfl := Option.some.inj hs
    refine ⟨hInv.mok.swap hdayD hg1 hg1 hsl1 hsl2, hInv.fok, hInv.sym, ?_, hInv.ff,
      hInv.score, hInv.days_lt⟩
    intro x y hx hy
    unfold coatt_m
    dsimp only
    rw [coatt_swap_same_group s.m_day_group_person s.number_of_groups
      s.number_of_males_per_group s.number_of_days day g1 sl1 sl2 x y hsl1 hsl2]
    exact hInv.mm x y hx hy
  · obtain ⟨Cr, scr, hrun, hCf, hsc, hpc⟩ := swap_m_char s day g1 sl1 g2 sl2 hInv hl hne
    rw [hrun] at hs
    obtain rfl := Option.some.inj hs
    refine ⟨hInv.mok.swap hdayD hg1 hg2 hsl1 hsl2, hInv.fok, ?_, ?_, ?_, ?_, hInv.days_lt⟩
    · intro x y
      have hgoal : (Cr x y : Int) = (Cr y x : Int) := by
        rw [hCf x y, hCf y x, hInv.sym x y,
          swapChg_symm (fun q => if q = sl1 then s.m_day_group_person day g2 sl2
              else s.m_day_group_person day g1 q)
            (fun q => if q = sl2 then s.m_day_group_person day g1 sl1
              else s.m_day_group_person day g2 q)
            (s.m_day_group_person day g1 sl1) (s.m_day_group_person day g2 sl2)
            sl1 sl2 s.number_of_males_per_group x y]
      exact_mod_cast hgoal
    · intro x y hx hy
      have h1 := hCf x y
      rw [hInv.mm x y hx hy] at h1
      unfold coatt_m at h1
      have h2 := coatt_swap_change hInv.mok hdayD hg1 hg2 hne hsl1 hsl2 x y
      show Cr x y = coatt_m { s with
          m_day_group_person := (updM (updM s.m_day_group_person day g2 sl2
            (s.m_day_group_person day g1 sl1)) day g1 sl1
            (s.m_day_group_person day g2 sl2)),
          curr_contacts := Cr, curr_num_contacts := scr } x y
      unfold coatt_m
      dsimp only
      have hgoal : (Cr x y : Int)
          = (coattSched (updM (updM s.m_day_group_person day g2 sl2
            (s.m_day_group_person day g1 sl1)) day g1 sl1
            (s.m_day_group_person day g2 sl2)) s.number_of_groups
            s.number_of_males_per_group s.number_of_days x y : Int) := by
        rw [h2]
        exact h1
      exact_mod_cast hgoal
    · intro x y hx hx2 hy hy2
      have hx1 : total_males s ≤ x := hx
      have hy1 : total_males s ≤ y := hy
      have hxT : x < total_people s := hx2
      have hyT : y < total_people s := hy2
      have hp1 := hInv.mok.mem day g1 sl1 hdayD hg1 hsl1
      have hp2 := hInv.mok.mem day g2 sl2 hdayD hg2 hsl2
      have hb1 : ((x : Nat) == s.m_day_group_person day g1 sl1) = false := by
        have hne1 : x ≠ s.m_day_group_person day g1 sl1 := by
          have := hp1.2
          omega
        simp [hne1]
      have hb2 : ((x : Nat) == s.m_day_group_person day g2 sl2) = false := by
        have hne1 : x ≠ s.m_day_group_person day g2 sl2 := by
          have := hp2.2
          omega
        simp [hne1]
      have hb3 : ((y : Nat) == s.m_day_group_person day g1 sl1) = false := by
        have hne1 : y ≠ s.m_day_group_person day g1 sl1 := by
          have := hp1.2
          omega
        simp [hne1]
      have hb4 : ((y : Nat) == s.m_day_group_person day g2 sl2) = false := by
        have hne1 : y ≠ s.m_day_group_person day g2 sl2 := by
          have := hp2.2
          omega
        simp [hne1]
      have h1 := hCf x y
      rw [swapChg_eq_zero _ _ _ _ _ _ _ _ _ hb1 hb2 hb3 hb4, add_zero] at h1
      have hCxy : Cr x y = s.curr_contacts x y := by exact_mod_cast h1
      show Cr x y = coatt_f { s with
          m_day_group_person := (updM (updM s.m_day_group_person day g2 sl2
            (s.m_day_group_person day g1 sl1)) day g1 sl1
            (s.m_day_group_person day g2 sl2)),
          curr_contacts := Cr, curr_num_contacts := scr } x y
      rw [hCxy]
      exact hInv.ff x y hx1 hxT hy1 hyT
    · show scr = (pairCount (total_people s) Cr : Int)
      rw [hsc, hInv.score, hpc]

/-- `swap_f` with legal arguments preserves the quiescent invariant. -/
theorem Inv.swap_f_pres {s s1 : State} {day g1 sl1 g2 sl2 : Nat} (hInv : Inv s)
    (hl : LegalF s day g1 sl1 g2 sl2)
    (hs : swap_f s day g1 sl1 g2 sl2 = some s1) : Inv s1 := by
  have hparts := hl
  obtain ⟨hday1, hdayD, hg1, hg2, hsl1, hsl2, him1, him2⟩ := hparts
  by_cases hne : g1 = g2
  · subst hne
    unfold swap_f at hs
    rw [if_pos rfl] at hs
    obtain rfl := Option.some.inj hs
    refine ⟨hInv.mok, hInv.fok.swap hdayD hg1 hg1 hsl1 hsl2, hInv.sym, hInv.mm, ?_,
      hInv.score, hInv.days_lt⟩
    intro x y hx hx2 hy hy2
    unfold coatt_f
    dsimp only
    rw [coatt_swap_same_group s.f_day_group_person s.number_of_groups
      s.number_of_females_per_group s.number_of_days day g1 sl1 sl2 x y hsl1 hsl2]
    exact hInv.ff x y hx hx2 hy hy2
  · obtain ⟨Cr, scr, hrun, hCf, hsc, hpc⟩ := swap_f_char s day g1 sl1 g2 sl2 hInv hl hne
    rw [hrun] at hs
    obtain rfl := Option.some.inj hs
    refine ⟨hInv.mok, hInv.fok.swap hdayD hg1 hg2 hsl1 hsl2, ?_, ?_, ?_, ?_, hInv.days_lt⟩
    · intro x y
      have hgoal : (Cr x y : Int) = (Cr y x : Int) := by
        rw [hCf x y, hCf y x, hInv.sym x y,
          swapChg_symm (fun q => if q = sl1 then s.f_day_group_person day g2 sl2
              else s.f_day_group_person day g1 q)
            (fun q => if q = sl2 then s.f_day_group_person day g1 sl1
              else s.f_day_group_person day g2 q)
            (s.f_day_group_person day g1 sl1) (s.f_day_group_person day g2 sl2)
            sl1 sl2 s.number_of_females_per_group x y]
      exact_mod_cast hgoal
    · intro x y hx hy
      have hx1 : x < total_males s := hx
      have hy1 : y < total_males s := hy
      have hp1 := hInv.fok.mem day g1 sl1 hdayD hg1 hsl1
      have hp2 := hInv.fok.mem day g2 sl2 hdayD hg2 hsl2
      have hb1 : ((x : Nat) == s.f_day_group_person day g1 sl1) = false := by
        have hne1 : x ≠ s.f_day_group_person day g1 sl1 := by
          have := hp1.1
          omega
        simp [hne1]
      have hb2 : ((x : Nat) == s.f_day_group_person day g2 sl2) = false := by
        have hne1 : x ≠ s.f_day_group_person day g2 sl2 := by
          have := hp2.1
          omega
        simp [hne1]
      have hb3 : ((y : Nat) == s.f_day_group_person day g1 sl1) = false := by
        have hne1 : y ≠ s.f_day_group_person day g1 sl1 := by
          have := hp1.1
          omega
        simp [hne1]
      have hb4 : ((y : Nat) == s.f_day_group_person day g2 sl2) = false := by
        have hne1 : y ≠ s.f_day_group_person day g2 sl2 := by
          have := hp2.1
          omega
        simp [hne1]
      have h1 := hCf x y
      rw [swapChg_eq_zero _ _ _ _ _ _ _ _ _ hb1 hb2 hb3 hb4, add_zero] at h1
      have hCxy : Cr x y = s.curr_contacts x y := by exact_mod_cast h1
      show Cr x y = coatt_m { s with
          f_day_group_person := (updM (updM s.f_day_group_person day g2 sl2
            (s.f_day_group_person day g1 sl1)) day g1 sl1
            (s.f_day_group_person day g2 sl2)),
          curr_contacts := Cr, curr_num_contacts := scr } x y
      rw [hCxy]
      exact hInv.mm x y hx1 hy1
    · intro x y hx hx2 hy hy2
      have h1 := hCf x y
      rw [hInv.ff x y hx hx2 hy hy2] at h1
      unfold coatt_f at h1
      have h2 := coatt_swap_change hInv.fok hdayD hg1 hg2 hne hsl1 hsl2 x y
      show Cr x y = coatt_f { s with
          f_day_group_person := (updM (updM s.f_day_group_person day g2 sl2
            (s.f_day_group_person day g1 sl1)) day g1 sl1
            (s.f_day_group_person day g2 sl2)),
          curr_contacts := Cr, curr_num_contacts := scr } x y
      unfold coatt_f
      dsimp only
      have hgoal : (Cr x y : Int)
          = (coattSched (updM (updM s.f_day_group_person day g2 sl2
            (s.f_day_group_person day g1 sl1)) day g1 sl1
            (s.f_day_group_person day g2 sl2)) s.number_of_groups
            s.number_of_females_per_group s.number_of_days x y : Int) := by
        rw [h2]
        exact h1
      exact_mod_cast hgoal
    · show scr = (pairCount (total_people s) Cr : Int)
      rw [hsc, hInv.score, hpc]

/-! ## Initialization: schedule well-formedness -/
theorem shuffled_ids_lt (total off : Nat) {σ : Nat → Nat} (hσ : PermOn (total - off) σ)
    {i : Nat} (hi : i < total) : shuffled_ids off σ i < total := by
  unfold shuffled_ids
  by_cases h : i < off
  · rw [if_pos h]
    exact hi
  · rw [if_neg h]
    have h1 : i - off < total - off := by omega
    have := hσ.1 (i - off) h1
    omega

theorem shuffled_ids_inj (total off : Nat) {σ : Nat → Nat} (hσ : PermOn (total - off) σ)
    {i j : Nat} (hi : i < total) (hj : j < total)
    (heq : shuffled_ids off σ i = shuffled_ids off σ j) : i = j := by
  unfold shuffled_ids at heq
  by_cases h1 : i < off <;> by_cases h2 : j < off
  · rw [if_pos h1, if_pos h2] at heq
    exact heq
  · rw [if_pos h1, if_neg h2] at heq
    omega
  · rw [if_neg h1, if_pos h2] at heq
    omega
  · rw [if_neg h1, if_neg h2] at heq
    have e1 : i - off < total - off := by omega
    have e2 : j - off < total - off := by omega
    have := hσ.2.1 (i - off) (j - off) e1 e2 (by omega)
    omega

theorem shuffled_ids_surj (total off : Nat) {σ : Nat → Nat} (hσ : PermOn (total - off) σ)
    {y : Nat} (hy : y < total) : ∃ i, i < total ∧ shuffled_ids off σ i = y := by
  by_cases h : y < off
  · exact ⟨y, hy, by unfold shuffled_ids; rw [if_pos h]⟩
  · have h1 : y - off < total - off := by omega
    obtain ⟨a, ha, hae⟩ := hσ.2.2 (y - off) h1
    refine ⟨off + a, by omega, ?_⟩
    unfold shuffled_ids
    rw [if_neg (by omega)]
    have : off + a - off = a := by omega
    rw [this, hae]
    omega

theorem flat_lt {G M g p : Nat} (hg : g < G) (hp : p < M) : p * G + g < G * M := by
  have h1 : p * G + g < (p + 1) * G := by
    rw [Nat.succ_mul]
    omega
  have h2 : (p + 1) * G ≤ M * G := Nat.mul_le_mul_right G hp
  rw [Nat.mul_comm M G] at h2
  omega

theorem flat_inj {G M g p g1 p1 : Nat} (hg : g < G) (_hp : p < M) (hg1 : g1 < G)
    (_hp1 : p1 < M) (h : p * G + g = p1 * G + g1) : g = g1 ∧ p = p1 := by
  have hG : 0 < G := by omega
  have e1 : p * G + g = g + G * p := by ring
  have e2 : p1 * G + g1 = g1 + G * p1 := by ring
  rw [e1, e2] at h
  have m1 : (g + G * p) % G = g := by
    rw [Nat.add_mul_mod_self_left]
    exact Nat.mod_eq_of_lt hg
  have m2 : (g1 + G * p1) % G = g1 := by
    rw [Nat.add_mul_mod_self_left]
    exact Nat.mod_eq_of_lt hg1
  have d1 : (g + G * p) / G = p := by
    rw [Nat.add_mul_div_left _ _ hG, Nat.div_eq_of_lt hg]
    omega
  have d2 : (g1 + G * p1) / G = p1 := by
    rw [Nat.add_mul_div_left _ _ hG, Nat.div_eq_of_lt hg1]
    omega
  constructor
  · rw [← m1, ← m2, h]
  · rw [← d1, ← d2, h]

theorem flat_surj {G M x : Nat} (hx : x < G * M) :
    ∃ g p, g < G ∧ p < M ∧ p * G + g = x := by
  have hG : 0 < G := by
    rcases Nat.eq_zero_or_pos G with h | h
    · rw [h] at hx
      omega
    · exact h
  refine ⟨x % G, x / G, Nat.mod_lt x hG, ?_, ?_⟩
  · rw [Nat.div_lt_iff_lt_mul hG]
    rw [Nat.mul_comm] at hx
    exact hx
  · have := Nat.div_add_mod x G
    have e : x / G * G = G * (x / G) := by ring
    omega

theorem SchedOk_initSched (G cnt D off : Nat) (σ : Nat → Nat → Nat)
    (hσ : ∀ d, PermOn (G * cnt - off) (σ d)) :
    SchedOk (fun d g p => if d = 0 then p * G + g else shuffled_ids off (σ d) (p * G + g))
      G cnt D 0 (G * cnt) := by
  constructor
  · intro d g p _ hg hp
    refine ⟨Nat.zero_le _, ?_⟩
    by_cases hd : d = 0
    · rw [if_pos hd]
      exact flat_lt hg hp
    · rw [if_neg hd]
      exact shuffled_ids_lt (G * cnt) off (hσ d) (flat_lt hg hp)
  · intro d g p g1 p1 _ hg hp hg1 hp1 heq
    by_cases hd : d = 0
    · rw [if_pos hd, if_pos hd] at heq
      exact flat_inj hg hp hg1 hp1 heq
    · rw [if_neg hd, if_neg hd] at heq
      exact flat_inj hg hp hg1 hp1
        (shuffled_ids_inj (G * cnt) off (hσ d) (flat_lt hg hp) (flat_lt hg1 hp1) heq)
  · intro d x _ _ hx
    by_cases hd : d = 0
    · obtain ⟨g, p, hg, hp, he⟩ := flat_surj hx
      exact ⟨g, p, hg, hp, by rw [if_pos hd]; exact he⟩
    · obtain ⟨i, hi, hie⟩ := shuffled_ids_surj (G * cnt) off (hσ d) hx
      obtain ⟨g, p, hg, hp, he⟩ := flat_surj hi
      refine ⟨g, p, hg, hp, ?_⟩
      rw [if_neg hd]
      rw [he]
      exact hie

theorem SchedOk_shift (G cnt D n c : Nat) (sched : Nat → Nat → Nat → Nat)
    (h : SchedOk sched G cnt D 0 n) :
    SchedOk (fun d g p => c + sched d g p) G cnt D c (c + n) := by
  constructor
  · intro d g p hd hg hp
    have := h.mem d g p hd hg hp
    omega
  · intro d g p g1 p1 hd hg hp hg1 hp1 heq
    exact h.inj d g p g1 p1 hd hg hp hg1 hp1 (by omega)
  · intro d x hd hlo hhi
    obtain ⟨g, p, hg, hp, he⟩ := h.surj d (x - c) hd (Nat.zero_le _) (by omega)
    exact ⟨g, p, hg, hp, by omega⟩

theorem tcount_nil (x y : Nat) : tcount x y [] = 0 := rfl

theorem tcount_cons (x y : Nat) (e : Bool × Nat × Nat) (L : List (Bool × Nat × Nat)) :
    tcount x y (e :: L) = hitsN x y e + tcount x y L := by
  simp [tcount]

theorem contactStep_matrix (C : Nat → Nat → Nat) (sc : Int) (e : Bool × Nat × Nat)
    (hb : ∀ x y, C x y + hitsN x y e < UW) (x y : Nat) :
    (contactStep (C, sc) e).1 x y = C x y + hitsN x y e := by
  obtain ⟨cross, a, b⟩ := e
  unfold contactStep hitsN
  dsimp only
  cases cross with
  | false =>
    rw [if_neg (by simp)]
    rw [if_neg (by simp : ¬(false = true ∧ a = y ∧ b = x))]
    by_cases h1 : x = a ∧ y = b
    · have hc : a = x ∧ b = y := ⟨h1.1.symm, h1.2.symm⟩
      rw [if_pos hc]
      rw [h1.1, h1.2]
      rw [updC_self]
      have hb1 := hb a b
      have hhit : hitsN a b (false, a, b) = 1 := by simp [hitsN]
      rw [hhit] at hb1
      rw [cinc_eq (by omega)]
    · have hc : ¬(a = x ∧ b = y) := fun hcc => h1 ⟨hcc.1.symm, hcc.2.symm⟩
      rw [if_neg hc]
      rw [updC_ne C _ h1]
      omega
  | true =>
    rw [if_pos rfl]
    by_cases h2 : x = b ∧ y = a
    · rw [h2.1, h2.2]
      by_cases hba : b = a
      · have hb1 := hb a a
        rw [hba]
        rw [updC_self, updC_self]
        rw [hba] at hb1
        have hhit : hitsN a a (true, a, a) = 2 := by simp [hitsN]
        rw [hhit] at hb1
        have e1 : cinc (C a a) = C a a + 1 := cinc_eq (by omega)
        rw [e1]
        have e2 : cinc (C a a + 1) = C a a + 1 + 1 := cinc_eq (by omega)
        rw [e2]
        rw [if_pos ⟨rfl, rfl⟩, if_pos ⟨rfl, rfl, rfl⟩]
      · rw [updC_self]
        have hC1 : updC C a b (cinc (C a b)) b a = C b a := by
          apply updC_ne
          intro hcc
          exact hba hcc.1
        rw [hC1]
        have hb1 := hb b a
        have hhit : hitsN b a (true, a, b) = 1 := by
          have hnc : ¬(a = b ∧ b = a) := fun hcc => hba hcc.2
          simp [hitsN, hnc]
        rw [hhit] at hb1
        have e1 : cinc (C b a) = C b a + 1 := cinc_eq (by omega)
        rw [e1]
        rw [if_neg (by intro hcc; exact hba hcc.2)]
        rw [if_pos ⟨rfl, rfl, rfl⟩]
    · have hne2 : ¬(x = b ∧ y = a) := h2
      rw [updC_ne _ _ hne2]
      by_cases h1 : x = a ∧ y = b
      · rw [h1.1, h1.2]
        rw [updC_self]
        have hab : ¬a = b := by
          intro hcc
          exact h2 ⟨by rw [h1.1, hcc], by rw [h1.2, hcc]⟩
        have hb1 := hb a b
        have hhit : hitsN a b (true, a, b) = 1 := by
          have hnc : ¬(a = b ∧ b = a) := fun hcc => hab hcc.1
          simp [hitsN, hnc]
        rw [hhit] at hb1
        have e1 : cinc (C a b) = C a b + 1 := cinc_eq (by omega)
        rw [e1]
        rw [if_pos ⟨rfl, rfl⟩]
        rw [if_neg (by intro hcc; exact hab hcc.2.1)]
      · rw [updC_ne _ _ h1]
        rw [if_neg (fun hcc => h1 ⟨hcc.1.symm, hcc.2.symm⟩)]
        rw [if_neg (fun hcc => h2 ⟨hcc.2.2.symm, hcc.2.1.symm⟩)]
        omega

theorem contactFold_matrix (L : List (Bool × Nat × Nat)) :
    ∀ (C : Nat → Nat → Nat) (sc : Int),
    (∀ x y, C x y + tcount x y L < UW) →
    ∀ x y, (L.foldl contactStep (C, sc)).1 x y = C x y + tcount x y L := by
  induction L with
  | nil =>
    intro C sc _ x y
    simp [tcount]
  | cons e L ih =>
    intro C sc hb x y
    rw [List.foldl_cons]
    have hb1 : ∀ u v, C u v + hitsN u v e < UW := by
      intro u v
      have h1 := hb u v
      rw [tcount_cons] at h1
      omega
    have hstep := contactStep_matrix C sc e hb1
    have hpair : contactStep (C, sc) e = ((contactStep (C, sc) e).1, (contactStep (C, sc) e).2) := rfl
    rw [hpair]
    have hb2 : ∀ u v, (contactStep (C, sc) e).1 u v + tcount u v L < UW := by
      intro u v
      rw [hstep u v]
      have h1 := hb u v
      rw [tcount_cons] at h1
      omega
    rw [ih _ _ hb2 x y, hstep x y, tcount_cons]
    omega

theorem contactStep_score (C : Nat → Nat → Nat) (sc : Int) (T : Nat) (e : Bool × Nat × Nat)
    (hb : ∀ x y, C x y + hitsN x y e < UW)
    (hv : e.2.1 < T ∧ e.2.2 < T ∧ (e.1 = true → e.2.1 < e.2.2))
    (hs : sc = (pairCount T C : Int)) :
    (contactStep (C, sc) e).2 = (pairCount T ((contactStep (C, sc) e).1) : Int) := by
  obtain ⟨cross, a, b⟩ := e
  obtain ⟨ha, hbT, hcr⟩ := hv
  unfold contactStep
  dsimp only
  cases cross with
  | false =>
    rw [if_neg (by simp : ¬false = true), if_neg (by simp : ¬false = true)]
    have hb1 := hb a b
    have hhit : hitsN a b (false, a, b) = 1 := by simp [hitsN]
    rw [hhit] at hb1
    have e1 : cinc (C a b) = C a b + 1 := cinc_eq (by omega)
    rw [e1]
    have hpc := pairCount_updC T a b (C a b + 1) C ha hbT
    rw [hpc, hs]
    by_cases h0 : C a b = 0
    · rw [if_pos (beq_iff_eq.mpr h0)]
      by_cases hab : a < b
      · rw [if_pos hab]
        rw [if_neg (by intro hcc; omega), if_pos ⟨hab, by omega⟩]
        ring
      · rw [if_neg hab]
        rw [if_neg (by intro hcc; exact hab hcc.1), if_neg (by intro hcc; exact hab hcc.1)]
        ring
    · rw [if_neg (by simp [h0])]
      by_cases hab : a < b
      · rw [if_pos ⟨hab, by omega⟩, if_pos ⟨hab, by omega⟩]
        ring
      · rw [if_neg (by intro hcc; exact hab hcc.1), if_neg (by intro hcc; exact hab hcc.1)]
        ring
  | true =>
    rw [if_pos (rfl : (true : Bool) = true), if_pos (rfl : (true : Bool) = true)]
    have hab : a < b := hcr rfl
    have hb1 := hb a b
    have hhit : hitsN a b (true, a, b) = 1 := by
      have hnc : ¬(a = b ∧ b = a) := fun hcc => by omega
      simp [hitsN, hnc]
    rw [hhit] at hb1
    have e1 : cinc (C a b) = C a b + 1 := cinc_eq (by omega)
    rw [e1]
    have hC1ba : updC C a b (C a b + 1) b a = C b a := by
      apply updC_ne
      intro hcc
      omega
    rw [hC1ba]
    have hb2 := hb b a
    have hhit2 : hitsN b a (true, a, b) = 1 := by
      have hnc : ¬(a = b ∧ b = a) := fun hcc => by omega
      simp [hitsN, hnc]
    rw [hhit2] at hb2
    have e2 : cinc (C b a) = C b a + 1 := cinc_eq (by omega)
    rw [e2]
    have hpc1 := pairCount_updC T a b (C a b + 1) C ha hbT
    have hpc2 := pairCount_updC T b a (C b a + 1) (updC C a b (C a b + 1)) hbT ha
    rw [hC1ba] at hpc2
    rw [hs]
    have hnba : ¬b < a := by omega
    have hn1 : ¬(b < a ∧ 1 ≤ C b a) := fun hcc => hnba hcc.1
    have hn2 : ¬(b < a ∧ 1 ≤ C b a + 1) := fun hcc => hnba hcc.1
    by_cases h0 : C a b = 0
    · rw [if_pos (beq_iff_eq.mpr h0)]
      rw [hpc2, hpc1]
      rw [if_neg hn1, if_neg hn2]
      have hn3 : ¬(a < b ∧ 1 ≤ C a b) := fun hcc => by omega
      rw [if_neg hn3, if_pos ⟨hab, by omega⟩]
      ring
    · have hne0 : ¬(C a b == 0) = true := by simp [h0]
      rw [if_neg hne0]
      rw [hpc2, hpc1]
      rw [if_neg hn1, if_neg hn2]
      rw [if_pos ⟨hab, by omega⟩, if_pos ⟨hab, by omega⟩]
      ring

theorem contactFold_score (T : Nat) (L : List (Bool × Nat × Nat)) :
    ∀ (C : Nat → Nat → Nat) (sc : Int),
    (∀ x y, C x y + tcount x y L < UW) →
    (∀ e ∈ L, e.2.1 < T ∧ e.2.2 < T ∧ (e.1 = true → e.2.1 < e.2.2)) →
    sc = (pairCount T C : Int) →
    (L.foldl contactStep (C, sc)).2 = (pairCount T ((L.foldl contactStep (C, sc)).1) : Int) := by
  induction L with
  | nil =>
    intro C sc _ _ hs
    simpa using hs
  | cons e L ih =>
    intro C sc hb hv hs
    rw [List.foldl_cons]
    have hb1 : ∀ u v, C u v + hitsN u v e < UW := by
      intro u v
      have h1 := hb u v
      rw [tcount_cons] at h1
      omega
    have hstep := contactStep_matrix C sc e hb1
    have hpair : contactStep (C, sc) e = ((contactStep (C, sc) e).1, (contactStep (C, sc) e).2) := rfl
    rw [hpair]
    have hb2 : ∀ u v, (contactStep (C, sc) e).1 u v + tcount u v L < UW := by
      intro u v
      rw [hstep u v]
      have h1 := hb u v
      rw [tcount_cons] at h1
      omega
    have hv2 : ∀ e1 ∈ L, e1.2.1 < T ∧ e1.2.2 < T ∧ (e1.1 = true → e1.2.1 < e1.2.2) := by
      intro e1 he1
      exact hv e1 (List.mem_cons_of_mem e he1)
    have hsc1 : (contactStep (C, sc) e).2 = (pairCount T ((contactStep (C, sc) e).1) : Int) :=
      contactStep_score C sc T e hb1 (hv e (List.mem_cons_self e L)) hs
    exact ih _ _ hb2 hv2 hsc1

theorem tcount_append (x y : Nat) (L1 L2 : List (Bool × Nat × Nat)) :
    tcount x y (L1 ++ L2) = tcount x y L1 + tcount x y L2 := by
  simp [tcount]

theorem tcount_flatMap (x y : Nat) (l : List Nat) (f : Nat → List (Bool × Nat × Nat)) :
    tcount x y (l.flatMap f) = (l.map fun a => tcount x y (f a)).sum := by
  induction l with
  | nil => simp [tcount]
  | cons a l ih =>
    rw [List.flatMap_cons, tcount_append, ih]
    simp

theorem tcount_map (x y : Nat) (l : List Nat) (g : Nat → Bool × Nat × Nat) :
    tcount x y (l.map g) = (l.map fun a => hitsN x y (g a)).sum := by
  simp only [tcount, List.map_map]
  rfl

theorem hitsN_false (x y a b : Nat) :
    hitsN x y (false, a, b) = if a = x ∧ b = y then 1 else 0 := by
  simp [hitsN]

theorem hitsN_true (x y a b : Nat) :
    hitsN x y (true, a, b) =
      (if a = x ∧ b = y then 1 else 0) + (if a = y ∧ b = x then 1 else 0) := by
  simp [hitsN]

theorem list_map_sum_congr (n : Nat) (f g : Nat → Nat) (h : ∀ a, a < n → f a = g a) :
    ((List.range n).map f).sum = ((List.range n).map g).sum := by
  induction n with
  | zero => rfl
  | succ n ih =>
    rw [List.range_succ, List.map_append, List.map_append, List.sum_append, List.sum_append]
    rw [ih (fun a ha => h a (by omega))]
    simp [h n (by omega)]

theorem list_sum_map_add (l : List Nat) (f g : Nat → Nat) :
    (l.map fun i => f i + g i).sum = (l.map f).sum + (l.map g).sum := by
  induction l with
  | nil => rfl
  | cons a l ih =>
    simp only [List.map_cons, List.sum_cons, ih]
    omega

theorem list_sum_map_mul_const (l : List Nat) (f : Nat → Nat) (c : Nat) :
    (l.map fun i => f i * c).sum = (l.map f).sum * c := by
  induction l with
  | nil => simp
  | cons a l ih =>
    simp only [List.map_cons, List.sum_cons, ih]
    ring

theorem sum_ite_and_const (P : Prop) [Decidable P] (n : Nat) (w : Nat → Prop)
    [∀ i, Decidable (w i)] :
    ((List.range n).map fun i => if P ∧ w i then 1 else 0).sum
      = (if P then 1 else 0) * ((List.range n).map fun i => if w i then 1 else 0).sum := by
  by_cases hP : P
  · simp [hP]
  · simp [hP]

theorem tcount_cell (M F : Nat) (mv fv : Nat → Nat) (x y : Nat) :
    tcount x y (((List.range M).flatMap fun p1 =>
        ((List.range M).map fun p2 => ((false : Bool), mv p1, mv p2)) ++
        ((List.range F).map fun p2 => ((true : Bool), mv p1, fv p2))) ++
      ((List.range F).flatMap fun p1 =>
        (List.range F).map fun p2 => ((false : Bool), fv p1, fv p2)))
      = (cnt1 M mv x + cnt1 F fv x) * (cnt1 M mv y + cnt1 F fv y) := by
  rw [tcount_append, tcount_flatMap, tcount_flatMap]
  have h1 : ∀ p1, p1 < M →
      tcount x y (((List.range M).map fun p2 => ((false : Bool), mv p1, mv p2)) ++
        ((List.range F).map fun p2 => ((true : Bool), mv p1, fv p2)))
      = (if mv p1 = x then 1 else 0) * cnt1 M mv y
        + ((if mv p1 = x then 1 else 0) * cnt1 F fv y
           + (if mv p1 = y then 1 else 0) * cnt1 F fv x) := by
    intro p1 _
    rw [tcount_append, tcount_map, tcount_map]
    have e1 : ((List.range M).map fun p2 => hitsN x y ((false : Bool), mv p1, mv p2)).sum
        = ((List.range M).map fun p2 => if mv p1 = x ∧ mv p2 = y then 1 else 0).sum :=
      list_map_sum_congr M _ _ (fun p2 _ => hitsN_false x y (mv p1) (mv p2))
    have e2 : ((List.range F).map fun p2 => hitsN x y ((true : Bool), mv p1, fv p2)).sum
        = ((List.range F).map fun p2 =>
            (if mv p1 = x ∧ fv p2 = y then 1 else 0)
            + (if mv p1 = y ∧ fv p2 = x then 1 else 0)).sum :=
      list_map_sum_congr F _ _ (fun p2 _ => hitsN_true x y (mv p1) (fv p2))
    rw [e1, e2]
    rw [list_sum_map_add]
    rw [sum_ite_and_const (mv p1 = x) M (fun p2 => mv p2 = y)]
    rw [sum_ite_and_const (mv p1 = x) F (fun p2 => fv p2 = y)]
    rw [sum_ite_and_const (mv p1 = y) F (fun p2 => fv p2 = x)]
    rfl
  rw [list_map_sum_congr M _ _ h1]
  have h2 : ∀ p1, p1 < F →
      tcount x y ((List.range F).map fun p2 => ((false : Bool), fv p1, fv p2))
      = (if fv p1 = x then 1 else 0) * cnt1 F fv y := by
    intro p1 _
    rw [tcount_map]
    have e1 : ((List.range F).map fun p2 => hitsN x y ((false : Bool), fv p1, fv p2)).sum
        = ((List.range F).map fun p2 => if fv p1 = x ∧ fv p2 = y then 1 else 0).sum :=
      list_map_sum_congr F _ _ (fun p2 _ => hitsN_false x y (fv p1) (fv p2))
    rw [e1]
    rw [sum_ite_and_const (fv p1 = x) F (fun p2 => fv p2 = y)]
    rfl
  rw [list_map_sum_congr F _ _ h2]
  have h3 : ((List.range M).map fun p1 =>
      (if mv p1 = x then 1 else 0) * cnt1 M mv y
        + ((if mv p1 = x then 1 else 0) * cnt1 F fv y
           + (if mv p1 = y then 1 else 0) * cnt1 F fv x)).sum
      = cnt1 M mv x * cnt1 M mv y + (cnt1 M mv x * cnt1 F fv y + cnt1 M mv y * cnt1 F fv x) := by
    rw [list_sum_map_add, list_sum_map_add]
    rw [list_sum_map_mul_const, list_sum_map_mul_const, list_sum_map_mul_const]
    rfl
  rw [h3]
  rw [list_sum_map_mul_const]
  have h4 : ((List.range F).map fun p1 => if fv p1 = x then 1 else 0).sum = cnt1 F fv x := rfl
  rw [h4]
  ring

theorem tcount_initEvents (G M F D : Nat) (m f : Nat → Nat → Nat → Nat) (x y : Nat) :
    tcount x y (initEvents G M F D m f)
      = ((List.range D).map fun d => ((List.range G).map fun g =>
          (cnt1 M (m d g) x + cnt1 F (f d g) x)
            * (cnt1 M (m d g) y + cnt1 F (f d g) y)).sum).sum := by
  unfold initEvents
  rw [tcount_flatMap]
  apply list_map_sum_congr
  intro d _
  rw [tcount_flatMap]
  apply list_map_sum_congr
  intro g _
  exact tcount_cell M F (m d g) (f d g) x y

theorem sum_indicator_unique (w : Nat → Bool) :
    ∀ n, (∀ i j, i < n → j < n → w i = true → w j = true → i = j) →
    ((List.range n).map fun i => if w i = true then 1 else 0).sum
      = if ((List.range n).any w) = true then 1 else 0 := by
  intro n
  induction n with
  | zero => intro _; simp
  | succ n ih =>
    intro hinj
    have hrest := ih (fun i j hi hj => hinj i j (by omega) (by omega))
    rw [List.range_succ, List.map_append, List.sum_append, List.any_append, hrest]
    cases hw : w n
    · simp [hw]
    · have hz : (List.range n).any w = false := by
        rw [Bool.eq_false_iff]
        intro hc
        obtain ⟨i, hi, hwi⟩ := List.any_eq_true.mp hc
        rw [List.mem_range] at hi
        have := hinj i n (by omega) (by omega) hwi hw
        omega
      simp [hz, hw]

theorem cnt1_eq_indicator (n : Nat) (v : Nat → Nat)
    (hinj : ∀ p q, p < n → q < n → v p = v q → p = q) (x : Nat) :
    cnt1 n v x = if ((List.range n).any fun p => v p == x) = true then 1 else 0 := by
  unfold cnt1
  have e : ∀ p, p < n →
      (if v p = x then 1 else 0) = if ((fun p => v p == x) p) = true then 1 else 0 := by
    intro p _
    by_cases h : v p = x
    · simp [h]
    · simp [h]
  rw [list_map_sum_congr n _ _ e]
  apply sum_indicator_unique
  intro i j hi hj hwi hwj
  exact hinj i j hi hj ((beq_iff_eq.mp hwi).trans (beq_iff_eq.mp hwj).symm)

theorem cnt1_inGroup (sched : Nat → Nat → Nat → Nat) (cnt d g x : Nat)
    (hinj : ∀ p q, p < cnt → q < cnt → sched d g p = sched d g q → p = q) :
    cnt1 cnt (sched d g) x = if inGroupB sched cnt d g x = true then 1 else 0 := by
  rw [cnt1_eq_indicator cnt (sched d g) hinj x]
  rfl

theorem inGroupB_false_of_below {sched : Nat → Nat → Nat → Nat} {G cnt D lo hi : Nat}
    (h : SchedOk sched G cnt D lo hi) {d g x : Nat} (hd : d < D) (hg : g < G)
    (hx : x < lo) : inGroupB sched cnt d g x = false := by
  rw [Bool.eq_false_iff]
  intro hc
  obtain ⟨p, hp, hpe⟩ := (inGroupB_true_iff _ _ _ _ _).mp hc
  have := (h.mem d g p hd hg hp).1
  omega

theorem inGroupB_false_of_above {sched : Nat → Nat → Nat → Nat} {G cnt D lo hi : Nat}
    (h : SchedOk sched G cnt D lo hi) {d g x : Nat} (hd : d < D) (hg : g < G)
    (hx : hi ≤ x) : inGroupB sched cnt d g x = false := by
  rw [Bool.eq_false_iff]
  intro hc
  obtain ⟨p, hp, hpe⟩ := (inGroupB_true_iff _ _ _ _ _).mp hc
  have := (h.mem d g p hd hg hp).2
  omega

theorem list_sum_ite_le (n : Nat) (p : Nat → Bool) :
    ((List.range n).map fun d => if p d = true then 1 else 0).sum ≤ n := by
  induction n with
  | zero => simp
  | succ n ih =>
    rw [List.range_succ, List.map_append, List.sum_append]
    cases hp : p n
    · simp [hp]
      omega
    · simp [hp]
      omega

theorem list_sum_ite_eq_card (n : Nat) (p : Nat → Bool) :
    ((List.range n).map fun d => if p d = true then 1 else 0).sum
      = ((Finset.range n).filter fun d => p d = true).card := by
  induction n with
  | zero => simp
  | succ n ih =>
    rw [List.range_succ, List.map_append, List.sum_append, ih]
    rw [Finset.range_succ, Finset.filter_insert]
    cases hp : p n
    · simp [hp]
    · rw [if_pos rfl]
      rw [Finset.card_insert_of_not_mem (by
        intro hc
        have := Finset.mem_range.mp (Finset.mem_filter.mp hc).1
        omega)]
      simp [hp]

theorem indicator_or_mul (a b c d : Bool) (hab : ¬(a = true ∧ b = true))
    (hcd : ¬(c = true ∧ d = true)) :
    ((if a = true then (1 : Nat) else 0) + (if b = true then 1 else 0)) *
    ((if c = true then 1 else 0) + (if d = true then 1 else 0))
      = if ((a || b) && (c || d)) = true then 1 else 0 := by
  cases a <;> cases b <;> cases c <;> cases d <;> simp_all

theorem tcount_init_presS {G M F D Tm T : Nat} {m f : Nat → Nat → Nat → Nat}
    (hm : SchedOk m G M D 0 Tm) (hf : SchedOk f G F D Tm T) (x y : Nat) :
    tcount x y (initEvents G M F D m f)
      = ((List.range D).map fun d =>
          if (((List.range G).any fun g =>
            (inGroupB m M d g x || inGroupB f F d g x) &&
            (inGroupB m M d g y || inGroupB f F d g y)) = true) then 1 else 0).sum := by
  rw [tcount_initEvents]
  apply list_map_sum_congr
  intro d hd
  have hterm : ∀ g, g < G →
      (cnt1 M (m d g) x + cnt1 F (f d g) x) * (cnt1 M (m d g) y + cnt1 F (f d g) y)
      = if (((inGroupB m M d g x || inGroupB f F d g x) &&
             (inGroupB m M d g y || inGroupB f F d g y)) = true) then 1 else 0 := by
    intro g hg
    have hminj : ∀ p q, p < M → q < M → m d g p = m d g q → p = q :=
      fun p q hp hq h => (hm.inj d g p g q hd hg hp hg hq h).2
    have hfinj : ∀ p q, p < F → q < F → f d g p = f d g q → p = q :=
      fun p q hp hq h => (hf.inj d g p g q hd hg hp hg hq h).2
    rw [cnt1_inGroup m M d g x hminj, cnt1_inGroup f F d g x hfinj,
        cnt1_inGroup m M d g y hminj, cnt1_inGroup f F d g y hfinj]
    have hdx : ¬(inGroupB m M d g x = true ∧ inGroupB f F d g x = true) := by
      intro hcc
      obtain ⟨p, hp, hpe⟩ := (inGroupB_true_iff _ _ _ _ _).mp hcc.1
      obtain ⟨q, hq, hqe⟩ := (inGroupB_true_iff _ _ _ _ _).mp hcc.2
      have e1 := (hm.mem d g p hd hg hp).2
      have e2 := (hf.mem d g q hd hg hq).1
      omega
    have hdy : ¬(inGroupB m M d g y = true ∧ inGroupB f F d g y = true) := by
      intro hcc
      obtain ⟨p, hp, hpe⟩ := (inGroupB_true_iff _ _ _ _ _).mp hcc.1
      obtain ⟨q, hq, hqe⟩ := (inGroupB_true_iff _ _ _ _ _).mp hcc.2
      have e1 := (hm.mem d g p hd hg hp).2
      have e2 := (hf.mem d g q hd hg hq).1
      omega
    exact indicator_or_mul _ _ _ _ hdx hdy
  rw [list_map_sum_congr G _ _ hterm]
  apply sum_indicator_unique
  intro i j hi hj hwi hwj
  rw [Bool.and_eq_true] at hwi hwj
  have hui := hwi.1
  have huj := hwj.1
  rw [Bool.or_eq_true] at hui huj
  rcases hui with h1 | h1 <;> rcases huj with h2 | h2
  · exact hm.group_unique hd hi hj h1 h2
  · obtain ⟨p, hp, hpe⟩ := (inGroupB_true_iff _ _ _ _ _).mp h1
    obtain ⟨q, hq, hqe⟩ := (inGroupB_true_iff _ _ _ _ _).mp h2
    have e1 := (hm.mem d i p hd hi hp).2
    have e2 := (hf.mem d j q hd hj hq).1
    omega
  · obtain ⟨p, hp, hpe⟩ := (inGroupB_true_iff _ _ _ _ _).mp h1
    obtain ⟨q, hq, hqe⟩ := (inGroupB_true_iff _ _ _ _ _).mp h2
    have e1 := (hf.mem d i p hd hi hp).1
    have e2 := (hm.mem d j q hd hj hq).2
    omega
  · exact hf.group_unique hd hi hj h1 h2

theorem tcount_init_le {G M F D Tm T : Nat} {m f : Nat → Nat → Nat → Nat}
    (hm : SchedOk m G M D 0 Tm) (hf : SchedOk f G F D Tm T) (x y : Nat) :
    tcount x y (initEvents G M F D m f) ≤ D := by
  rw [tcount_init_presS hm hf x y]
  exact list_sum_ite_le D _

theorem tcount_init_symm {G M F D Tm T : Nat} {m f : Nat → Nat → Nat → Nat}
    (hm : SchedOk m G M D 0 Tm) (hf : SchedOk f G F D Tm T) (x y : Nat) :
    tcount x y (initEvents G M F D m f) = tcount y x (initEvents G M F D m f) := by
  rw [tcount_init_presS hm hf x y, tcount_init_presS hm hf y x]
  apply list_map_sum_congr
  intro d _
  have hswap : ((List.range G).any fun g =>
      (inGroupB m M d g x || inGroupB f F d g x) &&
      (inGroupB m M d g y || inGroupB f F d g y))
      = ((List.range G).any fun g =>
      (inGroupB m M d g y || inGroupB f F d g y) &&
      (inGroupB m M d g x || inGroupB f F d g x)) :=
    list_any_ext _ _ _ (fun g => Bool.and_comm _ _)
  rw [hswap]

theorem tcount_init_mm {G M F D Tm T : Nat} {m f : Nat → Nat → Nat → Nat}
    (hm : SchedOk m G M D 0 Tm) (hf : SchedOk f G F D Tm T) {x y : Nat}
    (hx : x < Tm) (hy : y < Tm) :
    tcount x y (initEvents G M F D m f) = coattSched m G M D x y := by
  rw [tcount_init_presS hm hf x y]
  unfold coattSched
  rw [← list_sum_ite_eq_card]
  apply list_map_sum_congr
  intro d hd
  have hpt : ((List.range G).any fun g =>
      (inGroupB m M d g x || inGroupB f F d g x) &&
      (inGroupB m M d g y || inGroupB f F d g y))
      = sharesB m G M d x y := by
    unfold sharesB
    apply list_any_range_congr
    intro g hg
    rw [inGroupB_false_of_below hf hd hg hx, inGroupB_false_of_below hf hd hg hy]
    simp
  rw [hpt]

theorem tcount_init_ff {G M F D Tm T : Nat} {m f : Nat → Nat → Nat → Nat}
    (hm : SchedOk m G M D 0 Tm) (hf : SchedOk f G F D Tm T) {x y : Nat}
    (hx : Tm ≤ x) (hy : Tm ≤ y) :
    tcount x y (initEvents G M F D m f) = coattSched f G F D x y := by
  rw [tcount_init_presS hm hf x y]
  unfold coattSched
  rw [← list_sum_ite_eq_card]
  apply list_map_sum_congr
  intro d hd
  have hpt : ((List.range G).any fun g =>
      (inGroupB m M d g x || inGroupB f F d g x) &&
      (inGroupB m M d g y || inGroupB f F d g y))
      = sharesB f G F d x y := by
    unfold sharesB
    apply list_any_range_congr
    intro g hg
    rw [inGroupB_false_of_above hm hd hg hx, inGroupB_false_of_above hm hd hg hy]
    simp
  rw [hpt]

theorem initEvents_valid {G M F D Tm T : Nat} {m f : Nat → Nat → Nat → Nat}
    (hm : SchedOk m G M D 0 Tm) (hf : SchedOk f G F D Tm T) (hTmT : Tm ≤ T) :
    ∀ e ∈ initEvents G M F D m f,
      e.2.1 < T ∧ e.2.2 < T ∧ (e.1 = true → e.2.1 < e.2.2) := by
  intro e he
  unfold initEvents at he
  rw [List.mem_flatMap] at he
  obtain ⟨d, hd, he⟩ := he
  rw [List.mem_range] at hd
  rw [List.mem_flatMap] at he
  obtain ⟨g, hg, he⟩ := he
  rw [List.mem_range] at hg
  rw [List.mem_append] at he
  rcases he with he | he
  · rw [List.mem_flatMap] at he
    obtain ⟨p1, hp1, he⟩ := he
    rw [List.mem_range] at hp1
    rw [List.mem_append] at he
    have hm1 := hm.mem d g p1 hd hg hp1
    rcases he with he | he
    · rw [List.mem_map] at he
      obtain ⟨p2, hp2, he⟩ := he
      rw [List.mem_range] at hp2
      have hm2 := hm.mem d g p2 hd hg hp2
      rw [← he]
      refine ⟨by dsimp only; omega, by dsimp only; omega, ?_⟩
      intro hc
      exact absurd hc (by simp)
    · rw [List.mem_map] at he
      obtain ⟨p2, hp2, he⟩ := he
      rw [List.mem_range] at hp2
      have hf2 := hf.mem d g p2 hd hg hp2
      rw [← he]
      exact ⟨by dsimp only; omega, by dsimp only; omega, fun _ => by dsimp only; omega⟩
  · rw [List.mem_flatMap] at he
    obtain ⟨p1, hp1, he⟩ := he
    rw [List.mem_range] at hp1
    rw [List.mem_map] at he
    obtain ⟨p2, hp2, he⟩ := he
    rw [List.mem_range] at hp2
    have hf1 := hf.mem d g p1 hd hg hp1
    have hf2 := hf.mem d g p2 hd hg hp2
    rw [← he]
    refine ⟨by dsimp only; omega, by dsimp only; omega, ?_⟩
    intro hc
    exact absurd hc (by simp)

theorem pairCount_zero (T : Nat) : pairCount T (fun _ _ => 0) = 0 := by
  unfold pairCount
  apply Finset.sum_eq_zero
  intro ij _
  simp

theorem initState_inv (s0 : State) (G M F D : Nat) (σm σf : Nat → Nat → Nat)
    (hD : D < UW)
    (hσm : ∀ d, PermOn (G * M - 6) (σm d))
    (hσf : ∀ d, PermOn (G * F - 2) (σf d)) :
    Inv (initState s0 G M F D σm σf) := by
  have hmok : SchedOk (initState s0 G M F D σm σf).m_day_group_person G M D 0 (G * M) :=
    SchedOk_initSched G M D 6 σm hσm
  have hfbase : SchedOk
      (fun d g p => if d = 0 then p * G + g else shuffled_ids 2 (σf d) (p * G + g))
      G F D 0 (G * F) :=
    SchedOk_initSched G F D 2 σf hσf
  have hfok : SchedOk (initState s0 G M F D σm σf).f_day_group_person G F D
      (G * M) (G * M + G * F) :=
    SchedOk_shift G F D (G * F) (G * M) _ hfbase
  have hbound : ∀ x y, (fun _ _ => (0 : Nat)) x y
      + tcount x y (initEvents G M F D (initState s0 G M F D σm σf).m_day_group_person
          (initState s0 G M F D σm σf).f_day_group_person) < UW := by
    intro x y
    have h1 := tcount_init_le hmok hfok x y
    have h2 : (fun _ _ => (0 : Nat)) x y = 0 := rfl
    rw [h2]
    omega
  have hCeq : ∀ x y, (initState s0 G M F D σm σf).curr_contacts x y
      = tcount x y (initEvents G M F D (initState s0 G M F D σm σf).m_day_group_person
          (initState s0 G M F D σm σf).f_day_group_person) := by
    intro x y
    have h := contactFold_matrix _ (fun _ _ => 0) 0 hbound x y
    have h0 : (initState s0 G M F D σm σf).curr_contacts x y
        = ((initEvents G M F D (initState s0 G M F D σm σf).m_day_group_person
            (initState s0 G M F D σm σf).f_day_group_person).foldl contactStep
            (fun _ _ => 0, 0)).1 x y := rfl
    rw [h0, h]
    omega
  have hscore : (initState s0 G M F D σm σf).curr_num_contacts
      = (pairCount (G * M + G * F) ((initState s0 G M F D σm σf).curr_contacts) : Int) := by
    have h := contactFold_score (G * M + G * F) _ (fun _ _ => 0) 0 hbound
      (initEvents_valid hmok hfok (by omega)) (by rw [pairCount_zero]; rfl)
    exact h
  have hTm : total_males (initState s0 G M F D σm σf) = G * M := rfl
  have hT : total_people (initState s0 G M F D σm σf) = G * M + G * F := by
    show G * (M + F) = G * M + G * F
    ring
  constructor
  · exact hmok
  · rw [hTm, hT]
    exact hfok
  · intro x y
    rw [hCeq x y, hCeq y x]
    exact tcount_init_symm hmok hfok x y
  · intro x y hx hy
    rw [hTm] at hx hy
    rw [hCeq x y]
    exact tcount_init_mm hmok hfok hx hy
  · intro x y hx hx2 hy hy2
    rw [hTm] at hx hy
    rw [hCeq x y]
    exact tcount_init_ff hmok hfok hx hy
  · rw [hT]
    exact hscore
  · exact hD

theorem Inv.set_imm_m {s : State} (h : Inv s) (v : Nat → Nat) :
    Inv (add_number_of_immovable_males_per_group s v) :=
  ⟨h.mok, h.fok, h.sym, h.mm, h.ff, h.score, h.days_lt⟩

theorem Inv.set_imm_f {s : State} (h : Inv s) (v : Nat → Nat) :
    Inv (add_number_of_immovable_females_per_group s v) :=
  ⟨h.mok, h.fok, h.sym, h.mm, h.ff, h.score, h.days_lt⟩

/-- Every reachable state satisfies the quiescent invariant. -/
theorem Reachable.inv {s : State} (h : Reachable s) : Inv s := by
  induction h with
  | init s0 G M F D σm σf hD hσm hσf => exact initState_inv s0 G M F D σm σf hD hσm hσf
  | swap_m_step day g1 slot1 g2 slot2 _ hl hs ih => exact Inv.swap_m_pres ih hl hs
  | swap_f_step day g1 slot1 g2 slot2 _ hl hs ih => exact Inv.swap_f_pres ih hl hs
  | set_imm_m v _ ih => exact ih.set_imm_m v
  | set_imm_f v _ ih => exact ih.set_imm_f v

/-! ## Involution of the swap routines -/
theorem omem_congr (occ occ' : Nat → Nat) (skip n : Nat)
    (h : ∀ q, q < n → q ≠ skip → occ q = occ' q) (x : Nat) :
    omem occ skip n x = omem occ' skip n x := by
  unfold omem
  apply list_any_range_congr
  intro q hq
  by_cases hs : q = skip
  · simp [hs]
  · rw [h q hq hs]

theorem swapChg_neg (u1 u2 : Nat → Nat) (A B sl1 sl2 M x y : Nat) :
    swapChg u1 u2 B A sl1 sl2 M x y = - swapChg u1 u2 A B sl1 sl2 M x y := by
  unfold swapChg
  ring

theorem swapChg_congr (occ1 occ1' occ2 occ2' : Nat → Nat) (p1 p2 sl1 sl2 M x y : Nat)
    (h1 : ∀ z, omem occ1 sl1 M z = omem occ1' sl1 M z)
    (h2 : ∀ z, omem occ2 sl2 M z = omem occ2' sl2 M z) :
    swapChg occ1 occ2 p1 p2 sl1 sl2 M x y = swapChg occ1' occ2' p1 p2 sl1 sl2 M x y := by
  unfold swapChg
  rw [h1 x, h1 y, h2 x, h2 y]

theorem swapSched_invol (sched : Nat → Nat → Nat → Nat) (day g1 sl1 g2 sl2 d g p : Nat) :
    updM (updM
        (updM (updM sched day g2 sl2 (sched day g1 sl1)) day g1 sl1 (sched day g2 sl2))
        day g2 sl2
        (updM (updM sched day g2 sl2 (sched day g1 sl1)) day g1 sl1 (sched day g2 sl2)
          day g1 sl1))
      day g1 sl1
      (updM (updM sched day g2 sl2 (sched day g1 sl1)) day g1 sl1 (sched day g2 sl2)
        day g2 sl2) d g p = sched d g p := by
  simp only [updM]
  split_ifs <;> simp_all

theorem swap_m_invol (s : State) (day g1 sl1 g2 sl2 : Nat) (hInv : Inv s)
    (hl : LegalM s day g1 sl1 g2 sl2) :
    (swap_m s day g1 sl1 g2 sl2).bind (fun s1 => swap_m s1 day g1 sl1 g2 sl2) = some s := by
  obtain ⟨hday1, hdayD, hg1, hg2, hsl1, hsl2, him1, him2⟩ := hl
  by_cases hne : g1 = g2
  · have h1 : swap_m s day g1 sl1 g2 sl2 = some { s with m_day_group_person := updM (updM s.m_day_group_person day g2 sl2 (s.m_day_group_person day g1 sl1)) day g1 sl1 (s.m_day_group_person day g2 sl2) } := by
      unfold swap_m
      rw [if_pos hne]
    rw [h1, Option.some_bind]
    have h2 : swap_m { s with m_day_group_person := updM (updM s.m_day_group_person day g2 sl2 (s.m_day_group_person day g1 sl1)) day g1 sl1 (s.m_day_group_person day g2 sl2) } day g1 sl1 g2 sl2
        = some { s with m_day_group_person := updM (updM (updM (updM s.m_day_group_person day g2 sl2 (s.m_day_group_person day g1 sl1)) day g1 sl1 (s.m_day_group_person day g2 sl2)) day g2 sl2 (updM (updM s.m_day_group_person day g2 sl2 (s.m_day_group_person day g1 sl1)) day g1 sl1 (s.m_day_group_person day g2 sl2) day g1 sl1)) day g1 sl1 (updM (updM s.m_day_group_person day g2 sl2 (s.m_day_group_person day g1 sl1)) day g1 sl1 (s.m_day_group_person day g2 sl2) day g2 sl2) } := by
      unfold swap_m
      rw [if_pos hne]
    rw [h2]
    have hm : updM (updM (updM (updM s.m_day_group_person day g2 sl2 (s.m_day_group_person day g1 sl1)) day g1 sl1 (s.m_day_group_person day g2 sl2)) day g2 sl2 (updM (updM s.m_day_group_person day g2 sl2 (s.m_day_group_person day g1 sl1)) day g1 sl1 (s.m_day_group_person day g2 sl2) day g1 sl1)) day g1 sl1 (updM (updM s.m_day_group_person day g2 sl2 (s.m_day_group_person day g1 sl1)) day g1 sl1 (s.m_day_group_person day g2 sl2) day g2 sl2)
        = s.m_day_group_person := by
      funext d g p
      exact swapSched_invol s.m_day_group_person day g1 sl1 g2 sl2 d g p
    rw [hm]
  · obtain ⟨Cr, scr, hs1, hCr, hscr, hpc⟩ := swap_m_char s day g1 sl1 g2 sl2 hInv
      ⟨hday1, hdayD, hg1, hg2, hsl1, hsl2, him1, him2⟩ hne
    rw [hs1, Option.some_bind]
    have hInv1 : Inv { s with m_day_group_person := updM (updM s.m_day_group_person day g2 sl2 (s.m_day_group_person day g1 sl1)) day g1 sl1 (s.m_day_group_person day g2 sl2), curr_contacts := Cr, curr_num_contacts := scr } := Inv.swap_m_pres hInv ⟨hday1, hdayD, hg1, hg2, hsl1, hsl2, him1, him2⟩ hs1
    have hl1 : LegalM { s with m_day_group_person := updM (updM s.m_day_group_person day g2 sl2 (s.m_day_group_person day g1 sl1)) day g1 sl1 (s.m_day_group_person day g2 sl2), curr_contacts := Cr, curr_num_contacts := scr } day g1 sl1 g2 sl2 :=
      ⟨hday1, hdayD, hg1, hg2, hsl1, hsl2, him1, him2⟩
    obtain ⟨Cr2, scr2, hs2, hCr2, hscr2, hpc2⟩ := swap_m_char { s with m_day_group_person := updM (updM s.m_day_group_person day g2 sl2 (s.m_day_group_person day g1 sl1)) day g1 sl1 (s.m_day_group_person day g2 sl2), curr_contacts := Cr, curr_num_contacts := scr } day g1 sl1 g2 sl2 hInv1 hl1 hne
    have hInv2 : Inv { { s with m_day_group_person := updM (updM s.m_day_group_person day g2 sl2 (s.m_day_group_person day g1 sl1)) day g1 sl1 (s.m_day_group_person day g2 sl2), curr_contacts := Cr, curr_num_contacts := scr } with
        m_day_group_person := updM (updM ({ s with m_day_group_person := updM (updM s.m_day_group_person day g2 sl2 (s.m_day_group_person day g1 sl1)) day g1 sl1 (s.m_day_group_person day g2 sl2), curr_contacts := Cr, curr_num_contacts := scr }).m_day_group_person day g2 sl2 (({ s with m_day_group_person := updM (updM s.m_day_group_person day g2 sl2 (s.m_day_group_person day g1 sl1)) day g1 sl1 (s.m_day_group_person day g2 sl2), curr_contacts := Cr, curr_num_contacts := scr }).m_day_group_person day g1 sl1))
          day g1 sl1 (({ s with m_day_group_person := updM (updM s.m_day_group_person day g2 sl2 (s.m_day_group_person day g1 sl1)) day g1 sl1 (s.m_day_group_person day g2 sl2), curr_contacts := Cr, curr_num_contacts := scr }).m_day_group_person day g2 sl2),
        curr_contacts := Cr2, curr_num_contacts := scr2 } := Inv.swap_m_pres hInv1 hl1 hs2
    have e1 : (updM (updM s.m_day_group_person day g2 sl2 (s.m_day_group_person day g1 sl1)) day g1 sl1 (s.m_day_group_person day g2 sl2)) day g1 sl1 = s.m_day_group_person day g2 sl2 := by
      rw [swapSched_eval, if_pos ⟨rfl, rfl, rfl⟩]
    have e2 : (updM (updM s.m_day_group_person day g2 sl2 (s.m_day_group_person day g1 sl1)) day g1 sl1 (s.m_day_group_person day g2 sl2)) day g2 sl2 = s.m_day_group_person day g1 sl1 := by
      rw [swapSched_eval]
      by_cases hc : day = day ∧ g2 = g1 ∧ sl2 = sl1
      · rw [if_pos hc, hc.2.1, hc.2.2]
      · rw [if_neg hc, if_pos ⟨rfl, rfl, rfl⟩]
    have hCr2n : ∀ x y, (Cr2 x y : Int) = (Cr x y : Int)
        + swapChg
            (fun q => if q = sl1 then (updM (updM s.m_day_group_person day g2 sl2 (s.m_day_group_person day g1 sl1)) day g1 sl1 (s.m_day_group_person day g2 sl2)) day g2 sl2 else (updM (updM s.m_day_group_person day g2 sl2 (s.m_day_group_person day g1 sl1)) day g1 sl1 (s.m_day_group_person day g2 sl2)) day g1 q)
            (fun q => if q = sl2 then (updM (updM s.m_day_group_person day g2 sl2 (s.m_day_group_person day g1 sl1)) day g1 sl1 (s.m_day_group_person day g2 sl2)) day g1 sl1 else (updM (updM s.m_day_group_person day g2 sl2 (s.m_day_group_person day g1 sl1)) day g1 sl1 (s.m_day_group_person day g2 sl2)) day g2 q)
            ((updM (updM s.m_day_group_person day g2 sl2 (s.m_day_group_person day g1 sl1)) day g1 sl1 (s.m_day_group_person day g2 sl2)) day g1 sl1) ((updM (updM s.m_day_group_person day g2 sl2 (s.m_day_group_person day g1 sl1)) day g1 sl1 (s.m_day_group_person day g2 sl2)) day g2 sl2)
            sl1 sl2 s.number_of_males_per_group x y := hCr2
    have homem1 : ∀ z, omem (fun q => if q = sl1 then s.m_day_group_person day g1 sl1 else (updM (updM s.m_day_group_person day g2 sl2 (s.m_day_group_person day g1 sl1)) day g1 sl1 (s.m_day_group_person day g2 sl2)) day g1 q)
          sl1 s.number_of_males_per_group z
        = omem (fun q => if q = sl1 then s.m_day_group_person day g2 sl2 else s.m_day_group_person day g1 q)
          sl1 s.number_of_males_per_group z := by
      intro z
      apply omem_congr
      intro q hq hqs
      rw [if_neg hqs, if_neg hqs, swapSched_eval]
      rw [if_neg (fun hc => hqs hc.2.2), if_neg (fun hc => hne hc.2.1)]
    have homem2 : ∀ z, omem (fun q => if q = sl2 then s.m_day_group_person day g2 sl2 else (updM (updM s.m_day_group_person day g2 sl2 (s.m_day_group_person day g1 sl1)) day g1 sl1 (s.m_day_group_person day g2 sl2)) day g2 q)
          sl2 s.number_of_males_per_group z
        = omem (fun q => if q = sl2 then s.m_day_group_person day g1 sl1 else s.m_day_group_person day g2 q)
          sl2 s.number_of_males_per_group z := by
      intro z
      apply omem_congr
      intro q hq hqs
      rw [if_neg hqs, if_neg hqs, swapSched_eval]
      rw [if_neg (fun hc => hne hc.2.1.symm), if_neg (fun hc => hqs hc.2.2)]
    have hCr2e : Cr2 = s.curr_contacts := by
      funext x y
      have h1 := hCr2n x y
      rw [e1, e2] at h1
      rw [swapChg_congr
          (fun q => if q = sl1 then s.m_day_group_person day g1 sl1 else (updM (updM s.m_day_group_person day g2 sl2 (s.m_day_group_person day g1 sl1)) day g1 sl1 (s.m_day_group_person day g2 sl2)) day g1 q)
          (fun q => if q = sl1 then s.m_day_group_person day g2 sl2 else s.m_day_group_person day g1 q)
          (fun q => if q = sl2 then s.m_day_group_person day g2 sl2 else (updM (updM s.m_day_group_person day g2 sl2 (s.m_day_group_person day g1 sl1)) day g1 sl1 (s.m_day_group_person day g2 sl2)) day g2 q)
          (fun q => if q = sl2 then s.m_day_group_person day g1 sl1 else s.m_day_group_person day g2 q)
          (s.m_day_group_person day g2 sl2) (s.m_day_group_person day g1 sl1) sl1 sl2 s.number_of_males_per_group x y homem1 homem2] at h1
      rw [swapChg_neg] at h1
      have h0 := hCr x y
      have hfin : (Cr2 x y : Int) = (s.curr_contacts x y : Int) := by
        rw [h1, h0]
        ring
      exact_mod_cast hfin
    have hscr2e : scr2 = s.curr_num_contacts := by
      have h2 : scr2 = (pairCount (total_people s) Cr2 : Int) := hInv2.score
      rw [hCr2e] at h2
      rw [h2]
      exact hInv.score.symm
    rw [hs2]
    show some { s with
        m_day_group_person := updM (updM (updM (updM s.m_day_group_person day g2 sl2 (s.m_day_group_person day g1 sl1)) day g1 sl1 (s.m_day_group_person day g2 sl2)) day g2 sl2 ((updM (updM s.m_day_group_person day g2 sl2 (s.m_day_group_person day g1 sl1)) day g1 sl1 (s.m_day_group_person day g2 sl2)) day g1 sl1))
          day g1 sl1 ((updM (updM s.m_day_group_person day g2 sl2 (s.m_day_group_person day g1 sl1)) day g1 sl1 (s.m_day_group_person day g2 sl2)) day g2 sl2),
        curr_contacts := Cr2, curr_num_contacts := scr2 } = some s
    have hm2 : updM (updM (updM (updM s.m_day_group_person day g2 sl2 (s.m_day_group_person day g1 sl1)) day g1 sl1 (s.m_day_group_person day g2 sl2)) day g2 sl2 ((updM (updM s.m_day_group_person day g2 sl2 (s.m_day_group_person day g1 sl1)) day g1 sl1 (s.m_day_group_person day g2 sl2)) day g1 sl1))
          day g1 sl1 ((updM (updM s.m_day_group_person day g2 sl2 (s.m_day_group_person day g1 sl1)) day g1 sl1 (s.m_day_group_person day g2 sl2)) day g2 sl2) = s.m_day_group_person := by
      funext d g p
      exact swapSched_invol s.m_day_group_person day g1 sl1 g2 sl2 d g p
    rw [hm2, hCr2e, hscr2e]

theorem swap_f_invol (s : State) (day g1 sl1 g2 sl2 : Nat) (hInv : Inv s)
    (hl : LegalF s day g1 sl1 g2 sl2) :
    (swap_f s day g1 sl1 g2 sl2).bind (fun s1 => swap_f s1 day g1 sl1 g2 sl2) = some s := by
  obtain ⟨hday1, hdayD, hg1, hg2, hsl1, hsl2, him1, him2⟩ := hl
  by_cases hne : g1 = g2
  · have h1 : swap_f s day g1 sl1 g2 sl2 = some { s with f_day_group_person := updM (updM s.f_day_group_person day g2 sl2 (s.f_day_group_person day g1 sl1)) day g1 sl1 (s.f_day_group_person day g2 sl2) } := by
      unfold swap_f
      rw [if_pos hne]
    rw [h1, Option.some_bind]
    have h2 : swap_f { s with f_day_group_person := updM (updM s.f_day_group_person day g2 sl2 (s.f_day_group_person day g1 sl1)) day g1 sl1 (s.f_day_group_person day g2 sl2) } day g1 sl1 g2 sl2
        = some { s with f_day_group_person := updM (updM (updM (updM s.f_day_group_person day g2 sl2 (s.f_day_group_person day g1 sl1)) day g1 sl1 (s.f_day_group_person day g2 sl2)) day g2 sl2 (updM (updM s.f_day_group_person day g2 sl2 (s.f_day_group_person day g1 sl1)) day g1 sl1 (s.f_day_group_person day g2 sl2) day g1 sl1)) day g1 sl1 (updM (updM s.f_day_group_person day g2 sl2 (s.f_day_group_person day g1 sl1)) day g1 sl1 (s.f_day_group_person day g2 sl2) day g2 sl2) } := by
      unfold swap_f
      rw [if_pos hne]
    rw [h2]
    have hm : updM (updM (updM (updM s.f_day_group_person day g2 sl2 (s.f_day_group_person day g1 sl1)) day g1 sl1 (s.f_day_group_person day g2 sl2)) day g2 sl2 (updM (updM s.f_day_group_person day g2 sl2 (s.f_day_group_person day g1 sl1)) day g1 sl1 (s.f_day_group_person day g2 sl2) day g1 sl1)) day g1 sl1 (updM (updM s.f_day_group_person day g2 sl2 (s.f_day_group_person day g1 sl1)) day g1 sl1 (s.f_day_group_person day g2 sl2) day g2 sl2)
        = s.f_day_group_person := by
      funext d g p
      exact swapSched_invol s.f_day_group_person day g1 sl1 g2 sl2 d g p
    rw [hm]
  · obtain ⟨Cr, scr, hs1, hCr, hscr, hpc⟩ := swap_f_char s day g1 sl1 g2 sl2 hInv
      ⟨hday1, hdayD, hg1, hg2, hsl1, hsl2, him1, him2⟩ hne
    rw [hs1, Option.some_bind]
    have hInv1 : Inv { s with f_day_group_person := updM (updM s.f_day_group_person day g2 sl2 (s.f_day_group_person day g1 sl1)) day g1 sl1 (s.f_day_group_person day g2 sl2), curr_contacts := Cr, curr_num_contacts := scr } := Inv.swap_f_pres hInv ⟨hday1, hdayD, hg1, hg2, hsl1, hsl2, him1, him2⟩ hs1
    have hl1 : LegalF { s with f_day_group_person := updM (updM s.f_day_group_person day g2 sl2 (s.f_day_group_person day g1 sl1)) day g1 sl1 (s.f_day_group_person day g2 sl2), curr_contacts := Cr, curr_num_contacts := scr } day g1 sl1 g2 sl2 :=
      ⟨hday1, hdayD, hg1, hg2, hsl1, hsl2, him1, him2⟩
    obtain ⟨Cr2, scr2, hs2, hCr2, hscr2, hpc2⟩ := swap_f_char { s with f_day_group_person := updM (updM s.f_day_group_person day g2 sl2 (s.f_day_group_person day g1 sl1)) day g1 sl1 (s.f_day_group_person day g2 sl2), curr_contacts := Cr, curr_num_contacts := scr } day g1 sl1 g2 sl2 hInv1 hl1 hne
    have hInv2 : Inv { { s with f_day_group_person := updM (updM s.f_day_group_person day g2 sl2 (s.f_day_group_person day g1 sl1)) day g1 sl1 (s.f_day_group_person day g2 sl2), curr_contacts := Cr, curr_num_contacts := scr } with
        f_day_group_person := updM (updM ({ s with f_day_group_person := updM (updM s.f_day_group_person day g2 sl2 (s.f_day_group_person day g1 sl1)) day g1 sl1 (s.f_day_group_person day g2 sl2), curr_contacts := Cr, curr_num_contacts := scr }).f_day_group_person day g2 sl2 (({ s with f_day_group_person := updM (updM s.f_day_group_person day g2 sl2 (s.f_day_group_person day g1 sl1)) day g1 sl1 (s.f_day_group_person day g2 sl2), curr_contacts := Cr, curr_num_contacts := scr }).f_day_group_person day g1 sl1))
          day g1 sl1 (({ s with f_day_group_person := updM (updM s.f_day_group_person day g2 sl2 (s.f_day_group_person day g1 sl1)) day g1 sl1 (s.f_day_group_person day g2 sl2), curr_contacts := Cr, curr_num_contacts := scr }).f_day_group_person day g2 sl2),
        curr_contacts := Cr2, curr_num_contacts := scr2 } := Inv.swap_f_pres hInv1 hl1 hs2
    have e1 : (updM (updM s.f_day_group_person day g2 sl2 (s.f_day_group_person day g1 sl1)) day g1 sl1 (s.f_day_group_person day g2 sl2)) day g1 sl1 = s.f_day_group_person day g2 sl2 := by
      rw [swapSched_eval, if_pos ⟨rfl, rfl, rfl⟩]
    have e2 : (updM (updM s.f_day_group_person day g2 sl2 (s.f_day_group_person day g1 sl1)) day g1 sl1 (s.f_day_group_person day g2 sl2)) day g2 sl2 = s.f_day_group_person day g1 sl1 := by
      rw [swapSched_eval]
      by_cases hc : day = day ∧ g2 = g1 ∧ sl2 = sl1
      · rw [if_pos hc, hc.2.1, hc.2.2]
      · rw [if_neg hc, if_pos ⟨rfl, rfl, rfl⟩]
    have hCr2n : ∀ x y, (Cr2 x y : Int) = (Cr x y : Int)
        + swapChg
            (fun q => if q = sl1 then (updM (updM s.f_day_group_person day g2 sl2 (s.f_day_group_person day g1 sl1)) day g1 sl1 (s.f_day_group_person day g2 sl2)) day g2 sl2 else (updM (updM s.f_day_group_person day g2 sl2 (s.f_day_group_person day g1 sl1)) day g1 sl1 (s.f_day_group_person day g2 sl2)) day g1 q)
            (fun q => if q = sl2 then (updM (updM s.f_day_group_person day g2 sl2 (s.f_day_group_person day g1 sl1)) day g1 sl1 (s.f_day_group_person day g2 sl2)) day g1 sl1 else (updM (updM s.f_day_group_person day g2 sl2 (s.f_day_group_person day g1 sl1)) day g1 sl1 (s.f_day_group_person day g2 sl2)) day g2 q)
            ((updM (updM s.f_day_group_person day g2 sl2 (s.f_day_group_person day g1 sl1)) day g1 sl1 (s.f_day_group_person day g2 sl2)) day g1 sl1) ((updM (updM s.f_day_group_person day g2 sl2 (s.f_day_group_person day g1 sl1)) day g1 sl1 (s.f_day_group_person day g2 sl2)) day g2 sl2)
            sl1 sl2 s.number_of_females_per_group x y := hCr2
    have homem1 : ∀ z, omem (fun q => if q = sl1 then s.f_day_group_person day g1 sl1 else (updM (updM s.f_day_group_person day g2 sl2 (s.f_day_group_person day g1 sl1)) day g1 sl1 (s.f_day_group_person day g2 sl2)) day g1 q)
          sl1 s.number_of_females_per_group z
        = omem (fun q => if q = sl1 then s.f_day_group_person day g2 sl2 else s.f_day_group_person day g1 q)
          sl1 s.number_of_females_per_group z := by
      intro z
      apply omem_congr
      intro q hq hqs
      rw [if_neg hqs, if_neg hqs, swapSched_eval]
      rw [if_neg (fun hc => hqs hc.2.2), if_neg (fun hc => hne hc.2.1)]
    have homem2 : ∀ z, omem (fun q => if q = sl2 then s.f_day_group_person day g2 sl2 else (updM (updM s.f_day_group_person day g2 sl2 (s.f_day_group_person day g1 sl1)) day g1 sl1 (s.f_day_group_person day g2 sl2)) day g2 q)
          sl2 s.number_of_females_per_group z
        = omem (fun q => if q = sl2 then s.f_day_group_person day g1 sl1 else s.f_day_group_person day g2 q)
          sl2 s.number_of_females_per_group z := by
      intro z
      apply omem_congr
      intro q hq hqs
      rw [if_neg hqs, if_neg hqs, swapSched_eval]
      rw [if_neg (fun hc => hne hc.2.1.symm), if_neg (fun hc => hqs hc.2.2)]
    have hCr2e : Cr2 = s.curr_contacts := by
      funext x y
      have h1 := hCr2n x y
      rw [e1, e2] at h1
      rw [swapChg_congr
          (fun q => if q = sl1 then s.f_day_group_person day g1 sl1 else (updM (updM s.f_day_group_person day g2 sl2 (s.f_day_group_person day g1 sl1)) day g1 sl1 (s.f_day_group_person day g2 sl2)) day g1 q)
          (fun q => if q = sl1 then s.f_day_group_person day g2 sl2 else s.f_day_group_person day g1 q)
          (fun q => if q = sl2 then s.f_day_group_person day g2 sl2 else (updM (updM s.f_day_group_person day g2 sl2 (s.f_day_group_person day g1 sl1)) day g1 sl1 (s.f_day_group_person day g2 sl2)) day g2 q)
          (fun q => if q = sl2 then s.f_day_group_person day g1 sl1 else s.f_day_group_person day g2 q)
          (s.f_day_group_person day g2 sl2) (s.f_day_group_person day g1 sl1) sl1 sl2 s.number_of_females_per_group x y homem1 homem2] at h1
      rw [swapChg_neg] at h1
      have h0 := hCr x y
      have hfin : (Cr2 x y : Int) = (s.curr_contacts x y : Int) := by
        rw [h1, h0]
        ring
      exact_mod_cast hfin
    have hscr2e : scr2 = s.curr_num_contacts := by
      have h2 : scr2 = (pairCount (total_people s) Cr2 : Int) := hInv2.score
      rw [hCr2e] at h2
      rw [h2]
      exact hInv.score.symm
    rw [hs2]
    show some { s with
        f_day_group_person := updM (updM (updM (updM s.f_day_group_person day g2 sl2 (s.f_day_group_person day g1 sl1)) day g1 sl1 (s.f_day_group_person day g2 sl2)) day g2 sl2 ((updM (updM s.f_day_group_person day g2 sl2 (s.f_day_group_person day g1 sl1)) day g1 sl1 (s.f_day_group_person day g2 sl2)) day g1 sl1))
          day g1 sl1 ((updM (updM s.f_day_group_person day g2 sl2 (s.f_day_group_person day g1 sl1)) day g1 sl1 (s.f_day_group_person day g2 sl2)) day g2 sl2),
        curr_contacts := Cr2, curr_num_contacts := scr2 } = some s
    have hm2 : updM (updM (updM (updM s.f_day_group_person day g2 sl2 (s.f_day_group_person day g1 sl1)) day g1 sl1 (s.f_day_group_person day g2 sl2)) day g2 sl2 ((updM (updM s.f_day_group_person day g2 sl2 (s.f_day_group_person day g1 sl1)) day g1 sl1 (s.f_day_group_person day g2 sl2)) day g1 sl1))
          day g1 sl1 ((updM (updM s.f_day_group_person day g2 sl2 (s.f_day_group_person day g1 sl1)) day g1 sl1 (s.f_day_group_person day g2 sl2)) day g2 sl2) = s.f_day_group_person := by
      funext d g p
      exact swapSched_invol s.f_day_group_person day g1 sl1 g2 sl2 d g p
    rw [hm2, hCr2e, hscr2e]

/-! ## Frame facts and concrete instances -/
theorem PermOn_id (n : Nat) : PermOn n (fun i => i) :=
  ⟨fun _ h => h, fun _ _ _ _ h => h, fun j h => ⟨j, h, rfl⟩⟩

theorem swap_m_frame {s s1 : State} {day g1 sl1 g2 sl2 : Nat}
    (hs : swap_m s day g1 sl1 g2 sl2 = some s1) :
    s1.number_of_groups = s.number_of_groups
    ∧ s1.number_of_males_per_group = s.number_of_males_per_group
    ∧ s1.number_of_females_per_group = s.number_of_females_per_group
    ∧ s1.number_of_days = s.number_of_days
    ∧ s1.f_day_group_person = s.f_day_group_person
    ∧ s1.m_number_of_immovable_people_per_group = s.m_number_of_immovable_people_per_group
    ∧ s1.f_number_of_immovable_people_per_group = s.f_number_of_immovable_people_per_group
    ∧ s1.rnd_state = s.rnd_state := by
  unfold swap_m at hs
  by_cases hne : g1 = g2
  · rw [if_pos hne] at hs
    obtain rfl := Option.some.inj hs
    exact ⟨rfl, rfl, rfl, rfl, rfl, rfl, rfl, rfl⟩
  · rw [if_neg hne] at hs
    obtain ⟨cs, -, rfl⟩ := Option.map_eq_some'.mp hs
    exact ⟨rfl, rfl, rfl, rfl, rfl, rfl, rfl, rfl⟩

theorem swap_f_frame {s s1 : State} {day g1 sl1 g2 sl2 : Nat}
    (hs : swap_f s day g1 sl1 g2 sl2 = some s1) :
    s1.number_of_groups = s.number_of_groups
    ∧ s1.number_of_males_per_group = s.number_of_males_per_group
    ∧ s1.number_of_females_per_group = s.number_of_females_per_group
    ∧ s1.number_of_days = s.number_of_days
    ∧ s1.m_day_group_person = s.m_day_group_person
    ∧ s1.m_number_of_immovable_people_per_group = s.m_number_of_immovable_people_per_group
    ∧ s1.f_number_of_immovable_people_per_group = s.f_number_of_immovable_people_per_group
    ∧ s1.rnd_state = s.rnd_state := by
  unfold swap_f at hs
  by_cases hne : g1 = g2
  · rw [if_pos hne] at hs
    obtain rfl := Option.some.inj hs
    exact ⟨rfl, rfl, rfl, rfl, rfl, rfl, rfl, rfl⟩
  · rw [if_neg hne] at hs
    obtain ⟨cs, -, rfl⟩ := Option.map_eq_some'.mp hs
    exact ⟨rfl, rfl, rfl, rfl, rfl, rfl, rfl, rfl⟩

theorem baseState_reachable : Reachable baseState :=
  Reachable.init (mk_state 0) 2 1 1 2 idPerm idPerm (by decide)
    (fun _ => PermOn_id (2 * 1 - 6)) (fun _ => PermOn_id (2 * 1 - 2))

/-! ## The claims -/
/-- C1: on every reachable state and legal swap arguments, the evaluator
and the applier agree — if `contact_delta_of_swap_m` (resp. `_f`)
returns `Δ` and `swap_m` (resp. `swap_f`) is then called with the same
arguments, `curr_num_contacts` changes by exactly `Δ`. -/
theorem claim_C1_delta_score_isomorphic (s : State) (hr : Reachable s)
    (day g1 sl1 g2 sl2 : Nat) :
    (LegalM s day g1 sl1 g2 sl2 →
      ∀ d s1, contact_delta_of_swap_m s day g1 sl1 g2 sl2 = some d →
        swap_m s day g1 sl1 g2 sl2 = some s1 →
        s1.curr_num_contacts = s.curr_num_contacts + d)
    ∧ (LegalF s day g1 sl1 g2 sl2 →
      ∀ s1, swap_f s day g1 sl1 g2 sl2 = some s1 →
        s1.curr_num_contacts = s.curr_num_contacts
          + contact_delta_of_swap_f s day g1 sl1 g2 sl2) := by
  have hInv := hr.inv
  constructor
  · intro hl d s1 hd hs
    by_cases hne : g1 = g2
    · unfold contact_delta_of_swap_m at hd
      rw [if_pos hne] at hd
      obtain rfl := Option.some.inj hd
      unfold swap_m at hs
      rw [if_pos hne] at hs
      obtain rfl := Option.some.inj hs
      show s.curr_num_contacts = s.curr_num_contacts + 0
      omega
    · obtain ⟨Cr, scr, hrun, hCf, hsc, hpc⟩ := swap_m_char s day g1 sl1 g2 sl2 hInv hl hne
      rw [hrun] at hs
      obtain rfl := Option.some.inj hs
      rw [contact_delta_m_char s day g1 sl1 g2 sl2 hInv hl hne] at hd
      obtain rfl := Option.some.inj hd
      show scr = s.curr_num_contacts + _
      rw [hsc]
      ring
  · intro hl s1 hs
    by_cases hne : g1 = g2
    · unfold swap_f at hs
      rw [if_pos hne] at hs
      obtain rfl := Option.some.inj hs
      have hcd : contact_delta_of_swap_f s day g1 sl1 g2 sl2 = 0 := by
        unfold contact_delta_of_swap_f
        rw [if_pos hne]
      rw [hcd]
      show s.curr_num_contacts = s.curr_num_contacts + 0
      omega
    · obtain ⟨Cr, scr, hrun, hCf, hsc, hpc⟩ := swap_f_char s day g1 sl1 g2 sl2 hInv hl hne
      rw [hrun] at hs
      obtain rfl := Option.some.inj hs
      rw [contact_delta_f_char s day g1 sl1 g2 sl2 hInv hl hne]
      show scr = s.curr_num_contacts + _
      rw [hsc]
      ring

theorem claim_C1_witness :
    (LegalM baseState 1 0 0 1 0 →
      ∀ d s1, contact_delta_of_swap_m baseState 1 0 0 1 0 = some d →
        swap_m baseState 1 0 0 1 0 = some s1 →
        s1.curr_num_contacts = baseState.curr_num_contacts + d)
    ∧ (LegalF baseState 1 0 0 1 0 →
      ∀ s1, swap_f baseState 1 0 0 1 0 = some s1 →
        s1.curr_num_contacts = baseState.curr_num_contacts
          + contact_delta_of_swap_f baseState 1 0 0 1 0) :=
  claim_C1_delta_score_isomorphic baseState baseState_reachable 1 0 0 1 0

/-- C2: after `initialize` and after every legal swap, `curr_num_contacts`
equals the number of unordered pairs `{i, j}` with `i < j` and
`curr_contacts[i][j] ≥ 1` (invariant S1 at every quiescent point). -/
theorem claim_C2_score_consistency (s : State) (hr : Reachable s) :
    s.curr_num_contacts = (pairCount (total_people s) s.curr_contacts : Int) :=
  (hr.inv).score

theorem claim_C2_witness :
    baseState.curr_num_contacts
      = (pairCount (total_people baseState) baseState.curr_contacts : Int) :=
  claim_C2_score_consistency baseState baseState_reachable

/-- C3: the co-attendance matrix is symmetric at every quiescent point —
after `initialize` and after every legal swap,
`curr_contacts[i][j] = curr_contacts[j][i]` for all `i, j`. -/
theorem claim_C3_matrix_symmetric (s : State) (hr : Reachable s) :
    ∀ x y, s.curr_contacts x y = s.curr_contacts y x :=
  (hr.inv).sym

theorem claim_C3_witness :
    baseState.curr_contacts 0 1 = baseState.curr_contacts 1 0 :=
  claim_C3_matrix_symmetric baseState baseState_reachable 0 1

/-- C4 (corrected): with `num_of_days = 1` the drivers' day draw is
`rand() % (D - 1) = rand() % 0`, which is undefined behavior (modelled
`none`): instead of performing zero swaps and leaving the score at its
initialization value, the drivers produce no successor state at all, and
so do the iterated loops for every positive iteration count. -/
theorem claim_C4_single_day_drivers (s : State) (hD : s.number_of_days = 1)
    (accept : Nat → Int → Bool) (acc2 : Nat → Nat → Int → Bool) (n : Nat) :
    try_random_male_swap_and_proceed_if_contact_delta_pos s = none
    ∧ try_random_female_swap_and_proceed_if_contact_delta_pos s = none
    ∧ perform_simulated_annealing_step accept s = none
    ∧ runHillClimb (n + 1) s = none
    ∧ runAnnealing acc2 (n + 1) s = none := by
  have h0 : randMod s.rnd_state (s.number_of_days - 1) = none := by
    rw [hD]
    rfl
  have h1 : try_random_male_swap_and_proceed_if_contact_delta_pos s = none := by
    unfold try_random_male_swap_and_proceed_if_contact_delta_pos
    rw [h0]
    rfl
  have h2 : try_random_female_swap_and_proceed_if_contact_delta_pos s = none := by
    unfold try_random_female_swap_and_proceed_if_contact_delta_pos
    rw [h0]
    rfl
  have h3 : ∀ a : Nat → Int → Bool, perform_simulated_annealing_step a s = none := by
    intro a
    unfold perform_simulated_annealing_step
    rw [h0]
    rfl
  refine ⟨h1, h2, h3 accept, ?_, ?_⟩
  · show (try_random_male_swap_and_proceed_if_contact_delta_pos s).bind _ = none
    rw [h1]
    rfl
  · show (perform_simulated_annealing_step (acc2 n) s).bind _ = none
    rw [h3 (acc2 n)]
    rfl

theorem claim_C4_witness :
    try_random_male_swap_and_proceed_if_contact_delta_pos oneDayState = none
    ∧ try_random_female_swap_and_proceed_if_contact_delta_pos oneDayState = none
    ∧ perform_simulated_annealing_step (fun _ _ => true) oneDayState = none
    ∧ runHillClimb (0 + 1) oneDayState = none
    ∧ runAnnealing (fun _ _ _ => true) (0 + 1) oneDayState = none :=
  claim_C4_single_day_drivers oneDayState rfl (fun _ _ => true) (fun _ _ _ => true) 0

/-- Refutes the original reading of C4: on a concrete single-day state
the hill-climbing try does not return with the score untouched — the
day draw `rand() % 0` is undefined behavior and the step yields no
state at all. -/
theorem claim_C4_counterexample :
    try_random_male_swap_and_proceed_if_contact_delta_pos oneDayState = none := by
  rfl

/-- C8: a within-group "swap" is a no-op on the bookkeeping — both
evaluators return `0`, and the appliers leave `curr_contacts` and
`curr_num_contacts` (and the other sex's schedule) unchanged, only
exchanging the two slots' occupants. -/
theorem claim_C8_within_group_noop (s : State) (day g sl1 sl2 : Nat) :
    contact_delta_of_swap_m s day g sl1 g sl2 = some 0
    ∧ contact_delta_of_swap_f s day g sl1 g sl2 = 0
    ∧ (∃ s1, swap_m s day g sl1 g sl2 = some s1
        ∧ s1.curr_contacts = s.curr_contacts
        ∧ s1.curr_num_contacts = s.curr_num_contacts
        ∧ s1.f_day_group_person = s.f_day_group_person
        ∧ ∀ d gg p, s1.m_day_group_person d gg p
            = if d = day ∧ gg = g ∧ p = sl1 then s.m_day_group_person day g sl2
              else if d = day ∧ gg = g ∧ p = sl2 then s.m_day_group_person day g sl1
              else s.m_day_group_person d gg p)
    ∧ (∃ s1, swap_f s day g sl1 g sl2 = some s1
        ∧ s1.curr_contacts = s.curr_contacts
        ∧ s1.curr_num_contacts = s.curr_num_contacts
        ∧ s1.m_day_group_person = s.m_day_group_person
        ∧ ∀ d gg p, s1.f_day_group_person d gg p
            = if d = day ∧ gg = g ∧ p = sl1 then s.f_day_group_person day g sl2
              else if d = day ∧ gg = g ∧ p = sl2 then s.f_day_group_person day g sl1
              else s.f_day_group_person d gg p) := by
  refine ⟨by unfold contact_delta_of_swap_m; rw [if_pos rfl],
    by unfold contact_delta_of_swap_f; rw [if_pos rfl], ?_, ?_⟩
  · refine ⟨{ s with m_day_group_person := updM (updM s.m_day_group_person day g sl2 (s.m_day_group_person day g sl1)) day g sl1 (s.m_day_group_person day g sl2) },
      by unfold swap_m; rw [if_pos rfl], rfl, rfl, rfl, ?_⟩
    intro d gg p
    show updM (updM s.m_day_group_person day g sl2 (s.m_day_group_person day g sl1))
        day g sl1 (s.m_day_group_person day g sl2) d gg p = _
    rw [swapSched_eval s.m_day_group_person day g sl1 g sl2 d gg p]
  · refine ⟨{ s with f_day_group_person := updM (updM s.f_day_group_person day g sl2 (s.f_day_group_person day g sl1)) day g sl1 (s.f_day_group_person day g sl2) },
      by unfold swap_f; rw [if_pos rfl], rfl, rfl, rfl, ?_⟩
    intro d gg p
    show updM (updM s.f_day_group_person day g sl2 (s.f_day_group_person day g sl1))
        day g sl1 (s.f_day_group_person day g sl2) d gg p = _
    rw [swapSched_eval s.f_day_group_person day g sl1 g sl2 d gg p]

/-- C9: on every reachable state, legal swap arguments never hit a
zero-contact error branch — the evaluator and both appliers return a
value (never the `throw`, modelled `none`), because co-seated persons
always have co-attendance at least 1 on a day ≥ 1. -/
theorem claim_C9_no_zero_contact_throw (s : State) (hr : Reachable s)
    (day g1 sl1 g2 sl2 : Nat) :
    (LegalM s day g1 sl1 g2 sl2 →
      (∃ d, contact_delta_of_swap_m s day g1 sl1 g2 sl2 = some d)
      ∧ ∃ s1, swap_m s day g1 sl1 g2 sl2 = some s1)
    ∧ (LegalF s day g1 sl1 g2 sl2 →
      ∃ s1, swap_f s day g1 sl1 g2 sl2 = some s1) := by
  have hInv := hr.inv
  constructor
  · intro hl
    by_cases hne : g1 = g2
    · exact ⟨⟨0, by unfold contact_delta_of_swap_m; rw [if_pos hne]⟩,
        ⟨_, by unfold swap_m; rw [if_pos hne]⟩⟩
    · obtain ⟨Cr, scr, hrun, -, -, -⟩ := swap_m_char s day g1 sl1 g2 sl2 hInv hl hne
      exact ⟨⟨_, contact_delta_m_char s day g1 sl1 g2 sl2 hInv hl hne⟩, ⟨_, hrun⟩⟩
  · intro hl
    by_cases hne : g1 = g2
    · exact ⟨_, by unfold swap_f; rw [if_pos hne]⟩
    · obtain ⟨Cr, scr, hrun, -, -, -⟩ := swap_f_char s day g1 sl1 g2 sl2 hInv hl hne
      exact ⟨_, hrun⟩

theorem claim_C9_witness :
    (LegalM baseState 1 0 0 1 0 →
      (∃ d, contact_delta_of_swap_m baseState 1 0 0 1 0 = some d)
      ∧ ∃ s1, swap_m baseState 1 0 0 1 0 = some s1)
    ∧ (LegalF baseState 1 0 0 1 0 →
      ∃ s1, swap_f baseState 1 0 0 1 0 = some s1) :=
  claim_C9_no_zero_contact_throw baseState baseState_reachable 1 0 0 1 0

/-- C10: on every reachable state every in-range diagonal entry equals
the number of days; legal swaps never change a diagonal entry; and the
diagonal entry the male evaluator's loss loop reads is never `0` (no
throw) nor `1` (no loss counted) for legal arguments (which force
`D ≥ 2`). -/
theorem claim_C10_diagonal (s : State) (hr : Reachable s) :
    (∀ i, i < total_people s → s.curr_contacts i i = s.number_of_days)
    ∧ (∀ day g1 sl1 g2 sl2 s1, LegalM s day g1 sl1 g2 sl2 →
        swap_m s day g1 sl1 g2 sl2 = some s1 →
        ∀ i, i < total_people s → s1.curr_contacts i i = s.curr_contacts i i)
    ∧ (∀ day g1 sl1 g2 sl2 s1, LegalF s day g1 sl1 g2 sl2 →
        swap_f s day g1 sl1 g2 sl2 = some s1 →
        ∀ i, i < total_people s → s1.curr_contacts i i = s.curr_contacts i i)
    ∧ (∀ day g1 sl1 g2 sl2, LegalM s day g1 sl1 g2 sl2 →
        s.curr_contacts (s.m_day_group_person day g1 sl1)
          (s.m_day_group_person day g1 sl1) ≠ 0
        ∧ s.curr_contacts (s.m_day_group_person day g1 sl1)
          (s.m_day_group_person day g1 sl1) ≠ 1) := by
  have hInv := hr.inv
  refine ⟨fun i hi => hInv.diag i hi, ?_, ?_, ?_⟩
  · intro day g1 sl1 g2 sl2 s1 hl hs i hi
    have hInv1 : Inv s1 := Inv.swap_m_pres hInv hl hs
    have hfr := swap_m_frame hs
    have hi1 : i < total_people s1 := by
      unfold total_people
      rw [hfr.1, hfr.2.1, hfr.2.2.1]
      exact hi
    rw [hInv1.diag i hi1, hInv.diag i hi, hfr.2.2.2.1]
  · intro day g1 sl1 g2 sl2 s1 hl hs i hi
    have hInv1 : Inv s1 := Inv.swap_f_pres hInv hl hs
    have hfr := swap_f_frame hs
    have hi1 : i < total_people s1 := by
      unfold total_people
      rw [hfr.1, hfr.2.1, hfr.2.2.1]
      exact hi
    rw [hInv1.diag i hi1, hInv.diag i hi, hfr.2.2.2.1]
  · intro day g1 sl1 g2 sl2 hl
    obtain ⟨hday1, hdayD, hg1, hg2, hsl1, hsl2, -, -⟩ := hl
    have hp1 := hInv.mok.mem day g1 sl1 hdayD hg1 hsl1
    have hlt : s.m_day_group_person day g1 sl1 < total_people s :=
      lt_of_lt_of_le hp1.2 (total_males_le s)
    have hD := hInv.diag _ hlt
    constructor
    · omega
    · omega

theorem claim_C10_witness :
    (∀ i, i < total_people baseState →
      baseState.curr_contacts i i = baseState.number_of_days)
    ∧ (∀ day g1 sl1 g2 sl2 s1, LegalM baseState day g1 sl1 g2 sl2 →
        swap_m baseState day g1 sl1 g2 sl2 = some s1 →
        ∀ i, i < total_people baseState →
          s1.curr_contacts i i = baseState.curr_contacts i i)
    ∧ (∀ day g1 sl1 g2 sl2 s1, LegalF baseState day g1 sl1 g2 sl2 →
        swap_f baseState day g1 sl1 g2 sl2 = some s1 →
        ∀ i, i < total_people baseState →
          s1.curr_contacts i i = baseState.curr_contacts i i)
    ∧ (∀ day g1 sl1 g2 sl2, LegalM baseState day g1 sl1 g2 sl2 →
        baseState.curr_contacts (baseState.m_day_group_person day g1 sl1)
          (baseState.m_day_group_person day g1 sl1) ≠ 0
        ∧ baseState.curr_contacts (baseState.m_day_group_person day g1 sl1)
          (baseState.m_day_group_person day g1 sl1) ≠ 1) :=
  claim_C10_diagonal baseState baseState_reachable

theorem baseState_inv : Inv baseState :=
  initState_inv (mk_state 0) 2 1 1 2 idPerm idPerm (by decide)
    (fun _ => PermOn_id (2 * 1 - 6)) (fun _ => PermOn_id (2 * 1 - 2))

/-- C7: on every state satisfying the quiescent invariant, applying the
same legal swap twice returns `m_day_group_person` (resp.
`f_day_group_person`), `curr_contacts` and `curr_num_contacts` — indeed
the whole state — to exactly their values before the first call. -/
theorem claim_C7_swap_involution (s : State) (hInv : Inv s) (day g1 sl1 g2 sl2 : Nat) :
    (LegalM s day g1 sl1 g2 sl2 →
      (swap_m s day g1 sl1 g2 sl2).bind (fun s1 => swap_m s1 day g1 sl1 g2 sl2) = some s)
    ∧ (LegalF s day g1 sl1 g2 sl2 →
      (swap_f s day g1 sl1 g2 sl2).bind (fun s1 => swap_f s1 day g1 sl1 g2 sl2) = some s) :=
  ⟨fun hl => swap_m_invol s day g1 sl1 g2 sl2 hInv hl,
   fun hl => swap_f_invol s day g1 sl1 g2 sl2 hInv hl⟩

theorem claim_C7_witness :
    (swap_m baseState 1 0 0 1 0).bind (fun s1 => swap_m s1 1 0 0 1 0) = some baseState :=
  (claim_C7_swap_involution baseState baseState_inv 1 0 0 1 0).1
    ⟨Nat.le_refl 1, by decide, by decide, by decide, by decide, by decide, by decide, by decide⟩

/-- C5 (code bug evidence): the day-1 male shuffle acts from the
hard-coded offset 6, not from `Σ_g imm_m[g] = 7`: with the transposing
generator outcome, the slot holding id 6 on day 0 holds id 7 on day 1,
although the specification keeps the first 7 ids fixed in ascending
order. -/
theorem claim_C5_hardcoded_shuffle_offset :
    ((List.range 8).map c5State.m_number_of_immovable_people_per_group).sum = 7
    ∧ c5State.m_day_group_person 0 6 0 = 6
    ∧ c5State.m_day_group_person 1 6 0 = 7 := by
  decide

/-- C6 (corrected): one annealing step draws its day once — the male
and female candidate moves share the single day drawn at the start; the
female half draws fresh groups and slots but no day of its own. -/
theorem claim_C6_single_shared_day (accept : Nat → Int → Bool) (s : State) :
    perform_simulated_annealing_step accept s
      = (randMod s.rnd_state (s.number_of_days - 1)).bind fun dr =>
          sa_step_given_day accept (dr.1 + 1) { s with rnd_state := dr.2 } := rfl

/-- Refutes the original reading of C6: on a concrete initialized state
the source's annealing step and the spec's independent-day variant
consume different generator streams and end in different generator
states. -/
theorem claim_C6_counterexample :
    (perform_simulated_annealing_step (fun _ _ => true) baseState).map
        (fun t => t.rnd_state.a)
      ≠ (sa_step_indep_days (fun _ _ => true) baseState).map
        (fun t => t.rnd_state.a) := by
  decide

end PeopleDist
